import Mathlib

/-!
# Shell task scheduler (`shell/main.go`): a shallow embedding

The development follows `src/shell/main.go`.  Go values are embedded as follows.

* `string` / `[]byte` values are sequences of characters (`String`, `List Char`).  The only
  separator the program ever splits or joins on is the one-byte `"\n"`, which never occurs
  inside a multi-byte UTF-8 sequence, so splitting characters and splitting bytes agree.
* `int` and `time.Duration` are `Int`.
* `error` is `Option GoError` (`none` is `nil`).
* `map[string]V` is an association list read through `GoMap.get?`; the order in which a
  `range` statement visits a map is not fixed by Go, so every function that ranges over the
  registry takes the visiting order as an argument.
* a buffered channel is the list of queued values together with its capacity.
* a run-time panic is `none`.
-/

namespace Shell

/-! ## Byte-slice helpers used by `trimOutput` -/

/-- Model of `bytes.Split(s, []byte("\n"))`: the segments between newlines.  The result
always has one more segment than `s` has newlines; in particular the empty input gives one
empty segment. -/
def splitLines : List Char → List (List Char)
  | [] => [[]]
  | c :: cs =>
    if c = '\n' then [] :: splitLines cs
    else
      match splitLines cs with
      | [] => [[c]]
      | l :: ls => (c :: l) :: ls

/-- Model of `bytes.Join(parts, []byte("\n"))`. -/
def joinLines : List (List Char) → List Char
  | [] => []
  | [l] => l
  | l :: l2 :: ls => l ++ '\n' :: joinLines (l2 :: ls)

/-- The literal appended between the kept head and tail (`main.go`, line 248). -/
def elisionMarker : String := "\n... (忽略中间内容) ...\n"

/-- The text of the marker line, between its two newlines. -/
def markerText : List Char := "... (忽略中间内容) ...".data

/-- Model of `Scheduler.trimOutput` (`main.go`, lines 235-252).  `none` is the run-time
panic of a slice expression whose bounds are out of range. -/
def trimOutput (output : String) (maxLines : Int) : Option String :=
  let lines := splitLines output.data
  if (lines.length : Int) ≤ maxLines then some output
  else
    let keep := Int.tdiv maxLines 2
    if keep < 0 ∨ (lines.length : Int) < keep then none
    else
      let firstPart := lines.take keep.toNat
      let lastPart := lines.drop (lines.length - keep.toNat)
      some (String.mk (joinLines firstPart ++ elisionMarker.data ++ joinLines lastPart))

/-! ## Data model (`main.go`, lines 21-94) -/

/-- Model of `TaskStatus` (lines 22-31). -/
inductive TaskStatus
  | StatusPending
  | StatusRunning
  | StatusSuccess
  | StatusFailed
  | StatusTimeout
  | StatusCancelled
  deriving DecidableEq, Repr

export TaskStatus (StatusPending StatusRunning StatusSuccess StatusFailed StatusTimeout
  StatusCancelled)

/-- The non-nil `error` values the program handles.  The first three are the ones it builds
with `fmt.Errorf`; `os` stands for any error handed back by `os/exec`. -/
inductive GoError
  | missingDependency (taskID depID : String)
  | timeout (limit : Int)
  | alreadyRunning
  | os (msg : String)
  deriving DecidableEq, Repr

/-- Model of `Task` (lines 53-65).  The field defaults are Go's zero values. -/
structure Task where
  ID : String := ""
  Name : String := ""
  Cmd : String := ""
  Args : List String := []
  Timeout : Int := 0
  RetryCount : Int := 0
  RetryDelay : Int := 0
  MaxOutput : Int := 0
  Env : List String := []
  WorkDir : String := ""
  Dependencies : List String := []
  deriving DecidableEq, Repr

/-- Model of `TaskResult` (lines 68-79).  Times are nanosecond counts. -/
structure TaskResult where
  TaskID : String := ""
  TaskName : String := ""
  Status : TaskStatus := StatusPending
  StartTime : Int := 0
  EndTime : Int := 0
  Duration : Int := 0
  ExitCode : Int := 0
  Output : String := ""
  Error : Option GoError := none
  RetryCount : Int := 0
  deriving DecidableEq, Repr

/-- A Go `map[string]V` as an association list; the first binding of a key is the live one. -/
abbrev GoMap (α : Type) := List (String × α)

namespace GoMap

variable {α : Type}

/-- The two-result read `v, ok := m[k]`. -/
def get? (m : GoMap α) (k : String) : Option α := List.lookup k m

/-- The assignment `m[k] = v`: the binding of `k` is replaced, every other one is kept. -/
def set (m : GoMap α) (k : String) (v : α) : GoMap α :=
  (k, v) :: m.filter (fun e => e.1 != k)

/-- The keys of the map. -/
def keys (m : GoMap α) : List String := m.map Prod.fst

/-- The values of the map, one per entry. -/
def values (m : GoMap α) : List α := m.map Prod.snd

end GoMap

/-- The one-result read `m[k]` of a `map[string]bool`: an absent key reads as `false`. -/
def GoMap.getBool (m : GoMap Bool) (k : String) : Bool := (m.get? k).getD false

/-- Model of `Scheduler` (lines 82-94).  Each channel is its buffer and its capacity; the
wait group, the mutex and the context carry no data. -/
structure Scheduler where
  maxWorkers : Int
  tasks : GoMap Task
  taskResults : GoMap TaskResult
  taskQueue : List Task
  taskQueueCap : Nat
  taskResultQueue : List TaskResult
  taskResultQueueCap : Nat
  isRunning : Bool
  completedTasks : GoMap Bool
  deriving DecidableEq, Repr

/-- Model of `NewScheduler` (lines 97-109). -/
def NewScheduler (maxWorkers : Int) : Scheduler where
  maxWorkers := maxWorkers
  tasks := []
  taskResults := []
  taskQueue := []
  taskQueueCap := 100
  taskResultQueue := []
  taskResultQueueCap := 100
  isRunning := false
  completedTasks := []

/-- The registry as a map: at most one entry per id.  `AddTask` keeps it so. -/
def Scheduler.WF (s : Scheduler) : Prop := s.tasks.keys.Nodup

/-- Model of `Scheduler.AddTask` (lines 112-130); the second component is the returned
error.  `len(s.tasks)` is the number of entries. -/
def AddTask (s : Scheduler) (task : Task) : Scheduler × Option GoError :=
  let task := if task.ID = "" then { task with ID := "task-" ++ toString (s.tasks.length + 1) }
    else task
  let task := if task.Name = "" then { task with Name := task.ID } else task
  let task := if task.Timeout = 0 then { task with Timeout := 5 * 60 * 1000000000 } else task
  let task := if task.MaxOutput = 0 then { task with MaxOutput := 5000 } else task
  ({ s with tasks := s.tasks.set task.ID task }, none)

/-- Model of `Scheduler.AddTasks` (lines 404-408). -/
def AddTasks (s : Scheduler) (tasks : List Task) : Scheduler :=
  tasks.foldl (fun s task => (AddTask s task).1) s

/-! ## Dependency validation and initial dispatch (lines 133-161) -/

/-- Model of `Scheduler.checkDependencies` (lines 133-143).  `visit` is the order in which
the outer `range` visits the registry. -/
def checkDependencies (s : Scheduler) : List Task → Option GoError
  | [] => none
  | task :: rest =>
    match task.Dependencies.find? (fun depID => (s.tasks.get? depID).isNone) with
    | some depID => some (GoError.missingDependency task.ID depID)
    | none => checkDependencies s rest

/-- The loop of `taskDispatcher` (lines 155-159), run until it ends or a send finds the
queue full.  The second component is what is left to visit: it is empty when the loop has
ended, and starts with the task whose send is blocked otherwise. -/
def dispatchLoop (s : Scheduler) : List Task → Scheduler × List Task
  | [] => (s, [])
  | task :: rest =>
    if task.Dependencies.length = 0 then
      if s.taskQueue.length < s.taskQueueCap then
        dispatchLoop { s with taskQueue := s.taskQueue ++ [task] } rest
      else (s, task :: rest)
    else dispatchLoop s rest

/-- What a run of `taskDispatcher` leaves behind: the scheduler, the error it logged (if
any), and the tasks left to visit when a send is blocked on a full queue. -/
structure DispatchRun where
  sched : Scheduler
  logged : Option GoError
  blocked : List Task
  deriving DecidableEq, Repr

/-- Model of `Scheduler.taskDispatcher` (lines 146-161).  `visitCheck` and `visitPush` are
the orders of its two `range` loops. -/
def taskDispatcher (s : Scheduler) (visitCheck visitPush : List Task) : DispatchRun :=
  match checkDependencies s visitCheck with
  | some err => { sched := s, logged := some err, blocked := [] }
  | none =>
    let r := dispatchLoop s visitPush
    { sched := r.1, logged := none, blocked := r.2 }

/-! ## Command runner (lines 164-232) -/

/-- Model of `exec.Cmd` as far as `runCommand` sets it up.  `Env = none` is the nil slice
(the child inherits the environment of the parent). -/
structure Cmd where
  Path : String
  Args : List String
  Dir : String := ""
  Env : Option (List String) := none
  deriving DecidableEq, Repr

/-- The command `runCommand` builds before it opens the pipes (lines 180-195); `environ` is
the value of `os.Environ()`. -/
def buildCmd (task : Task) (environ : List String) : Cmd :=
  let cmd : Cmd :=
    if task.Args.length > 0 then { Path := task.Cmd, Args := task.Cmd :: task.Args }
    else { Path := "sh", Args := ["sh", "-c", task.Cmd] }
  let cmd := if task.WorkDir ≠ "" then { cmd with Dir := task.WorkDir } else cmd
  if task.Env.length > 0 then { cmd with Env := some (environ ++ cmd.Env.getD []) } else cmd

/-- The value of `ctx.Err()` when it is not nil. -/
inductive CtxErr
  | DeadlineExceeded
  | Canceled
  deriving DecidableEq, Repr

/-- What the operating system does during one call of `runCommand`; it is the part of an
attempt that the program does not decide.  `ran` carries the lines the two scanners read, in
the order they reached the buffer, the exit code, the error of `cmd.Wait()` and the value of
`ctx.Err()` after the wait. -/
inductive ProcRun
  | stdoutPipeFails (err : GoError)
  | stderrPipeFails (err : GoError)
  | startFails (err : GoError)
  | ran (lines : List String) (exitCode : Int) (waitErr : Option GoError)
      (ctxErr : Option CtxErr)
  deriving DecidableEq, Repr

/-- Model of `Scheduler.copyAndLog` (lines 164-172) on the lines its scanner yields: what it
appends to the destination. -/
def copyAndLog : List String → String
  | [] => ""
  | line :: rest => line ++ "\n" ++ copyAndLog rest

/-- What one call of `runCommand` hands back: its two results and the text it wrote to the
`output` writer. -/
structure RunResult where
  exitCode : Int
  err : Option GoError
  written : String
  deriving DecidableEq, Repr

/-- Model of `Scheduler.runCommand` (lines 175-232). -/
def runCommand (task : Task) (p : ProcRun) : RunResult :=
  match p with
  | .stdoutPipeFails e => { exitCode := -1, err := some e, written := "" }
  | .stderrPipeFails e => { exitCode := -1, err := some e, written := "" }
  | .startFails e => { exitCode := -1, err := some e, written := "" }
  | .ran lines exitCode waitErr ctxErr =>
    if ctxErr = some CtxErr.DeadlineExceeded then
      { exitCode := exitCode, err := some (GoError.timeout task.Timeout),
        written := copyAndLog lines }
    else { exitCode := exitCode, err := waitErr, written := copyAndLog lines }

/-! ## Retry executor (lines 255-298) -/

/-- The effects of `executeTask` that the outside can observe, in order. -/
inductive Effect
  | sleep (d : Int)
  | launch (attempt : Nat)
  deriving DecidableEq, Repr

/-- The local variables of `executeTask` that the loop updates, and the effects so far. -/
structure AttemptState where
  Status : TaskStatus
  RetryCount : Int
  output : String
  err : Option GoError
  exitCode : Int
  effects : List Effect
  deriving DecidableEq, Repr

/-- The `for attempt := 0; attempt <= task.RetryCount; attempt++` loop of `executeTask`
(lines 271-289), entered at `attempt`; `os k` is what the operating system does on the call
of `runCommand` made by attempt `k`.  The first argument bounds the number of iterations. -/
def attemptLoop (task : Task) (os : Nat → ProcRun) : Nat → Nat → AttemptState → AttemptState
  | 0, _, st => st
  | fuel + 1, attempt, st =>
    if (attempt : Int) ≤ task.RetryCount then
      let st := if attempt > 0 then
        { st with effects := st.effects ++ [Effect.sleep task.RetryDelay] } else st
      let st := { st with RetryCount := attempt, output := "" }
      let r := runCommand task (os attempt)
      let st := { st with output := st.output ++ r.written, exitCode := r.exitCode, err := r.err,
                          effects := st.effects ++ [Effect.launch attempt] }
      if r.err = none then { st with Status := StatusSuccess }
      else
        let st := if (attempt : Int) = task.RetryCount then { st with Status := StatusFailed }
          else st
        attemptLoop task os fuel (attempt + 1) st
    else st

/-- What a call of `executeTask` does: its effects, and the result it returns (`none` when
it panics instead of returning). -/
structure ExecRun where
  result : Option TaskResult
  effects : List Effect
  deriving DecidableEq, Repr

/-- Model of `Scheduler.executeTask` (lines 255-298).  `startTime` and `endTime` are the two
readings of `time.Now()`.  The loop runs at most `RetryCount + 1` times, which is the bound
given to `attemptLoop`. -/
def executeTask (workerID : Int) (task : Task) (os : Nat → ProcRun) (startTime endTime : Int) :
    ExecRun :=
  let _ := workerID
  let st := attemptLoop task os (task.RetryCount + 1).toNat 0
    { Status := StatusRunning, RetryCount := 0, output := "", err := none, exitCode := 0,
      effects := [] }
  { result := (trimOutput st.output task.MaxOutput).map fun out =>
      { TaskID := task.ID, TaskName := task.Name, Status := st.Status, StartTime := startTime,
        EndTime := endTime, Duration := endTime - startTime, ExitCode := st.exitCode,
        Output := out, Error := st.err, RetryCount := st.RetryCount }
    effects := st.effects }

/-- The effects of `n` attempts in a row, the first of them attempt `a`: a sleep of `delay`
before every attempt but attempt 0, then the launch. -/
def attemptEffects (delay : Int) : Nat → Nat → List Effect
  | _, 0 => []
  | a, n + 1 =>
    (if a > 0 then [Effect.sleep delay] else []) ++ Effect.launch a
      :: attemptEffects delay (a + 1) n

/-! ## Worker, result processor and dependency resolution (lines 301-401) -/

/-- One turn of the `task := <-s.taskQueue` branch of `Scheduler.worker` (lines 307-309): the
worker takes the task at the head of the queue, runs `executeTask` and sends the result.
`none`: the queue is empty, `executeTask` panics, or the result queue is full. -/
def worker (id : Int) (s : Scheduler) (os : Nat → ProcRun) (startTime endTime : Int) :
    Option Scheduler :=
  match s.taskQueue with
  | [] => none
  | task :: rest =>
    match (executeTask id task os startTime endTime).result with
    | none => none
    | some result =>
      if s.taskResultQueue.length < s.taskResultQueueCap then
        some { s with taskQueue := rest, taskResultQueue := s.taskResultQueue ++ [result] }
      else none

/-- Model of `Scheduler.checkDependentTasks` (lines 357-387); the list is the order in which
the `range` visits the registry. -/
def checkDependentTasks (s : Scheduler) : List Task → Scheduler
  | [] => s
  | task :: rest =>
    if s.completedTasks.getBool task.ID then checkDependentTasks s rest
    else
      let allDepsCompleted := task.Dependencies.all fun depID => s.completedTasks.getBool depID
      if allDepsCompleted && decide (task.Dependencies.length > 0) then
        if !s.completedTasks.getBool task.ID then
          if s.taskQueue.length < s.taskQueueCap then
            checkDependentTasks
              { s with taskQueue := s.taskQueue ++ [task],
                       completedTasks := s.completedTasks.set task.ID true } rest
          else checkDependentTasks s rest
        else checkDependentTasks s rest
      else checkDependentTasks s rest

/-- One iteration of the loop of `Scheduler.resultProcessor` (lines 391-400): receive a
result, record it, mark its task, scan the registry in the order `visit`.  `none`: there is
nothing to receive. -/
def resultProcessor (s : Scheduler) (visit : List Task) : Option Scheduler :=
  match s.taskResultQueue with
  | [] => none
  | result :: rest =>
    let s := { s with taskResultQueue := rest }
    let s := { s with taskResults := s.taskResults.set result.TaskID result,
                      completedTasks := s.completedTasks.set result.TaskID true }
    some (checkDependentTasks s visit)

/-! ## Facade (lines 411-434) -/

/-- The goroutines `Start` launches. -/
inductive Goroutine
  | worker (id : Int)
  | resultProcessor
  | taskDispatcher
  deriving DecidableEq, Repr

/-- What a call of `Start` does: the scheduler it leaves, the error it returns and the
goroutines it has launched, in order. -/
structure StartRun where
  sched : Scheduler
  err : Option GoError
  launched : List Goroutine
  deriving DecidableEq, Repr

/-- Model of `Scheduler.Start` (lines 411-434). -/
def Start (s : Scheduler) : StartRun :=
  if s.isRunning then { sched := s, err := some GoError.alreadyRunning, launched := [] }
  else
    let s := { s with isRunning := true }
    { sched := s, err := none,
      launched := (List.range s.maxWorkers.toNat).map (fun i => Goroutine.worker i)
        ++ [Goroutine.resultProcessor] ++ [Goroutine.taskDispatcher] }

/-! ## Executions -/

/-- The steps of an execution: a run of `taskDispatcher` that does not block, a worker
taking a task and finishing `executeTask`, and one iteration of `resultProcessor`. -/
inductive Action
  | dispatch (visitCheck visitPush : List Task)
  | work (id : Int) (os : Nat → ProcRun) (startTime endTime : Int)
  | process (visit : List Task)

/-- One step.  Every visiting order has to be an order of the registry; `none` when the step
cannot be taken. -/
def step (s : Scheduler) : Action → Option Scheduler
  | .dispatch visitCheck visitPush =>
    if visitCheck.Perm s.tasks.values ∧ visitPush.Perm s.tasks.values then
      let r := taskDispatcher s visitCheck visitPush
      if r.blocked = [] then some r.sched else none
    else none
  | .work id os startTime endTime => worker id s os startTime endTime
  | .process visit =>
    if visit.Perm s.tasks.values then resultProcessor s visit else none

/-- A sequence of steps from `s`. -/
def exec (s : Scheduler) : List Action → Option Scheduler
  | [] => some s
  | a :: as => (step s a).bind fun s => exec s as



/-! ## Error messages and the environment of the child process -/

/-- The text of `err.Error()`.  `durationString` stands for `time.Duration.String`, which
is what the verb `%v` prints for the task's `Timeout`; the errors of `os/exec` carry their
own text. -/
def errorMessage (durationString : Int → String) : GoError → String
  | .missingDependency taskID depID => "任务 " ++ taskID ++ " 依赖的任务 " ++ depID ++ " 不存在"
  | .timeout limit => "任务执行超时(限时: " ++ durationString limit ++ ")"
  | .alreadyRunning => "程序已经在运行"
  | .os msg => msg

/-- The key under which `os/exec` files an environment entry when it drops duplicates
(`dedupEnv`, on POSIX systems): the text before the first `=`, a leading `=` counting as part
of the key; `none` for an entry without `=`. -/
def envKey (kv : String) : Option String :=
  match kv.data with
  | '=' :: rest =>
    if '=' ∈ rest then some (String.mk ('=' :: rest.takeWhile fun c => c ≠ '=')) else some ""
  | cs => if '=' ∈ cs then some (String.mk (cs.takeWhile fun c => c ≠ '=')) else none

/-- The loop of `dedupEnv` of `os/exec`, which walks the entries from the last to the first:
`saw` holds the keys met so far, `out` the entries kept.  An entry whose key was met is
dropped; an entry without `=` is kept unless it is empty. -/
def dedupLoop : List String → List String → List String → List String
  | [], _, out => out
  | kv :: rest, saw, out =>
    match envKey kv with
    | none => if kv ≠ "" then dedupLoop rest saw (kv :: out) else dedupLoop rest saw out
    | some k => if k ∈ saw then dedupLoop rest saw out else dedupLoop rest (k :: saw) (kv :: out)

/-- Of the entries with one key, `os/exec` keeps the last; the order of the others stays.
The entries come from `os.Environ()`, so none holds a NUL byte. -/
def dedupEnv (env : List String) : List String := dedupLoop env.reverse [] []

/-- The environment that `os/exec` gives the process started from `cmd` (`Cmd.environ`, on
POSIX systems): `cmd.Env` when it is not nil; otherwise the environment of the parent,
followed by `PWD=<absDir>` when `cmd.Dir` is set, where `absDir` is the value of
`filepath.Abs(cmd.Dir)`; in both cases without the earlier entries of a repeated key. -/
def processEnv (cmd : Cmd) (environ : List String) (absDir : String) : List String :=
  match cmd.Env with
  | some env => dedupEnv env
  | none => dedupEnv (if cmd.Dir ≠ "" then environ ++ ["PWD=" ++ absDir] else environ)

/-! ## Registry invariants and one visit of the dependency scan -/

/-- Every entry of the registry is filed under the `ID` of its task, as `AddTask` files it. -/
def Scheduler.KeyedByID (s : Scheduler) : Prop := ∀ e ∈ s.tasks, e.1 = e.2.ID

/-- What `checkDependentTasks` does when it visits one task (lines 362-385): the task is
enqueued and marked when it is not marked, has dependencies, all of them are marked, and the
queue is not full; nothing changes otherwise. -/
def scanStep (s : Scheduler) (task : Task) : Scheduler :=
  if s.completedTasks.getBool task.ID = false ∧
      (task.Dependencies.all fun depID => s.completedTasks.getBool depID) = true ∧
      task.Dependencies.length > 0 ∧ s.taskQueue.length < s.taskQueueCap then
    { s with taskQueue := s.taskQueue ++ [task],
             completedTasks := s.completedTasks.set task.ID true }
  else s

/-- A scheduler as `NewScheduler` and `AddTask` leave it: nothing queued, nothing recorded,
nothing marked. -/
def Scheduler.Fresh (s : Scheduler) : Prop :=
  s.taskQueue = [] ∧ s.taskResultQueue = [] ∧ s.taskResults = [] ∧ s.completedTasks = [] ∧
    s.isRunning = false

/-! ## Executions after `Start`, with a dispatcher that can block -/

/-- Where the `taskDispatcher` goroutine launched by `Start` stands: not yet run; inside its
loop, holding `mu`, with the send of the head of `rest` blocked on a full queue; or returned,
with the error it logged, if any. -/
inductive DispatcherState
  | launched
  | sending (rest : List Task)
  | returned (logged : Option GoError)
  deriving DecidableEq, Repr

/-- The scheduler together with its goroutines: the state of the dispatcher, the tasks that
workers have taken off the queue and are still executing, the history of all sends on
`taskQueue`, oldest first, and the history of all results that workers have sent on
`taskResultQueue`, oldest first. -/
structure Sys where
  sched : Scheduler
  dispatcher : DispatcherState
  running : List Task
  pushed : List Task
  produced : List TaskResult
  deriving DecidableEq, Repr

/-- The state right after a call of `Start` that returned nil. -/
def afterStart (s : Scheduler) : Sys :=
  { sched := (Start s).sched, dispatcher := DispatcherState.launched, running := [], pushed := [],
    produced := [] }

/-- The steps of the goroutines: the dispatcher runs (up to its end or to a blocked send); a
blocked dispatcher goes on; a worker takes the task at the head of the queue; the worker that
runs `running[i]` finishes `executeTask` and sends the result; the result processor does one
iteration. -/
inductive SysAction
  | dispatch (visitCheck visitPush : List Task)
  | resume
  | take
  | finish (i : Nat) (os : Nat → ProcRun) (startTime endTime : Int)
  | process (visit : List Task)

/-- One step; `none` when the step cannot be taken.  The result processor needs `mu`, which a
dispatcher inside its loop holds.  The history grows by what the step has appended to the
queue. -/
def sysStep (y : Sys) : SysAction → Option Sys
  | .dispatch visitCheck visitPush =>
    match y.dispatcher with
    | .launched =>
      if visitCheck.Perm y.sched.tasks.values ∧ visitPush.Perm y.sched.tasks.values then
        let r := taskDispatcher y.sched visitCheck visitPush
        some { y with
          sched := r.sched
          dispatcher :=
            match r.logged, r.blocked with
            | some err, _ => DispatcherState.returned (some err)
            | none, [] => DispatcherState.returned none
            | none, t :: rest => DispatcherState.sending (t :: rest)
          pushed := y.pushed ++ r.sched.taskQueue.drop y.sched.taskQueue.length }
      else none
    | _ => none
  | .resume =>
    match y.dispatcher with
    | .sending rest =>
      let r := dispatchLoop y.sched rest
      some { y with
        sched := r.1
        dispatcher :=
          match r.2 with
          | [] => DispatcherState.returned none
          | t :: rest => DispatcherState.sending (t :: rest)
        pushed := y.pushed ++ r.1.taskQueue.drop y.sched.taskQueue.length }
    | _ => none
  | .take =>
    match y.sched.taskQueue with
    | [] => none
    | task :: rest =>
      if (y.running.length : Int) < y.sched.maxWorkers then
        some { y with sched := { y.sched with taskQueue := rest }, running := y.running ++ [task] }
      else none
  | .finish i os startTime endTime =>
    match y.running.get? i with
    | none => none
    | some task =>
      match (executeTask i task os startTime endTime).result with
      | none => none
      | some result =>
        if y.sched.taskResultQueue.length < y.sched.taskResultQueueCap then
          some { y with
            sched := { y.sched with taskResultQueue := y.sched.taskResultQueue ++ [result] }
            running := y.running.eraseIdx i
            produced := y.produced ++ [result] }
        else none
  | .process visit =>
    match y.dispatcher with
    | .sending _ => none
    | _ =>
      if visit.Perm y.sched.tasks.values then
        (resultProcessor y.sched visit).map fun s =>
          { y with sched := s, pushed := y.pushed ++ s.taskQueue.drop y.sched.taskQueue.length }
      else none

/-- A sequence of steps. -/
def sysExec (y : Sys) : List SysAction → Option Sys
  | [] => some y
  | a :: as => (sysStep y a).bind fun y => sysExec y as

/-! ## The dependency graph -/

/-- The registered task with id `a` lists `b` among its dependencies. -/
def DependsOn (s : Scheduler) (a b : String) : Prop :=
  ∃ t ∈ s.tasks.values, t.ID = a ∧ b ∈ t.Dependencies

/-- The id `c` lies on a dependency cycle. -/
def OnCycle (s : Scheduler) (c : String) : Prop := Relation.TransGen (DependsOn s) c c

/-- The id `a` lies on a dependency cycle, or depends, directly or through other tasks, on an
id that does. -/
def BehindCycle (s : Scheduler) (a : String) : Prop :=
  ∃ c, Relation.ReflTransGen (DependsOn s) a c ∧ OnCycle s c

/-! ## Invariants of the executions -/

/-- In which state the history of sends is, for each state of the dispatcher. -/
def DispatchInv (s0 : Scheduler) (y : Sys) : Prop :=
  y.sched.tasks = s0.tasks ∧
  match y.dispatcher with
  | .launched =>
    y.pushed = [] ∧ y.sched.taskQueue = [] ∧ y.running = [] ∧ y.sched.taskResultQueue = []
  | .sending rest =>
    ∃ visited, (visited ++ rest).Perm s0.tasks.values ∧
      y.pushed = visited.filter fun t => decide (t.Dependencies = [])
  | .returned (some _) =>
    y.pushed = [] ∧ y.sched.taskQueue = [] ∧ y.running = [] ∧ y.sched.taskResultQueue = []
  | .returned none =>
    ∃ first later, y.pushed = first ++ later ∧
      first.Perm (s0.tasks.values.filter fun t => decide (t.Dependencies = []))

/-- The invariant behind C12, for a set `U` of ids: nothing with an id in `U` has been sent,
is queued, is running, has a result waiting, or is marked; the registry is the initial one;
a blocked dispatcher has only registered tasks left to visit and has logged no error. -/
def StuckInv (s0 : Scheduler) (U : String → Prop) (y : Sys) : Prop :=
  y.sched.tasks = s0.tasks ∧
  (∀ t ∈ y.pushed, t ∈ s0.tasks.values ∧ ¬ U t.ID) ∧
  (∀ t ∈ y.sched.taskQueue, t ∈ s0.tasks.values ∧ ¬ U t.ID) ∧
  (∀ t ∈ y.running, ¬ U t.ID) ∧
  (∀ r ∈ y.sched.taskResultQueue, ¬ U r.TaskID) ∧
  (∀ k, y.sched.completedTasks.getBool k = true → ¬ U k) ∧
  (∀ rest, y.dispatcher = DispatcherState.sending rest → ∀ t ∈ rest, t ∈ s0.tasks.values) ∧
  (∀ err, y.dispatcher ≠ DispatcherState.returned (some err))

/-! ## The summary report (lines 460-484) -/

/-- Go's division of two `int64` values: a run-time panic (`none`) when the divisor is zero,
the quotient truncated toward zero otherwise. -/
def goDiv (a b : Int) : Option Int := if b = 0 then none else some (Int.tdiv a b)

/-- What `PrintSummary` prints before the table of results. -/
structure Summary where
  count : Int
  successCount : Int
  failedCount : Int
  totalTime : Int
  average : Int
  deriving DecidableEq, Repr

/-- The `int64` value of a computation whose exact result is `x`: Go wraps around. -/
def wrap64 (x : Int) : Int :=
  (x + 9223372036854775808) % 18446744073709551616 - 9223372036854775808

/-- The three accumulators of the first loop of `PrintSummary` (lines 471-478), at the end of
the loop over `results`: total time, successes, failures.  `totalTime` is a `time.Duration`,
an `int64`, so its sum wraps around; the two counters never exceed `len(results)`. -/
def summaryLoop : List TaskResult → Int × Int × Int → Int × Int × Int
  | [], acc => acc
  | result :: rest, (totalTime, successCount, failedCount) =>
    if result.Status = StatusSuccess then
      summaryLoop rest (wrap64 (totalTime + result.Duration), successCount + 1, failedCount)
    else summaryLoop rest (wrap64 (totalTime + result.Duration), successCount, failedCount + 1)

/-- Model of `Scheduler.PrintSummary` (lines 460-484) on the values of the map that
`GetResults` returned, in the order the `range` visits them.  `none` is the run-time panic of
the division of line 484. -/
def PrintSummary (results : List TaskResult) : Option Summary :=
  let acc := summaryLoop results (0, 0, 0)
  (goDiv acc.1 (results.length : Int)).map fun average =>
    { count := results.length, successCount := acc.2.1, failedCount := acc.2.2,
      totalTime := acc.1, average := average }

/-! ## `GetResults` (lines 448-457) and the maps it hands out -/

/-- The maps of results that exist in memory, by address; the `taskResults` of the scheduler
is one of them. -/
structure ResultsMem where
  cells : List (GoMap TaskResult)
  deriving DecidableEq, Repr

/-- The map at an address. -/
def ResultsMem.read (m : ResultsMem) (a : Nat) : GoMap TaskResult := m.cells.getD a []

/-- Model of `make(map[string]*TaskResult)`: a new empty map at an address not used before. -/
def ResultsMem.make (m : ResultsMem) : ResultsMem × Nat :=
  ({ cells := m.cells ++ [[]] }, m.cells.length)

/-- The assignment `x[k] = v` on the map at address `a`. -/
def ResultsMem.assign (m : ResultsMem) (a : Nat) (k : String) (v : TaskResult) : ResultsMem :=
  { cells := m.cells.set a ((m.read a).set k v) }

/-- The statement `delete(x, k)` on the map at address `a`. -/
def ResultsMem.delete (m : ResultsMem) (a : Nat) (k : String) : ResultsMem :=
  { cells := m.cells.set a ((m.read a).filter fun e => e.1 != k) }

/-- Model of `Scheduler.GetResults` (lines 448-457) for a scheduler whose `taskResults` is
the map at address `taskResults`; `visit` is the order in which the `range` yields its
entries.  The second component is the address of the returned map. -/
def GetResults (m : ResultsMem) (taskResults : Nat) (visit : List (String × TaskResult)) :
    ResultsMem × Nat :=
  let _ := taskResults
  let r := m.make
  (visit.foldl (fun m e => m.assign r.2 e.1 e.2) r.1, r.2)

/-- What a caller can do to the keys of a map it holds. -/
inductive MapOp
  | assign (k : String) (v : TaskResult)
  | delete (k : String)
  deriving DecidableEq, Repr

/-- A sequence of such operations on the map at address `a`. -/
def applyOps (m : ResultsMem) (a : Nat) : List MapOp → ResultsMem
  | [] => m
  | MapOp.assign k v :: ops => applyOps (m.assign a k v) a ops
  | MapOp.delete k :: ops => applyOps (m.delete a k) a ops

/-! ## The mutex and the accesses of the two maps -/

/-- What a method does to `mu`, to the registry `tasks` and to the map `taskResults`, in
program order. -/
inductive MemEvent
  | lock
  | unlock
  | readTasks
  | writeTasks
  | readResults
  | writeResults
  deriving DecidableEq, Repr

/-- Every access of the trace happens while the method holds `mu`; the first argument tells
whether it holds `mu` at the start. -/
def guarded : Bool → List MemEvent → Bool
  | _, [] => true
  | _, MemEvent.lock :: es => guarded true es
  | _, MemEvent.unlock :: es => guarded false es
  | held, _ :: es => held && guarded held es

/-- The events of `AddTask` (lines 112-130): `len(s.tasks)` is read when the id is empty. -/
def AddTaskEvents (task : Task) : List MemEvent :=
  [MemEvent.lock] ++ (if task.ID = "" then [MemEvent.readTasks] else [])
    ++ [MemEvent.writeTasks, MemEvent.unlock]

/-- The events of the loop of `checkDependencies` (lines 135-141) over the tasks still to
visit: the `range` reads the registry to yield a task, and each `s.tasks[depID]` up to the
first missing one reads it. -/
def checkDependenciesLoopEvents (s : Scheduler) : List Task → List MemEvent
  | [] => []
  | task :: rest =>
    MemEvent.readTasks ::
      match task.Dependencies.find? (fun depID => (s.tasks.get? depID).isNone) with
      | some _ =>
        List.replicate
          ((task.Dependencies.takeWhile fun depID => (s.tasks.get? depID).isSome).length + 1)
          MemEvent.readTasks
      | none =>
        List.replicate task.Dependencies.length MemEvent.readTasks
          ++ checkDependenciesLoopEvents s rest

/-- The events of `checkDependencies` (lines 133-143): the `range` statement reads the
registry, then the loop runs.  The method takes no lock. -/
def checkDependenciesEvents (s : Scheduler) (visit : List Task) : List MemEvent :=
  MemEvent.readTasks :: checkDependenciesLoopEvents s visit

/-- The events of `taskDispatcher` (lines 146-161): `checkDependencies` first, then, when it
returned nil, the loop over the registry between `Lock` and `Unlock`. -/
def taskDispatcherEvents (s : Scheduler) (visitCheck visitPush : List Task) : List MemEvent :=
  checkDependenciesEvents s visitCheck ++
    match checkDependencies s visitCheck with
    | some _ => []
    | none =>
      [MemEvent.lock, MemEvent.readTasks] ++ visitPush.map (fun _ => MemEvent.readTasks)
        ++ [MemEvent.unlock]

/-- The events of `checkDependentTasks` (lines 357-387). -/
def checkDependentTasksEvents (visit : List Task) : List MemEvent :=
  [MemEvent.lock, MemEvent.readTasks] ++ visit.map (fun _ => MemEvent.readTasks)
    ++ [MemEvent.unlock]

/-- The events of one iteration of `resultProcessor` (lines 391-400). -/
def resultProcessorEvents (visit : List Task) : List MemEvent :=
  [MemEvent.lock, MemEvent.writeResults, MemEvent.unlock] ++ checkDependentTasksEvents visit

/-- The events of `GetResults` (lines 448-457), and so of `PrintSummary`, which reaches the
results through it. -/
def GetResultsEvents (visit : List (String × TaskResult)) : List MemEvent :=
  [MemEvent.lock, MemEvent.readResults] ++ visit.map (fun _ => MemEvent.readResults)
    ++ [MemEvent.unlock]

/-- The events of `Start` (lines 411-434); neither map is touched. -/
def StartEvents : List MemEvent := [MemEvent.lock, MemEvent.unlock]

/-- The invariant behind the uniqueness of sends: the tasks sent so far are registered and
have pairwise different ids; each of them that has dependencies is marked; and each sent task
is, by its id, exactly once among the results produced, the running tasks and the queue. -/
def PushInv (s0 : Scheduler) (y : Sys) : Prop :=
  (y.pushed.map Task.ID).Nodup ∧
  (∀ t ∈ y.pushed, t ∈ s0.tasks.values) ∧
  (∀ t ∈ y.pushed, t.Dependencies ≠ [] → y.sched.completedTasks.getBool t.ID = true) ∧
  (y.produced.map TaskResult.TaskID ++ y.running.map Task.ID
      ++ y.sched.taskQueue.map Task.ID).Perm (y.pushed.map Task.ID)

/-! ## Concrete inputs (the scenarios of the spec, section 8, and small registries) -/

/-- Scenario task A: `exit 0`, no dependencies. -/
def scenarioA : Task := { ID := "A", Name := "A", Cmd := "exit 0", Timeout := 300000000000,
                          MaxOutput := 5000 }

/-- Scenario task B: `exit 1` with two retries, 100ms apart. -/
def scenarioB : Task := { ID := "B", Name := "B", Cmd := "exit 1", Timeout := 300000000000,
                          RetryCount := 2, RetryDelay := 100000000, MaxOutput := 5000 }

/-- Scenario task C: `sleep 5` with a timeout of one second. -/
def scenarioC : Task := { ID := "C", Name := "C", Cmd := "sleep 5", Timeout := 1000000000,
                          MaxOutput := 5000 }

/-- A process that prints `ok` and exits with code 0, on every attempt. -/
def alwaysExit0 : Nat → ProcRun := fun _ => ProcRun.ran ["ok"] 0 none none

/-- A process that prints nothing and exits with code 1, on every attempt. -/
def alwaysExit1 : Nat → ProcRun :=
  fun _ => ProcRun.ran [] 1 (some (GoError.os "exit status 1")) none

/-- A process that is killed when the deadline of its context fires, on every attempt. -/
def alwaysDeadline : Nat → ProcRun :=
  fun _ => ProcRun.ran [] (-1) (some (GoError.os "signal: killed"))
    (some CtxErr.DeadlineExceeded)

/-- A three-task chain `A <- C <- D`: `C` depends on `A`, and `D` depends on `C`. -/
def chainC : Task := { ID := "C", Name := "C", Cmd := "exit 0", Timeout := 300000000000,
                       MaxOutput := 5000, Dependencies := ["A"] }

/-- The last task of the chain `A <- C <- D`. -/
def chainD : Task := { ID := "D", Name := "D", Cmd := "exit 0", Timeout := 300000000000,
                       MaxOutput := 5000, Dependencies := ["C"] }

/-- A task without dependencies, next to the chain. -/
def chainB : Task := { ID := "B", Name := "B", Cmd := "exit 0", Timeout := 300000000000,
                       MaxOutput := 5000 }

/-- A task whose only dependency is not registered. -/
def orphanX : Task := { ID := "X", Name := "X", Cmd := "exit 0", Timeout := 300000000000,
                        MaxOutput := 5000, Dependencies := ["Y"] }

/-- A task with one environment entry of its own. -/
def envTask : Task := { ID := "E", Name := "E", Cmd := "env", Timeout := 300000000000,
                        MaxOutput := 5000, Env := ["FOO=bar"] }

/-- Task `i` of a fan of tasks that all depend on task `A` alone. -/
def fanTask (i : Nat) : Task :=
  { ID := "D" ++ toString i, Name := "D" ++ toString i, Cmd := "exit 0", Timeout := 300000000000,
    MaxOutput := 5000, Dependencies := ["A"] }

/-- A registry of 102 tasks: task `A` and a fan of 101 tasks that depend on it. -/
def fanRegistry : Scheduler := AddTasks (NewScheduler 3) (scenarioA :: (List.range 101).map fanTask)

/-- A result of task `A` with status `StatusFailed`. -/
def failedA : TaskResult :=
  { TaskID := "A", TaskName := "A", Status := StatusFailed, StartTime := 0, EndTime := 1,
    Duration := 1, ExitCode := 1, Error := some (GoError.os "exit status 1") }

/-- The registry `A <- C` at the moment the failed result of `A` waits in the result queue. -/
def afterFailedA : Scheduler :=
  { AddTasks (NewScheduler 3) [scenarioA, chainC] with taskResultQueue := [failedA] }

/-- A self-dependent task. -/
def selfX : Task := { ID := "X", Name := "X", Cmd := "exit 0", Timeout := 300000000000,
                      MaxOutput := 5000, Dependencies := ["X"] }

/-- A task that depends on the self-dependent task and on task `A`. -/
def behindY : Task := { ID := "Y", Name := "Y", Cmd := "exit 0", Timeout := 300000000000,
                        MaxOutput := 5000, Dependencies := ["A", "X"] }

/-- A registry with a cycle: `A`, the self-dependent `X`, and `Y` behind `X`. -/
def cycleRegistry : Scheduler := AddTasks (NewScheduler 3) [scenarioA, selfX, behindY]

/-- The state of `cycleRegistry` after `A` has been dispatched, run and processed. -/
def cycleRun : Sys :=
  (sysExec (afterStart cycleRegistry)
    [SysAction.dispatch cycleRegistry.tasks.values cycleRegistry.tasks.values,
     SysAction.take, SysAction.finish 0 alwaysExit0 0 1,
     SysAction.process cycleRegistry.tasks.values]).getD (afterStart cycleRegistry)

/-- The registry `A <- C`. -/
def pairRegistry : Scheduler := AddTasks (NewScheduler 3) [scenarioA, chainC]

/-- The state of `pairRegistry` after `A` has been dispatched, run and processed. -/
def pairRun : Sys :=
  (sysExec (afterStart pairRegistry)
    [SysAction.dispatch pairRegistry.tasks.values pairRegistry.tasks.values,
     SysAction.take, SysAction.finish 0 alwaysExit0 0 1,
     SysAction.process pairRegistry.tasks.values]).getD (afterStart pairRegistry)

/-- The registry `A <- C` with `A` marked and a queue that holds 100 tasks. -/
def pairFullQueue : Scheduler :=
  { pairRegistry with
    isRunning := true
    taskQueue := List.replicate 100 scenarioA
    taskResults := [("A", failedA)]
    completedTasks := [("A", true)] }

/-- A task registered under the id that `AddTask` generates next. -/
def namedTask2 : Task := { ID := "task-2", Name := "first", Cmd := "echo first",
                           Timeout := 300000000000, MaxOutput := 5000 }

/-- A task registered without an id. -/
def unnamedTask : Task := { ID := "", Name := "second", Cmd := "echo second",
                            Timeout := 300000000000, MaxOutput := 5000 }

/-- A task with a negative `MaxOutput`. -/
def negativeMaxOutput : Task := { ID := "N", Name := "N", Cmd := "echo hi",
                                  Timeout := 300000000000, MaxOutput := -2 }

/-- A task with a negative `RetryCount`. -/
def negativeRetry : Task := { ID := "R", Name := "R", Cmd := "echo hi", Timeout := 300000000000,
                              RetryCount := -1, MaxOutput := 5000 }

/-- The registry `A <- C` once the result of `A` is recorded and `A` is marked. -/
def afterFailedAMarked : Scheduler :=
  { pairRegistry with
    isRunning := true
    taskResults := [("A", failedA)]
    completedTasks := [("A", true)] }

/-- A memory in which the `taskResults` of the scheduler, at address 0, holds the failed
result of `A`. -/
def resultsMemA : ResultsMem := { cells := [[("A", failedA)]] }

/-! ## Splitting and joining -/

theorem splitLines_ne_nil (s : List Char) : splitLines s ≠ [] := by
  induction s with
  | nil => simp [splitLines]
  | cons c cs ih =>
    unfold splitLines
    split
    · simp
    · split <;> simp

theorem splitLines_length_pos (s : List Char) : 0 < (splitLines s).length :=
  List.length_pos.mpr (splitLines_ne_nil s)

theorem splitLines_cons_of_ne (c : Char) (cs : List Char) (hc : c ≠ '\n') :
    splitLines (c :: cs) = (c :: (splitLines cs).headD []) :: (splitLines cs).tail := by
  have h := splitLines_ne_nil cs
  rw [splitLines, if_neg hc]
  cases hs : splitLines cs with
  | nil => exact absurd hs h
  | cons l ls => simp

theorem splitLines_append_newline (a b : List Char) :
    splitLines (a ++ '\n' :: b) = splitLines a ++ splitLines b := by
  induction a with
  | nil => simp [splitLines]
  | cons c cs ih =>
    by_cases hc : c = '\n'
    · subst hc
      simp [splitLines, ih]
    · rw [List.cons_append, splitLines_cons_of_ne _ _ hc, splitLines_cons_of_ne _ _ hc, ih]
      cases hs : splitLines cs with
      | nil => exact absurd hs (splitLines_ne_nil cs)
      | cons l ls => simp

theorem splitLines_of_not_mem (l : List Char) (h : '\n' ∉ l) : splitLines l = [l] := by
  induction l with
  | nil => rfl
  | cons c cs ih =>
    have hc : c ≠ '\n' := fun e => h (by simp [e])
    have hcs : '\n' ∉ cs := fun e => h (List.mem_cons_of_mem _ e)
    rw [splitLines_cons_of_ne _ _ hc, ih hcs]
    rfl

theorem splitLines_joinLines (xs : List (List Char)) (hne : xs ≠ [])
    (h : ∀ l ∈ xs, '\n' ∉ l) : splitLines (joinLines xs) = xs := by
  induction xs with
  | nil => exact absurd rfl hne
  | cons l ls ih =>
    cases ls with
    | nil => simpa [joinLines] using splitLines_of_not_mem l (h l (by simp))
    | cons l2 ls =>
      rw [joinLines, splitLines_append_newline, splitLines_of_not_mem l (h l (by simp)),
        ih (by simp) (fun x hx => h x (List.mem_cons_of_mem _ hx))]
      rfl

theorem splitLines_not_mem (s : List Char) : ∀ l ∈ splitLines s, '\n' ∉ l := by
  induction s with
  | nil => simp [splitLines]
  | cons c cs ih =>
    by_cases hc : c = '\n'
    · subst hc
      intro l hl
      simp only [splitLines, if_true, List.mem_cons] at hl
      rcases hl with rfl | hl
      · simp
      · exact ih l hl
    · rw [splitLines_cons_of_ne _ _ hc]
      cases hs : splitLines cs with
      | nil => exact absurd hs (splitLines_ne_nil cs)
      | cons l ls =>
        rw [hs] at ih
        intro x hx
        simp only [List.headD_cons, List.tail_cons, List.mem_cons] at hx
        rcases hx with rfl | hx
        · intro hmem
          rcases List.mem_cons.mp hmem with e | e
          · exact hc e.symm
          · exact ih l (by simp) e
        · exact ih x (by simp [hx])

theorem joinLines_splitLines (s : List Char) : joinLines (splitLines s) = s := by
  induction s with
  | nil => rfl
  | cons c cs ih =>
    by_cases hc : c = '\n'
    · subst hc
      rw [splitLines, if_pos rfl]
      cases hs : splitLines cs with
      | nil => exact absurd hs (splitLines_ne_nil cs)
      | cons l ls => rw [hs] at ih; simp [joinLines, ih]
    · rw [splitLines_cons_of_ne _ _ hc]
      cases hs : splitLines cs with
      | nil => exact absurd hs (splitLines_ne_nil cs)
      | cons l ls =>
        rw [hs] at ih
        cases ls with
        | nil => simpa [joinLines] using ih
        | cons l2 ls => simp only [joinLines, List.headD_cons, List.tail_cons] at ih ⊢; rw [← ih]; rfl

/-! ## Output truncation -/

theorem elisionMarker_data : elisionMarker.data = '\n' :: (markerText ++ ['\n']) := by decide

theorem markerText_no_newline : '\n' ∉ markerText := by decide

theorem splitLines_keep (a b : List (List Char)) (ha : a ≠ []) (hb : b ≠ [])
    (hna : ∀ l ∈ a, '\n' ∉ l) (hnb : ∀ l ∈ b, '\n' ∉ l) :
    splitLines (joinLines a ++ elisionMarker.data ++ joinLines b) = a ++ [markerText] ++ b := by
  rw [elisionMarker_data]
  have e : joinLines a ++ '\n' :: (markerText ++ ['\n']) ++ joinLines b
      = joinLines a ++ '\n' :: (markerText ++ '\n' :: joinLines b) := by simp
  rw [e, splitLines_append_newline, splitLines_append_newline, splitLines_joinLines a ha hna,
    splitLines_joinLines b hb hnb, splitLines_of_not_mem _ markerText_no_newline]
  simp

/-- For a non-negative bound `trimOutput` never panics, and this is what it returns. -/
theorem trimOutput_natCast (output : String) (m : Nat) :
    trimOutput output (m : Int) =
      if (splitLines output.data).length ≤ m then some output
      else some (String.mk (joinLines ((splitLines output.data).take (m / 2))
        ++ elisionMarker.data
        ++ joinLines ((splitLines output.data).drop ((splitLines output.data).length - m / 2)))) := by
  unfold trimOutput
  simp only [Nat.cast_le]
  split
  · rfl
  · rename_i h
    have hk : Int.tdiv (m : Int) 2 = ((m / 2 : Nat) : Int) := (Int.ofNat_tdiv m 2).symm
    rw [hk]
    have h1 : ¬ (((m / 2 : Nat) : Int) < 0 ∨
        (((splitLines output.data).length : Nat) : Int) < ((m / 2 : Nat) : Int)) := by
      omega
    rw [if_neg h1]
    simp only [Int.toNat_ofNat]

/-- The truncated text is a fixed point of the truncation step. -/
theorem trim_step_fixed (lines : List (List Char)) (m : Nat) (hnl : ∀ l ∈ lines, '\n' ∉ l)
    (hlen : m < lines.length) :
    joinLines ((splitLines (joinLines (lines.take (m / 2)) ++ elisionMarker.data
          ++ joinLines (lines.drop (lines.length - m / 2)))).take (m / 2))
      ++ elisionMarker.data
      ++ joinLines ((splitLines (joinLines (lines.take (m / 2)) ++ elisionMarker.data
          ++ joinLines (lines.drop (lines.length - m / 2)))).drop
            ((splitLines (joinLines (lines.take (m / 2)) ++ elisionMarker.data
          ++ joinLines (lines.drop (lines.length - m / 2)))).length - m / 2))
    = joinLines (lines.take (m / 2)) ++ elisionMarker.data
          ++ joinLines (lines.drop (lines.length - m / 2)) := by
  rcases Nat.eq_zero_or_pos (m / 2) with hk | hk
  · rw [hk]
    simp only [List.take_zero, Nat.sub_zero, List.drop_length, joinLines, List.nil_append,
      List.append_nil]
  · have hkn : m / 2 ≤ lines.length := by omega
    have hfl : (lines.take (m / 2)).length = m / 2 := by simp [hkn]
    have hll : (lines.drop (lines.length - m / 2)).length = m / 2 := by simp; omega
    have hf : lines.take (m / 2) ≠ [] := by
      intro e; rw [e] at hfl; simp at hfl; omega
    have hl : lines.drop (lines.length - m / 2) ≠ [] := by
      intro e; rw [e] at hll; simp at hll; omega
    rw [splitLines_keep _ _ hf hl (fun l h => hnl l (List.mem_of_mem_take h))
      (fun l h => hnl l (List.mem_of_mem_drop h))]
    have e1 : (lines.take (m / 2) ++ [markerText] ++ lines.drop (lines.length - m / 2)).take (m / 2)
        = lines.take (m / 2) := by
      rw [List.append_assoc]; exact List.take_left' hfl
    have e2 : (lines.take (m / 2) ++ [markerText] ++ lines.drop (lines.length - m / 2)).drop
        ((lines.take (m / 2) ++ [markerText] ++ lines.drop (lines.length - m / 2)).length - m / 2)
        = lines.drop (lines.length - m / 2) := by
      apply List.drop_left'
      simp only [List.length_append, List.length_singleton, hfl, hll]
      omega
    rw [e1, e2]

/-- C5: `trimOutput` is idempotent: for every output and every `maxLines ≥ 0` the call
returns a string, and trimming that string again with the same bound returns it unchanged. -/
theorem trimOutput_idempotent (output : String) (maxLines : Int) (h : 0 ≤ maxLines) :
    ∃ trimmed, trimOutput output maxLines = some trimmed ∧
      trimOutput trimmed maxLines = some trimmed := by
  obtain ⟨m, rfl⟩ := Int.eq_ofNat_of_zero_le h
  by_cases hle : (splitLines output.data).length ≤ m
  · exact ⟨output, by rw [trimOutput_natCast, if_pos hle], by rw [trimOutput_natCast, if_pos hle]⟩
  · refine ⟨_, by rw [trimOutput_natCast, if_neg hle], ?_⟩
    rw [trimOutput_natCast]
    have hfix := trim_step_fixed (splitLines output.data) m (splitLines_not_mem _) (by omega)
    split
    · rfl
    · simp only [hfix]

theorem trimOutput_idempotent_witness :
    ∃ trimmed, trimOutput "a\nb\nc\nd\ne" 4 = some trimmed ∧
      trimOutput trimmed 4 = some trimmed :=
  trimOutput_idempotent "a\nb\nc\nd\ne" 4 (by decide)

theorem lastSegments_eq_drop {α : Type} (k : Nat) (xs : List α) :
    (xs.reverse.take k).reverse = xs.drop (xs.length - k) := by
  rw [List.reverse_take, List.reverse_reverse]
  simp

/-- C6: when the output has more newline-separated segments than `maxLines` (`maxLines ≥ 0`),
`trimOutput` returns the first `k` segments joined by newlines, then the marker
`"\n... (忽略中间内容) ...\n"`, then the last `k` segments joined by newlines, with
`k = maxLines / 2`. -/
theorem trimOutput_truncates (output : String) (maxLines : Int) (h0 : 0 ≤ maxLines)
    (hlen : maxLines < ((splitLines output.data).length : Int)) :
    trimOutput output maxLines =
      some (String.mk (joinLines ((splitLines output.data).take (maxLines / 2).toNat))
        ++ "\n... (忽略中间内容) ...\n"
        ++ String.mk (joinLines
            (((splitLines output.data).reverse.take (maxLines / 2).toNat).reverse))) := by
  obtain ⟨m, rfl⟩ := Int.eq_ofNat_of_zero_le h0
  have hlt : ¬ (splitLines output.data).length ≤ m := by omega
  have hk : ((m : Int) / 2).toNat = m / 2 := by
    have : ((m : Int) / 2) = ((m / 2 : Nat) : Int) := by norm_cast
    rw [this, Int.toNat_ofNat]
  rw [trimOutput_natCast, if_neg hlt, hk, lastSegments_eq_drop]
  rfl

theorem trimOutput_truncates_witness :
    trimOutput "a\nb\nc\nd\ne" 4 =
      some (String.mk (joinLines ((splitLines "a\nb\nc\nd\ne".data).take ((4 : Int) / 2).toNat))
        ++ "\n... (忽略中间内容) ...\n"
        ++ String.mk (joinLines
            (((splitLines "a\nb\nc\nd\ne".data).reverse.take ((4 : Int) / 2).toNat).reverse))) :=
  trimOutput_truncates "a\nb\nc\nd\ne" 4 (by decide) (by decide)

/-- The lines `copyAndLog` writes split into themselves and one empty last segment. -/
theorem splitLines_copyAndLog (lines : List String) (h : ∀ l ∈ lines, '\n' ∉ l.data) :
    splitLines (copyAndLog lines).data = lines.map String.data ++ [[]] := by
  induction lines with
  | nil => rfl
  | cons l ls ih =>
    have e : (copyAndLog (l :: ls)).data = l.data ++ '\n' :: (copyAndLog ls).data := by
      simp [copyAndLog, String.data_append]
    rw [e, splitLines_append_newline, splitLines_of_not_mem _ (h l (by simp)),
      ih (fun x hx => h x (List.mem_cons_of_mem _ hx))]
    simp

/-- The part of C7 that the code keeps: fewer lines than `maxLines` are left unchanged. -/
theorem trimOutput_copyAndLog_lt (lines : List String) (maxLines : Int)
    (h : ∀ l ∈ lines, '\n' ∉ l.data) (hlt : (lines.length : Int) < maxLines) :
    trimOutput (copyAndLog lines) maxLines = some (copyAndLog lines) := by
  unfold trimOutput
  simp only [splitLines_copyAndLog lines h, List.length_append, List.length_map,
    List.length_singleton]
  rw [if_pos (by push_cast; omega)]

/-- C7 (failing input): two newline-terminated lines with `maxLines = 2` are truncated:
the second line is replaced by the marker. -/
theorem trimOutput_exact_lines_truncated :
    copyAndLog ["a", "b"] = "a\nb\n" ∧
    trimOutput (copyAndLog ["a", "b"]) 2 = some "a\n... (忽略中间内容) ...\n" ∧
    trimOutput (copyAndLog ["a", "b"]) 2 ≠ some (copyAndLog ["a", "b"]) := by
  decide

/-! ## Retry executor -/

/-- The iteration bound of `attemptLoop` never cuts the loop short: from attempt `a` the loop
needs `RetryCount + 1 - a` iterations, and any larger bound gives the same final state. -/
theorem attemptLoop_bound_irrelevant (task : Task) (os : Nat → ProcRun) :
    ∀ (n fuel a : Nat) (st : AttemptState), (task.RetryCount + 1 - (a : Int)).toNat = n →
      n ≤ fuel → attemptLoop task os fuel a st = attemptLoop task os n a st := by
  intro n
  induction n with
  | zero =>
    intro fuel a st hn _
    have hgt : ¬ ((a : Int) ≤ task.RetryCount) := by omega
    cases fuel with
    | zero => rfl
    | succ f => simp [attemptLoop, hgt]
  | succ n ih =>
    intro fuel a st hn hf
    obtain ⟨f, rfl⟩ : ∃ f, fuel = f + 1 := ⟨fuel - 1, by omega⟩
    have hle : (a : Int) ≤ task.RetryCount := by omega
    rw [attemptLoop, attemptLoop]
    simp only [hle, if_true]
    split
    · rfl
    · exact ih f (a + 1) _ (by push_cast; omega) (by omega)

theorem attemptLoop_all_fail (task : Task) (os : Nat → ProcRun) (r : Nat)
    (hr : task.RetryCount = (r : Int)) (hfail : ∀ k, (runCommand task (os k)).err ≠ none) :
    ∀ (n a : Nat) (st : AttemptState), a + n = r →
      attemptLoop task os (n + 1) a st =
        { Status := StatusFailed, RetryCount := (r : Int),
          output := "" ++ (runCommand task (os r)).written,
          err := (runCommand task (os r)).err,
          exitCode := (runCommand task (os r)).exitCode,
          effects := st.effects ++ attemptEffects task.RetryDelay a (n + 1) } := by
  intro n
  induction n with
  | zero =>
    intro a st ha
    have ha : a = r := by omega
    subst ha
    rw [attemptLoop]
    simp only [hr, le_refl, if_true, if_neg (hfail a), attemptLoop, attemptEffects]
    by_cases h0 : a > 0 <;> simp [h0]
  | succ n ih =>
    intro a st ha
    have har : (a : Int) ≤ (r : Int) := by omega
    have hne : ¬ ((a : Int) = (r : Int)) := by omega
    rw [attemptLoop]
    simp only [hr, har, if_true, if_neg (hfail a), if_neg hne]
    rw [ih (a + 1) _ (by omega)]
    conv => rhs; rw [attemptEffects]
    by_cases h0 : a > 0 <;> simp [h0]

theorem attemptLoop_first_success (task : Task) (os : Nat → ProcRun) (k : Nat)
    (hk : (k : Int) ≤ task.RetryCount) (hfail : ∀ j, j < k → (runCommand task (os j)).err ≠ none)
    (hok : (runCommand task (os k)).err = none) :
    ∀ (n fuel a : Nat) (st : AttemptState), a + n = k → n < fuel →
      attemptLoop task os fuel a st =
        { Status := StatusSuccess, RetryCount := (k : Int),
          output := "" ++ (runCommand task (os k)).written,
          err := none,
          exitCode := (runCommand task (os k)).exitCode,
          effects := st.effects ++ attemptEffects task.RetryDelay a (n + 1) } := by
  intro n
  induction n with
  | zero =>
    intro fuel a st ha hf
    have ha : a = k := by omega
    subst ha
    obtain ⟨fuel, rfl⟩ : ∃ f, fuel = f + 1 := ⟨fuel - 1, by omega⟩
    rw [attemptLoop]
    simp only [hk, if_true, hok, attemptEffects]
    by_cases h0 : a > 0 <;> simp [h0]
  | succ n ih =>
    intro fuel a st ha hf
    obtain ⟨fuel, rfl⟩ : ∃ f, fuel = f + 1 := ⟨fuel - 1, by omega⟩
    have har : (a : Int) ≤ task.RetryCount := by omega
    have hne : ¬ ((a : Int) = task.RetryCount) := by omega
    rw [attemptLoop]
    simp only [har, if_true, if_neg (hfail a (by omega)), if_neg hne]
    rw [ih fuel (a + 1) _ (by omega) (by omega)]
    conv => rhs; rw [attemptEffects]
    by_cases h0 : a > 0 <;> simp [h0]

/-- The effects of attempts `0 .. r`: a launch, then `r` times a sleep and a launch. -/
theorem attemptEffects_zero (delay : Int) (r : Nat) :
    attemptEffects delay 0 (r + 1) =
      Effect.launch 0 ::
        ((List.range r).map fun k => [Effect.sleep delay, Effect.launch (k + 1)]).flatten := by
  have key : ∀ n a, attemptEffects delay (a + 1) n =
      ((List.range n).map fun k => [Effect.sleep delay, Effect.launch (a + 1 + k)]).flatten := by
    intro n
    induction n with
    | zero => intro a; rfl
    | succ n ih =>
      intro a
      rw [attemptEffects, ih (a + 1), List.range_succ_eq_map]
      simp only [List.map_cons, List.map_map, Function.comp_def, List.flatten_cons, gt_iff_lt,
        Nat.zero_lt_succ, if_true, List.singleton_append, List.cons_append, List.nil_append,
        Nat.add_zero, Nat.succ_eq_add_one]
      have e : (fun k => [Effect.sleep delay, Effect.launch (a + 1 + 1 + k)])
          = (fun k => [Effect.sleep delay, Effect.launch (a + 1 + (k + 1))]) := by
        funext k; rw [Nat.add_assoc (a + 1) 1 k, Nat.add_comm 1 k]
      rw [e]
  have e0 : (fun k => [Effect.sleep delay, Effect.launch (0 + 1 + k)])
      = (fun k => [Effect.sleep delay, Effect.launch (k + 1)]) := by
    funext k; rw [Nat.zero_add, Nat.add_comm 1 k]
  rw [attemptEffects, key r 0, e0]
  simp

/-- With a bound of at least `-1`, `trimOutput` does not panic. -/
theorem trimOutput_isSome (output : String) (maxLines : Int) (h : -1 ≤ maxLines) :
    ∃ trimmed, trimOutput output maxLines = some trimmed := by
  rcases Int.lt_or_le maxLines 0 with hneg | hpos
  · have e : maxLines = -1 := by omega
    subst e
    unfold trimOutput
    have hlen := splitLines_length_pos output.data
    rw [if_neg (by omega)]
    have hk : Int.tdiv (-1) 2 = 0 := by decide
    simp only [hk]
    rw [if_neg (by omega)]
    exact ⟨_, rfl⟩
  · obtain ⟨m, rfl⟩ := Int.eq_ofNat_of_zero_le hpos
    rw [trimOutput_natCast]
    split <;> exact ⟨_, rfl⟩

/-- Persistent failure, on the tasks for which `trimOutput` does not panic
(`MaxOutput ≥ -1`): `r + 1` launches, a sleep of `RetryDelay` before each but the first, and a
result with `RetryCount = r`, `Status = StatusFailed` and the error of the last attempt. -/
theorem executeTask_all_attempts_fail (workerID : Int) (task : Task) (os : Nat → ProcRun)
    (startTime endTime : Int) (r : Nat) (hr : task.RetryCount = (r : Int))
    (hfail : ∀ k, (runCommand task (os k)).err ≠ none) (hmax : -1 ≤ task.MaxOutput) :
    (executeTask workerID task os startTime endTime).effects =
        Effect.launch 0 ::
          ((List.range r).map fun k => [Effect.sleep task.RetryDelay, Effect.launch (k + 1)]).flatten
      ∧ ∃ res, (executeTask workerID task os startTime endTime).result = some res ∧
          res.RetryCount = (r : Int) ∧ res.Status = StatusFailed ∧
          res.Error = (runCommand task (os r)).err := by
  have hfuel : (task.RetryCount + 1).toNat = r + 1 := by omega
  have hloop := attemptLoop_all_fail task os r hr hfail r 0
    { Status := StatusRunning, RetryCount := 0, output := "", err := none, exitCode := 0,
      effects := [] } (by omega)
  unfold executeTask
  simp only [hfuel, hloop, List.nil_append, attemptEffects_zero, true_and]
  obtain ⟨trimmed, ht⟩ := trimOutput_isSome ("" ++ (runCommand task (os r)).written)
    task.MaxOutput hmax
  rw [ht]
  exact ⟨_, rfl, rfl, rfl, rfl⟩

theorem executeTask_all_attempts_fail_witness :
    (executeTask 0 scenarioB alwaysExit1 0 1).effects =
        Effect.launch 0 ::
          ((List.range 2).map fun k =>
            [Effect.sleep scenarioB.RetryDelay, Effect.launch (k + 1)]).flatten
      ∧ ∃ res, (executeTask 0 scenarioB alwaysExit1 0 1).result = some res ∧
          res.RetryCount = ((2 : Nat) : Int) ∧ res.Status = StatusFailed ∧
          res.Error = (runCommand scenarioB (alwaysExit1 2)).err :=
  executeTask_all_attempts_fail 0 scenarioB alwaysExit1 0 1 2 rfl
    (fun _ => by simp [runCommand, alwaysExit1]) (by decide)

/-- C2 (failing input): a task with `RetryCount = 0` and `MaxOutput = -2` whose only attempt
fails: `executeTask` launches the command once and then panics in `trimOutput`; it returns
no result. -/
theorem executeTask_all_fail_panics :
    (runCommand { ID := "B", Cmd := "exit 1", MaxOutput := -2 } (alwaysExit1 0)).err
      = some (GoError.os "exit status 1") ∧
    executeTask 0 { ID := "B", Cmd := "exit 1", MaxOutput := -2 } alwaysExit1 0 1
      = { result := none, effects := [Effect.launch 0] } := by
  decide

/-- First success at attempt `k ≤ RetryCount`, on the tasks for which `trimOutput` does not
panic (`MaxOutput ≥ -1`): `k + 1` launches, and a result with `Status = StatusSuccess`,
`RetryCount = k` and no error. -/
theorem executeTask_first_success (workerID : Int) (task : Task) (os : Nat → ProcRun)
    (startTime endTime : Int) (k : Nat) (hk : (k : Int) ≤ task.RetryCount)
    (hfail : ∀ j, j < k → (runCommand task (os j)).err ≠ none)
    (hok : (runCommand task (os k)).err = none) (hmax : -1 ≤ task.MaxOutput) :
    (executeTask workerID task os startTime endTime).effects =
        Effect.launch 0 ::
          ((List.range k).map fun j => [Effect.sleep task.RetryDelay, Effect.launch (j + 1)]).flatten
      ∧ ∃ res, (executeTask workerID task os startTime endTime).result = some res ∧
          res.Status = StatusSuccess ∧ res.RetryCount = (k : Int) ∧ res.Error = none := by
  have hloop := attemptLoop_first_success task os k hk hfail hok k (task.RetryCount + 1).toNat 0
    { Status := StatusRunning, RetryCount := 0, output := "", err := none, exitCode := 0,
      effects := [] } (by omega) (by omega)
  unfold executeTask
  simp only [hloop, List.nil_append, attemptEffects_zero, true_and]
  obtain ⟨trimmed, ht⟩ := trimOutput_isSome ("" ++ (runCommand task (os k)).written)
    task.MaxOutput hmax
  rw [ht]
  exact ⟨_, rfl, rfl, rfl, rfl⟩

theorem executeTask_first_success_witness :
    (executeTask 0 scenarioA alwaysExit0 0 1).effects =
        Effect.launch 0 ::
          ((List.range 0).map fun j =>
            [Effect.sleep scenarioA.RetryDelay, Effect.launch (j + 1)]).flatten
      ∧ ∃ res, (executeTask 0 scenarioA alwaysExit0 0 1).result = some res ∧
          res.Status = StatusSuccess ∧ res.RetryCount = ((0 : Nat) : Int) ∧ res.Error = none :=
  executeTask_first_success 0 scenarioA alwaysExit0 0 1 0 (by decide)
    (fun j hj => absurd hj (by omega)) rfl (by decide)

/-- C3 (failing input): a task with `RetryCount = 1` and `MaxOutput = -2` whose first attempt
succeeds: `executeTask` launches the command once and then panics in `trimOutput`; it
returns no result. -/
theorem executeTask_first_success_panics :
    (runCommand { ID := "A", Cmd := "exit 0", RetryCount := 1, MaxOutput := -2 }
        (alwaysExit0 0)).err = none ∧
    executeTask 0 { ID := "A", Cmd := "exit 0", RetryCount := 1, MaxOutput := -2 }
        alwaysExit0 0 1
      = { result := none, effects := [Effect.launch 0] } := by
  decide

/-- C4 (counterexample): scenario task C (`sleep 5`, timeout one second, no retry) with every
attempt ended by the deadline: the result has `Status = StatusFailed`, not `StatusTimeout`. -/
theorem executeTask_deadline_not_StatusTimeout :
    0 ≤ scenarioC.RetryCount ∧
    (runCommand scenarioC (alwaysDeadline 0)).err = some (GoError.timeout scenarioC.Timeout) ∧
    ∃ res, (executeTask 0 scenarioC alwaysDeadline 0 1000000000).result = some res ∧
      res.Status = StatusFailed ∧ res.Status ≠ StatusTimeout := by
  refine ⟨by decide, by decide, _, rfl, ?_, ?_⟩ <;> decide

/-- C4 (amended): when every attempt is ended by the deadline of its context, and
`MaxOutput ≥ -1`, `executeTask` returns a result with `Status = StatusFailed`, the timeout
error built from the task's `Timeout`, and `RetryCount` equal to the task's, whatever the
value of `RetryCount ≥ 0`. -/
theorem executeTask_deadline_failed (workerID : Int) (task : Task) (os : Nat → ProcRun)
    (startTime endTime : Int) (r : Nat) (hr : task.RetryCount = (r : Int))
    (hdl : ∀ k, ∃ lines exitCode waitErr,
      os k = ProcRun.ran lines exitCode waitErr (some CtxErr.DeadlineExceeded))
    (hmax : -1 ≤ task.MaxOutput) :
    ∃ res, (executeTask workerID task os startTime endTime).result = some res ∧
      res.Status = StatusFailed ∧ res.Error = some (GoError.timeout task.Timeout) ∧
      res.RetryCount = (r : Int) := by
  have herr : ∀ k, (runCommand task (os k)).err = some (GoError.timeout task.Timeout) := by
    intro k
    obtain ⟨lines, exitCode, waitErr, e⟩ := hdl k
    simp [e, runCommand]
  obtain ⟨_, res, h1, h2, h3, h4⟩ := executeTask_all_attempts_fail workerID task os startTime
    endTime r hr (fun k => by simp [herr k]) hmax
  exact ⟨res, h1, h3, by rw [h4, herr r], h2⟩

theorem executeTask_deadline_failed_witness :
    ∃ res, (executeTask 0 scenarioC alwaysDeadline 0 1000000000).result = some res ∧
      res.Status = StatusFailed ∧ res.Error = some (GoError.timeout scenarioC.Timeout) ∧
      res.RetryCount = ((0 : Nat) : Int) :=
  executeTask_deadline_failed 0 scenarioC alwaysDeadline 0 1000000000 0 rfl
    (fun _ => ⟨_, _, _, rfl⟩) (by decide)

/-! ## Dependency validation -/

theorem GoMap.get?_eq_none_iff {α : Type} (m : GoMap α) (k : String) :
    m.get? k = none ↔ k ∉ m.keys := by
  unfold GoMap.get? GoMap.keys
  induction m with
  | nil => simp
  | cons e m ih =>
    obtain ⟨k2, v⟩ := e
    by_cases h : k = k2
    · subst h; simp [List.lookup]
    · have hb : (k == k2) = false := by simpa using h
      simp [List.lookup, hb, ih, h]

theorem checkDependencies_eq_none_iff (s : Scheduler) (visit : List Task) :
    checkDependencies s visit = none ↔
      ∀ task ∈ visit, ∀ depID ∈ task.Dependencies, depID ∈ s.tasks.keys := by
  induction visit with
  | nil => simp [checkDependencies]
  | cons task rest ih =>
    rw [checkDependencies]
    cases hf : task.Dependencies.find? (fun depID => (s.tasks.get? depID).isNone) with
    | some depID =>
      have hmem := List.mem_of_find?_eq_some hf
      have hp := List.find?_some hf
      simp only [Option.isNone_iff_eq_none, GoMap.get?_eq_none_iff] at hp
      simp only [false_iff, reduceCtorEq]
      intro hall
      exact hp (hall task (by simp) depID hmem)
    | none =>
      rw [List.find?_eq_none] at hf
      simp only [ih, List.mem_cons, forall_eq_or_imp, iff_and_self]
      intro _ depID hd
      have := hf depID hd
      simp only [Option.isNone_iff_eq_none, GoMap.get?_eq_none_iff, decide_eq_true_eq,
        not_not] at this
      exact this

theorem checkDependencies_ne_none_iff (s : Scheduler) (visit : List Task)
    (hv : visit.Perm s.tasks.values) :
    checkDependencies s visit ≠ none ↔
      ∃ task ∈ s.tasks.values, ∃ depID ∈ task.Dependencies, depID ∉ s.tasks.keys := by
  rw [Ne, checkDependencies_eq_none_iff]
  simp only [not_forall, exists_prop]
  constructor
  · rintro ⟨task, ht, depID, hd, hk⟩
    exact ⟨task, hv.subset ht, depID, hd, hk⟩
  · rintro ⟨task, ht, depID, hd, hk⟩
    exact ⟨task, hv.symm.subset ht, depID, hd, hk⟩

/-- C8: `checkDependencies` returns a non-nil error if and only if some registered task lists
a dependency id that is not a key of the registry, whatever the order in which the registry
is visited.  Nothing else is looked at, so a task that depends on itself is accepted. -/
theorem checkDependencies_error_iff (s : Scheduler) (visit : List Task)
    (hv : visit.Perm s.tasks.values) :
    (checkDependencies s visit ≠ none ↔
      ∃ task ∈ s.tasks.values, ∃ depID ∈ task.Dependencies, depID ∉ s.tasks.keys) ∧
    ((∀ task ∈ s.tasks.values, task.Dependencies = [task.ID] ∧ task.ID ∈ s.tasks.keys) →
      checkDependencies s visit = none) := by
  refine ⟨checkDependencies_ne_none_iff s visit hv, fun hself => ?_⟩
  rw [checkDependencies_eq_none_iff]
  intro task ht depID hd
  obtain ⟨h1, h2⟩ := hself task (hv.subset ht)
  rw [h1] at hd
  rw [List.mem_singleton.mp hd]
  exact h2

theorem checkDependencies_error_iff_witness :
    (checkDependencies (AddTasks (NewScheduler 3) [scenarioA, orphanX]) [scenarioA, orphanX]
        ≠ none ↔
      ∃ task ∈ (AddTasks (NewScheduler 3) [scenarioA, orphanX]).tasks.values,
        ∃ depID ∈ task.Dependencies,
          depID ∉ (AddTasks (NewScheduler 3) [scenarioA, orphanX]).tasks.keys) ∧
    ((∀ task ∈ (AddTasks (NewScheduler 3) [scenarioA, orphanX]).tasks.values,
        task.Dependencies = [task.ID] ∧
          task.ID ∈ (AddTasks (NewScheduler 3) [scenarioA, orphanX]).tasks.keys) →
      checkDependencies (AddTasks (NewScheduler 3) [scenarioA, orphanX]) [scenarioA, orphanX]
        = none) :=
  checkDependencies_error_iff (AddTasks (NewScheduler 3) [scenarioA, orphanX])
    [scenarioA, orphanX] (by decide)

/-! ## Start and the initial dispatch -/

/-- C9 (counterexample): a scheduler that is not running and whose only task depends on an
id that is not registered: `Start` returns nil. -/
theorem Start_missing_dependency_returns_nil :
    (AddTask (NewScheduler 3) orphanX).1.isRunning = false ∧
    (∃ task ∈ (AddTask (NewScheduler 3) orphanX).1.tasks.values,
      ∃ depID ∈ task.Dependencies, depID ∉ (AddTask (NewScheduler 3) orphanX).1.tasks.keys) ∧
    (Start (AddTask (NewScheduler 3) orphanX).1).err = none := by
  refine ⟨by decide, ⟨orphanX, by decide, "Y", by decide, by decide⟩, by decide⟩

/-- C9 (amended): for every scheduler that is not running, `Start` returns nil, sets
`isRunning` and launches `taskDispatcher`, also when a dependency id is not registered; the
missing dependency is found by the launched `taskDispatcher`, which logs the error and leaves
the scheduler as it is, with nothing pushed. -/
theorem Start_not_running (s : Scheduler) (visitCheck visitPush : List Task)
    (hrun : s.isRunning = false) (hv : visitCheck.Perm s.tasks.values)
    (hmiss : ∃ task ∈ s.tasks.values, ∃ depID ∈ task.Dependencies, depID ∉ s.tasks.keys) :
    (Start s).err = none ∧ (Start s).sched = { s with isRunning := true } ∧
    Goroutine.taskDispatcher ∈ (Start s).launched ∧
    ∃ err, taskDispatcher (Start s).sched visitCheck visitPush =
      { sched := (Start s).sched, logged := some err, blocked := [] } := by
  have herr : (Start s).err = none := by simp [Start, hrun]
  have hsched : (Start s).sched = { s with isRunning := true } := by simp [Start, hrun]
  have hl : Goroutine.taskDispatcher ∈ (Start s).launched := by simp [Start, hrun]
  refine ⟨herr, hsched, hl, ?_⟩
  have hne : checkDependencies (Start s).sched visitCheck ≠ none :=
    (checkDependencies_ne_none_iff (Start s).sched visitCheck (by rw [hsched]; exact hv)).mpr
      (by rw [hsched]; exact hmiss)
  unfold taskDispatcher
  cases hc : checkDependencies (Start s).sched visitCheck with
  | none => exact absurd hc hne
  | some err => exact ⟨err, rfl⟩

theorem Start_not_running_witness :
    (Start (AddTask (NewScheduler 3) orphanX).1).err = none ∧
    (Start (AddTask (NewScheduler 3) orphanX).1).sched
      = { (AddTask (NewScheduler 3) orphanX).1 with isRunning := true } ∧
    Goroutine.taskDispatcher ∈ (Start (AddTask (NewScheduler 3) orphanX).1).launched ∧
    ∃ err, taskDispatcher (Start (AddTask (NewScheduler 3) orphanX).1).sched [orphanX] [orphanX] =
      { sched := (Start (AddTask (NewScheduler 3) orphanX).1).sched, logged := some err,
        blocked := [] } :=
  Start_not_running (AddTask (NewScheduler 3) orphanX).1 [orphanX] [orphanX] (by decide)
    (by decide) ⟨orphanX, by decide, "Y", by decide, by decide⟩

theorem dispatchLoop_of_room (visit : List Task) :
    ∀ s : Scheduler,
      s.taskQueue.length + (visit.filter fun t => decide (t.Dependencies = [])).length
        ≤ s.taskQueueCap →
      dispatchLoop s visit =
        ({ s with taskQueue := s.taskQueue
            ++ visit.filter fun t => decide (t.Dependencies = []) }, []) := by
  induction visit with
  | nil => intro s _; simp [dispatchLoop]
  | cons task rest ih =>
    intro s hroom
    rw [dispatchLoop]
    by_cases hd : task.Dependencies = []
    · simp only [hd, List.length_nil, if_true, List.filter_cons, decide_True] at hroom ⊢
      simp only [List.length_cons] at hroom
      rw [if_pos (by omega), ih _ (by simp only [List.length_append, List.length_singleton]; omega)]
      simp
    · have hl : ¬ task.Dependencies.length = 0 := by
        intro h; exact hd (List.length_eq_zero.mp h)
      simp only [hd, decide_False, List.filter_cons, Bool.false_eq_true, if_false] at hroom ⊢
      rw [if_neg hl, ih s hroom]

/-- C10: when `checkDependencies` succeeds and the queue has room for them, `taskDispatcher`
appends to `taskQueue` exactly the registered tasks with no dependency (each as often as it
is registered, so once, and no task with a dependency) and changes nothing else; when
`checkDependencies` fails, it logs the error and leaves the whole scheduler unchanged. -/
theorem taskDispatcher_pushes_independent (s : Scheduler) (visitCheck visitPush : List Task)
    (hv : visitPush.Perm s.tasks.values) :
    (checkDependencies s visitCheck = none →
      s.taskQueue.length + (s.tasks.values.filter fun t => decide (t.Dependencies = [])).length
        ≤ s.taskQueueCap →
      ∃ pushed,
        taskDispatcher s visitCheck visitPush =
          { sched := { s with taskQueue := s.taskQueue ++ pushed }, logged := none,
            blocked := [] } ∧
        pushed.Perm (s.tasks.values.filter fun t => decide (t.Dependencies = [])) ∧
        (∀ t ∈ pushed, t.Dependencies = []) ∧
        (∀ t ∈ s.tasks.values, t.Dependencies = [] → pushed.count t = s.tasks.values.count t) ∧
        (s.tasks.values.Nodup → pushed.Nodup)) ∧
    (checkDependencies s visitCheck ≠ none →
      ∃ err, taskDispatcher s visitCheck visitPush =
        { sched := s, logged := some err, blocked := [] }) := by
  constructor
  · intro hc hroom
    have hperm : (visitPush.filter fun t => decide (t.Dependencies = [])).Perm
        (s.tasks.values.filter fun t => decide (t.Dependencies = [])) := hv.filter _
    refine ⟨visitPush.filter fun t => decide (t.Dependencies = []), ?_, hperm, ?_, ?_, ?_⟩
    · unfold taskDispatcher
      rw [hc]
      simp only
      rw [dispatchLoop_of_room visitPush s (by rw [hperm.length_eq]; exact hroom)]
    · intro t ht
      simpa using (List.mem_filter.mp ht).2
    · intro t _ hd
      rw [hperm.count_eq t, List.count_filter (by simpa using hd)]
    · intro hnd
      exact hperm.symm.nodup_iff.mp (hnd.filter _)
  · intro hne
    unfold taskDispatcher
    cases hc : checkDependencies s visitCheck with
    | none => exact absurd hc hne
    | some err => exact ⟨err, rfl⟩

theorem taskDispatcher_pushes_independent_witness :
    (checkDependencies (AddTasks (NewScheduler 3) [scenarioA, chainC])
        [scenarioA, chainC] = none →
      (AddTasks (NewScheduler 3) [scenarioA, chainC]).taskQueue.length
        + ((AddTasks (NewScheduler 3) [scenarioA, chainC]).tasks.values.filter
            fun t => decide (t.Dependencies = [])).length
        ≤ (AddTasks (NewScheduler 3) [scenarioA, chainC]).taskQueueCap →
      ∃ pushed,
        taskDispatcher (AddTasks (NewScheduler 3) [scenarioA, chainC])
            [scenarioA, chainC] [scenarioA, chainC] =
          { sched := { (AddTasks (NewScheduler 3) [scenarioA, chainC]) with
              taskQueue := (AddTasks (NewScheduler 3) [scenarioA, chainC]).taskQueue ++ pushed },
            logged := none, blocked := [] } ∧
        pushed.Perm ((AddTasks (NewScheduler 3) [scenarioA, chainC]).tasks.values.filter
          fun t => decide (t.Dependencies = [])) ∧
        (∀ t ∈ pushed, t.Dependencies = []) ∧
        (∀ t ∈ (AddTasks (NewScheduler 3) [scenarioA, chainC]).tasks.values,
          t.Dependencies = [] →
            pushed.count t = (AddTasks (NewScheduler 3) [scenarioA, chainC]).tasks.values.count t) ∧
        ((AddTasks (NewScheduler 3) [scenarioA, chainC]).tasks.values.Nodup → pushed.Nodup)) ∧
    (checkDependencies (AddTasks (NewScheduler 3) [scenarioA, chainC]) [scenarioA, chainC]
        ≠ none →
      ∃ err, taskDispatcher (AddTasks (NewScheduler 3) [scenarioA, chainC])
          [scenarioA, chainC] [scenarioA, chainC] =
        { sched := AddTasks (NewScheduler 3) [scenarioA, chainC], logged := some err,
          blocked := [] }) :=
  taskDispatcher_pushes_independent (AddTasks (NewScheduler 3) [scenarioA, chainC])
    [scenarioA, chainC] [scenarioA, chainC] (by decide)

/-! ## Dependency resolution -/

/-- C1 (failing input): registry `A <- C <- D`, every registry scan in the order `A, C, D`.
After `taskDispatcher`, a worker finishing `A`, and the `resultProcessor` iteration that
records `A`, the queue holds `C` and also `D`, while `taskResults` has a result for `A` only:
`D` has been pushed although its dependency `C` has no result. -/
theorem dependent_pushed_before_dependency_result :
    (exec (AddTasks (NewScheduler 3) [scenarioA, chainC, chainD])
        [Action.dispatch [scenarioA, chainC, chainD] [scenarioA, chainC, chainD],
         Action.work 0 alwaysExit0 0 1,
         Action.process [scenarioA, chainC, chainD]]).map
      (fun s => (s.taskQueue, s.taskResults.keys, s.taskResults.get? "C"))
      = some ([chainC, chainD], ["A"], none) ∧
    chainD.Dependencies = ["C"] := by
  decide

/-- The same defect with the scan order that favours the claim most (`D` is visited before
`C` in every scan): with a second independent task `B`, the scan that follows the result of
`A` enqueues `C`, and the scan that follows the result of `B` enqueues `D`, while `C` is
still in the queue and has no result. -/
theorem dependent_pushed_before_dependency_result_any_order :
    (exec (AddTasks (NewScheduler 3) [scenarioA, chainB, chainC, chainD])
        [Action.dispatch [chainD, chainC, chainB, scenarioA] [chainD, chainC, scenarioA, chainB],
         Action.work 0 alwaysExit0 0 1,
         Action.work 1 alwaysExit0 0 1,
         Action.process [chainD, chainC, chainB, scenarioA],
         Action.process [chainD, chainC, chainB, scenarioA]]).map
      (fun s => (s.taskQueue, s.taskResults.keys, s.taskResults.get? "C"))
      = some ([chainC, chainD], ["B", "A"], none) := by
  decide

/-! ## Retry executor: the shape of every result -/

theorem attemptLoop_all_fail_upto (task : Task) (os : Nat → ProcRun) (r : Nat)
    (hr : task.RetryCount = (r : Int))
    (hfail : ∀ k, k ≤ r → (runCommand task (os k)).err ≠ none) :
    ∀ (n a : Nat) (st : AttemptState), a + n = r →
      attemptLoop task os (n + 1) a st =
        { Status := StatusFailed, RetryCount := (r : Int),
          output := "" ++ (runCommand task (os r)).written,
          err := (runCommand task (os r)).err,
          exitCode := (runCommand task (os r)).exitCode,
          effects := st.effects ++ attemptEffects task.RetryDelay a (n + 1) } := by
  intro n
  induction n with
  | zero =>
    intro a st ha
    have ha : a = r := by omega
    subst ha
    rw [attemptLoop]
    simp only [hr, le_refl, if_true, if_neg (hfail a (le_refl a)), attemptLoop, attemptEffects]
    by_cases h0 : a > 0 <;> simp [h0]
  | succ n ih =>
    intro a st ha
    have har : (a : Int) ≤ (r : Int) := by omega
    have hne : ¬ ((a : Int) = (r : Int)) := by omega
    rw [attemptLoop]
    simp only [hr, har, if_true, if_neg (hfail a (by omega)), if_neg hne]
    rw [ih (a + 1) _ (by omega)]
    conv => rhs; rw [attemptEffects]
    by_cases h0 : a > 0 <;> simp [h0]

/-- Every run of the retry loop of a task with `RetryCount = r ≥ 0` ends at some attempt
`k ≤ r`, the last one that is run: all attempts before `k` fail, and `k` succeeds or is
attempt `r`.  The final state holds what attempt `k` left. -/
theorem attemptLoop_outcome (task : Task) (os : Nat → ProcRun) (r : Nat)
    (hr : task.RetryCount = (r : Int)) :
    ∃ k, k ≤ r ∧ (∀ j, j < k → (runCommand task (os j)).err ≠ none) ∧
      ((runCommand task (os k)).err = none ∨ k = r) ∧
      attemptLoop task os (task.RetryCount + 1).toNat 0
          { Status := StatusRunning, RetryCount := 0, output := "", err := none, exitCode := 0,
            effects := [] } =
        { Status := if (runCommand task (os k)).err = none then StatusSuccess else StatusFailed,
          RetryCount := (k : Int),
          output := "" ++ (runCommand task (os k)).written,
          err := (runCommand task (os k)).err,
          exitCode := (runCommand task (os k)).exitCode,
          effects := attemptEffects task.RetryDelay 0 (k + 1) } := by
  have hfuel : (task.RetryCount + 1).toNat = r + 1 := by omega
  by_cases h : ∃ k, k ≤ r ∧ (runCommand task (os k)).err = none
  · classical
    have hk := Nat.find_spec h
    have hmin : ∀ j, j < Nat.find h → (runCommand task (os j)).err ≠ none := by
      intro j hj hjn
      exact Nat.find_min h hj ⟨by omega, hjn⟩
    refine ⟨Nat.find h, hk.1, hmin, Or.inl hk.2, ?_⟩
    rw [attemptLoop_first_success task os (Nat.find h) (by rw [hr]; exact_mod_cast hk.1) hmin hk.2
      (Nat.find h) _ 0 _ (by omega) (by omega)]
    simp [hk.2]
  · have hfail : ∀ k, k ≤ r → (runCommand task (os k)).err ≠ none := by
      intro k hk hn
      exact h ⟨k, hk, hn⟩
    refine ⟨r, le_refl r, fun j hj => hfail j (by omega), Or.inr rfl, ?_⟩
    rw [hfuel, attemptLoop_all_fail_upto task os r hr hfail r 0 _ (by omega)]
    simp [hfail r (le_refl r)]

/-- With a bound of `-2` or less, `trimOutput` panics on every output. -/
theorem trimOutput_panics (output : String) (maxLines : Int) (h : maxLines ≤ -2) :
    trimOutput output maxLines = none := by
  unfold trimOutput
  have hlen := splitLines_length_pos output.data
  rw [if_neg (by omega)]
  have hk : Int.tdiv maxLines 2 < 0 := by
    obtain ⟨n, hn⟩ : ∃ n : Nat, maxLines = -(n : Int) := ⟨(-maxLines).toNat, by omega⟩
    have h2 : Int.tdiv (n : Int) 2 = ((n / 2 : Nat) : Int) := (Int.ofNat_tdiv n 2).symm
    rw [hn, Int.neg_tdiv, h2]
    omega
  simp only
  rw [if_pos (Or.inl hk)]

theorem String.empty_append_eq (s : String) : "" ++ s = s := by
  apply String.ext
  simp [String.data_append]

/-- C15: for every task with `RetryCount ≥ 0` and every sequence of attempt outcomes, a
result of `executeTask` has a non-nil `Error` if and only if its `Status` is `StatusFailed`
or `StatusTimeout`.  A result is returned exactly when `MaxOutput ≥ -1`. -/
theorem executeTask_error_iff_status (workerID : Int) (task : Task) (os : Nat → ProcRun)
    (startTime endTime : Int) (hr : 0 ≤ task.RetryCount) :
    (∀ res, (executeTask workerID task os startTime endTime).result = some res →
      (res.Error ≠ none ↔ (res.Status = StatusFailed ∨ res.Status = StatusTimeout))) ∧
    ((executeTask workerID task os startTime endTime).result.isSome = true ↔
      -1 ≤ task.MaxOutput) := by
  obtain ⟨r, hrr⟩ := Int.eq_ofNat_of_zero_le hr
  obtain ⟨k, _, _, _, hloop⟩ := attemptLoop_outcome task os r hrr
  unfold executeTask
  simp only [hloop]
  constructor
  · intro res hres
    simp only [Option.map_eq_some'] at hres
    obtain ⟨out, _, rfl⟩ := hres
    cases he : (runCommand task (os k)).err with
    | none => simp
    | some e => simp
  · rw [Option.isSome_map']
    constructor
    · intro h
      by_contra hcon
      rw [trimOutput_panics _ _ (by omega)] at h
      exact absurd h (by simp)
    · intro h
      obtain ⟨trimmed, ht⟩ := trimOutput_isSome (runCommand task (os k)).written
        task.MaxOutput h
      simp [ht]

theorem executeTask_error_iff_status_witness :
    (∀ res, (executeTask 0 scenarioB alwaysExit1 0 1).result = some res →
      (res.Error ≠ none ↔ (res.Status = StatusFailed ∨ res.Status = StatusTimeout))) ∧
    ((executeTask 0 scenarioB alwaysExit1 0 1).result.isSome = true ↔
      -1 ≤ scenarioB.MaxOutput) :=
  executeTask_error_iff_status 0 scenarioB alwaysExit1 0 1 (by decide)

/-- C16: for every task with `RetryCount ≥ 0` there is a last attempt `k` that is run
(the attempts before it fail, and `k` succeeds or is attempt `RetryCount`; the launches are
those of attempts `0..k`), and the `Output` of the result is `trimOutput` of the text written
by attempt `k` alone; where `trimOutput` panics, `executeTask` does. -/
theorem executeTask_output_last_attempt (workerID : Int) (task : Task) (os : Nat → ProcRun)
    (startTime endTime : Int) (hr : 0 ≤ task.RetryCount) :
    ∃ k : Nat, (k : Int) ≤ task.RetryCount ∧
      (∀ j, j < k → (runCommand task (os j)).err ≠ none) ∧
      ((runCommand task (os k)).err = none ∨ (k : Int) = task.RetryCount) ∧
      (executeTask workerID task os startTime endTime).effects =
        Effect.launch 0 ::
          ((List.range k).map fun j => [Effect.sleep task.RetryDelay, Effect.launch (j + 1)]).flatten ∧
      (executeTask workerID task os startTime endTime).result.map TaskResult.Output =
        trimOutput (runCommand task (os k)).written task.MaxOutput := by
  obtain ⟨r, hrr⟩ := Int.eq_ofNat_of_zero_le hr
  obtain ⟨k, hk, hfail, hlast, hloop⟩ := attemptLoop_outcome task os r hrr
  refine ⟨k, by omega, hfail, ?_, ?_, ?_⟩
  · rcases hlast with h | h
    · exact Or.inl h
    · exact Or.inr (by omega)
  · unfold executeTask
    simp only [hloop, attemptEffects_zero]
  · unfold executeTask
    simp only [hloop, String.empty_append_eq, Option.map_map]
    cases trimOutput (runCommand task (os k)).written task.MaxOutput <;> rfl

theorem executeTask_output_last_attempt_witness :
    ∃ k : Nat, (k : Int) ≤ scenarioB.RetryCount ∧
      (∀ j, j < k → (runCommand scenarioB (alwaysExit1 j)).err ≠ none) ∧
      ((runCommand scenarioB (alwaysExit1 k)).err = none ∨ (k : Int) = scenarioB.RetryCount) ∧
      (executeTask 0 scenarioB alwaysExit1 0 1).effects =
        Effect.launch 0 ::
          ((List.range k).map fun j =>
            [Effect.sleep scenarioB.RetryDelay, Effect.launch (j + 1)]).flatten ∧
      (executeTask 0 scenarioB alwaysExit1 0 1).result.map TaskResult.Output =
        trimOutput (runCommand scenarioB (alwaysExit1 k)).written scenarioB.MaxOutput :=
  executeTask_output_last_attempt 0 scenarioB alwaysExit1 0 1 (by decide)

/-! ## Command runner -/

/-- C17: once the process has been waited for, `runCommand` returns the timeout error when
`ctx.Err()` is `DeadlineExceeded`, whatever the exit code and the error of `Wait`, and the
message of that error holds the task's `Timeout`; when `ctx.Err()` is nil or `Canceled` it
returns the error of `Wait` unchanged.  The exit code is handed back in every case. -/
theorem runCommand_deadline (task : Task) (lines : List String) (exitCode : Int)
    (waitErr : Option GoError) (durationString : Int → String) :
    (runCommand task (ProcRun.ran lines exitCode waitErr (some CtxErr.DeadlineExceeded))).err
      = some (GoError.timeout task.Timeout) ∧
    errorMessage durationString (GoError.timeout task.Timeout)
      = "任务执行超时(限时: " ++ durationString task.Timeout ++ ")" ∧
    (runCommand task (ProcRun.ran lines exitCode waitErr none)).err = waitErr ∧
    (runCommand task (ProcRun.ran lines exitCode waitErr (some CtxErr.Canceled))).err = waitErr ∧
    (∀ ctxErr, (runCommand task (ProcRun.ran lines exitCode waitErr ctxErr)).exitCode
      = exitCode) := by
  refine ⟨by simp [runCommand], rfl, by simp [runCommand], by simp [runCommand], ?_⟩
  intro ctxErr
  simp only [runCommand]
  split <;> rfl

theorem dedupLoop_subset (l : List String) :
    ∀ (saw out : List String) (e : String), e ∈ dedupLoop l saw out → e ∈ l ∨ e ∈ out := by
  induction l with
  | nil => intro saw out e h; exact Or.inr h
  | cons kv rest ih =>
    intro saw out e h
    rw [dedupLoop] at h
    split at h
    · split at h
      · rcases ih _ _ e h with h1 | h1
        · exact Or.inl (List.mem_cons_of_mem _ h1)
        · rcases List.mem_cons.mp h1 with h2 | h2
          · exact Or.inl (by rw [h2]; simp)
          · exact Or.inr h2
      · rcases ih _ _ e h with h1 | h1
        · exact Or.inl (List.mem_cons_of_mem _ h1)
        · exact Or.inr h1
    · split at h
      · rcases ih _ _ e h with h1 | h1
        · exact Or.inl (List.mem_cons_of_mem _ h1)
        · exact Or.inr h1
      · rcases ih _ _ e h with h1 | h1
        · exact Or.inl (List.mem_cons_of_mem _ h1)
        · rcases List.mem_cons.mp h1 with h2 | h2
          · exact Or.inl (by rw [h2]; simp)
          · exact Or.inr h2

theorem dedupEnv_subset (env : List String) (e : String) (h : e ∈ dedupEnv env) : e ∈ env := by
  rcases dedupLoop_subset env.reverse [] [] e h with h1 | h1
  · exact List.mem_reverse.mp h1
  · simp at h1

/-- For every task, the environment of the child is computed from the environment of the
parent alone: it is the parent's, without the earlier of two entries with one key, and with
`PWD` set to the working directory when the task has a `WorkDir` and no `Env`.  No entry of
`task.Env` is in it unless the parent has it too. -/
theorem processEnv_buildCmd (task : Task) (environ : List String) (absDir : String) :
    (task.Env ≠ [] → processEnv (buildCmd task environ) environ absDir = dedupEnv environ) ∧
    (task.Env = [] → task.WorkDir = "" →
      processEnv (buildCmd task environ) environ absDir = dedupEnv environ) ∧
    (task.Env = [] → task.WorkDir ≠ "" →
      processEnv (buildCmd task environ) environ absDir
        = dedupEnv (environ ++ ["PWD=" ++ absDir])) ∧
    ∀ e ∈ processEnv (buildCmd task environ) environ absDir,
      e ∈ environ ∨ e = "PWD=" ++ absDir := by
  have h1 : task.Env ≠ [] →
      processEnv (buildCmd task environ) environ absDir = dedupEnv environ := by
    intro he
    have he2 : task.Env.length > 0 := List.length_pos.mpr he
    unfold buildCmd processEnv
    by_cases ha : task.Args.length > 0 <;> by_cases hw : task.WorkDir ≠ "" <;>
      simp [ha, hw, he2]
  have h2 : task.Env = [] → task.WorkDir = "" →
      processEnv (buildCmd task environ) environ absDir = dedupEnv environ := by
    intro he hw
    unfold buildCmd processEnv
    by_cases ha : task.Args.length > 0 <;> simp [ha, hw, he]
  have h3 : task.Env = [] → task.WorkDir ≠ "" →
      processEnv (buildCmd task environ) environ absDir
        = dedupEnv (environ ++ ["PWD=" ++ absDir]) := by
    intro he hw
    unfold buildCmd processEnv
    by_cases ha : task.Args.length > 0 <;> simp [ha, hw, he]
  refine ⟨h1, h2, h3, ?_⟩
  intro e he
  by_cases hE : task.Env = []
  · by_cases hw : task.WorkDir = ""
    · rw [h2 hE hw] at he
      exact Or.inl (dedupEnv_subset _ _ he)
    · rw [h3 hE hw] at he
      have := dedupEnv_subset _ _ he
      simpa using this
  · rw [h1 hE] at he
    exact Or.inl (dedupEnv_subset _ _ he)

/-- An example of `dedupEnv`: the entry `PWD` that `os/exec` appends replaces the one of the
parent. -/
theorem dedupEnv_keeps_last :
    dedupEnv ["PATH=/bin", "PWD=/old", "HOME=/root", "PWD=/tmp/w"]
      = ["PATH=/bin", "HOME=/root", "PWD=/tmp/w"] := by
  decide

/-- C18 (failing input): a task with `Env = ["FOO=bar"]` in a parent whose environment is
`["PATH=/bin"]`: the command gets `Env = ["PATH=/bin"]`, without the entry of the task, and
so does the process. -/
theorem buildCmd_drops_task_env :
    envTask.Env = ["FOO=bar"] ∧
    (buildCmd envTask ["PATH=/bin"]).Env = some ["PATH=/bin"] ∧
    (∀ absDir, processEnv (buildCmd envTask ["PATH=/bin"]) ["PATH=/bin"] absDir
      = ["PATH=/bin"]) ∧
    (∀ absDir, processEnv (buildCmd envTask ["PATH=/bin"]) ["PATH=/bin"] absDir
      ≠ ["PATH=/bin"] ++ envTask.Env) := by
  have h : ∀ absDir, processEnv (buildCmd envTask ["PATH=/bin"]) ["PATH=/bin"] absDir
      = ["PATH=/bin"] := by
    intro absDir
    have e : (buildCmd envTask ["PATH=/bin"]).Env = some ["PATH=/bin"] := by decide
    unfold processEnv
    rw [e]
    simp only
    decide
  refine ⟨by decide, by decide, h, ?_⟩
  intro absDir
  rw [h absDir]
  decide

/-! ## Registration -/

theorem GoMap.get?_set_self {α : Type} (m : GoMap α) (k : String) (v : α) :
    (m.set k v).get? k = some v := by
  simp [GoMap.get?, GoMap.set, List.lookup]

theorem GoMap.get?_filter_ne {α : Type} (m : GoMap α) (k k2 : String) (h : k2 ≠ k) :
    GoMap.get? (m.filter fun e => e.1 != k) k2 = m.get? k2 := by
  unfold GoMap.get?
  induction m with
  | nil => rfl
  | cons e m ih =>
    obtain ⟨k3, v⟩ := e
    by_cases h3 : k3 = k
    · subst h3
      have hb : (k2 == k3) = false := by simpa using h
      simp [List.filter, List.lookup, hb, ih]
    · have hb : (k3 != k) = true := by simpa using h3
      simp only [List.filter, hb, List.lookup]
      split
      · rfl
      · exact ih

theorem GoMap.get?_set_ne {α : Type} (m : GoMap α) (k k2 : String) (v : α) (h : k2 ≠ k) :
    (m.set k v).get? k2 = m.get? k2 := by
  have hb : (k2 == k) = false := by simpa using h
  have := GoMap.get?_filter_ne m k k2 h
  unfold GoMap.get? at this ⊢
  simp only [GoMap.set, List.lookup, hb]
  exact this

/-- C19: `AddTask` stores the task under its resulting id, with `ID = "task-<n+1>"` (`n` the
number of entries of the registry before the call) when the id was empty, `Name` = the
resulting id when the name was empty, `Timeout` = 5 minutes when it was 0, `MaxOutput` = 5000
when it was 0, and every other field as given. -/
theorem AddTask_stores_with_defaults (s : Scheduler) (t : Task) :
    (AddTask s t).1.tasks.get?
        (if t.ID = "" then "task-" ++ toString (s.tasks.keys.length + 1) else t.ID) =
      some { ID := if t.ID = "" then "task-" ++ toString (s.tasks.keys.length + 1) else t.ID,
             Name := if t.Name = "" then
                 (if t.ID = "" then "task-" ++ toString (s.tasks.keys.length + 1) else t.ID)
               else t.Name,
             Cmd := t.Cmd,
             Args := t.Args,
             Timeout := if t.Timeout = 0 then 5 * (60 * 1000000000) else t.Timeout,
             RetryCount := t.RetryCount,
             RetryDelay := t.RetryDelay,
             MaxOutput := if t.MaxOutput = 0 then 5000 else t.MaxOutput,
             Env := t.Env,
             WorkDir := t.WorkDir,
             Dependencies := t.Dependencies } := by
  have hlen : s.tasks.keys.length = s.tasks.length := by simp [GoMap.keys]
  rw [hlen]
  unfold AddTask
  by_cases h1 : t.ID = "" <;> by_cases h2 : t.Name = "" <;> by_cases h3 : t.Timeout = 0 <;>
    by_cases h4 : t.MaxOutput = 0 <;>
    simp [h1, h2, h3, h4, GoMap.get?_set_self]

/-- C20: `AddTask` returns nil for every task and every scheduler; afterwards the registry
maps the resulting id of the task to the stored task, every other id reads as before, and
the results map, `completedTasks` and every other field of the scheduler are unchanged. -/
theorem AddTask_frame (s : Scheduler) (t : Task) :
    (AddTask s t).2 = none ∧
    (∃ stored : Task,
      stored.ID = (if t.ID = "" then "task-" ++ toString (s.tasks.keys.length + 1) else t.ID) ∧
      stored.Cmd = t.Cmd ∧ stored.Dependencies = t.Dependencies ∧
      (AddTask s t).1.tasks.get? stored.ID = some stored ∧
      (∀ k, k ≠ stored.ID → (AddTask s t).1.tasks.get? k = s.tasks.get? k) ∧
      (AddTask s t).1 = { s with tasks := s.tasks.set stored.ID stored }) ∧
    (AddTask s t).1.taskResults = s.taskResults ∧
    (AddTask s t).1.completedTasks = s.completedTasks ∧
    (AddTask s t).1.taskQueue = s.taskQueue ∧
    (AddTask s t).1.taskResultQueue = s.taskResultQueue ∧
    (AddTask s t).1.isRunning = s.isRunning := by
  have hlen : s.tasks.keys.length = s.tasks.length := by simp [GoMap.keys]
  rw [hlen]
  refine ⟨rfl, ⟨_, ?_, ?_, ?_, GoMap.get?_set_self _ _ _,
    fun k hk => GoMap.get?_set_ne _ _ _ _ hk, rfl⟩, rfl, rfl, rfl, rfl, rfl⟩
  · by_cases h1 : t.ID = "" <;> by_cases h2 : t.Name = "" <;> by_cases h3 : t.Timeout = 0 <;>
      by_cases h4 : t.MaxOutput = 0 <;> simp [h1, h2, h3, h4]
  · by_cases h1 : t.ID = "" <;> by_cases h2 : t.Name = "" <;> by_cases h3 : t.Timeout = 0 <;>
      by_cases h4 : t.MaxOutput = 0 <;> simp [h1, h2, h3, h4]
  · by_cases h1 : t.ID = "" <;> by_cases h2 : t.Name = "" <;> by_cases h3 : t.Timeout = 0 <;>
      by_cases h4 : t.MaxOutput = 0 <;> simp [h1, h2, h3, h4]

/-! ## The dependency scan -/

theorem GoMap.getBool_set_self (m : GoMap Bool) (k : String) :
    (m.set k true).getBool k = true := by
  simp [GoMap.getBool, GoMap.get?_set_self]

theorem GoMap.getBool_set_ne (m : GoMap Bool) (k k2 : String) (v : Bool) (h : k2 ≠ k) :
    (m.set k v).getBool k2 = m.getBool k2 := by
  simp [GoMap.getBool, GoMap.get?_set_ne _ _ _ _ h]

theorem GoMap.getBool_set_of_true (m : GoMap Bool) (k k2 : String) (h : m.getBool k2 = true) :
    (m.set k true).getBool k2 = true := by
  by_cases e : k2 = k
  · subst e; exact GoMap.getBool_set_self m k2
  · rw [GoMap.getBool_set_ne m k k2 true e]; exact h

theorem checkDependentTasks_cons (s : Scheduler) (task : Task) (rest : List Task) :
    checkDependentTasks s (task :: rest) = checkDependentTasks (scanStep s task) rest := by
  rw [checkDependentTasks]
  unfold scanStep
  by_cases h1 : s.completedTasks.getBool task.ID = true
  · simp [h1]
  · have h1f : s.completedTasks.getBool task.ID = false := by simpa using h1
    by_cases h2 : (task.Dependencies.all fun depID => s.completedTasks.getBool depID) = true
    · by_cases h3 : task.Dependencies.length > 0
      · by_cases h4 : s.taskQueue.length < s.taskQueueCap
        · simp [h1f, h2, h3, h4]
        · simp [h1f, h2, h3, h4]
      · simp [h1f, h2, h3]
    · simp [h1f, h2]

theorem checkDependentTasks_append (pre post : List Task) :
    ∀ s : Scheduler,
      checkDependentTasks s (pre ++ post) = checkDependentTasks (checkDependentTasks s pre) post := by
  induction pre with
  | nil => intro s; simp [checkDependentTasks]
  | cons t pre ih =>
    intro s
    rw [List.cons_append, checkDependentTasks_cons, checkDependentTasks_cons, ih]

/-- One visit either changes nothing, or enqueues the visited task and marks its id. -/
theorem scanStep_cases (s : Scheduler) (task : Task) :
    scanStep s task = s ∨
    (s.completedTasks.getBool task.ID = false ∧ task.Dependencies ≠ [] ∧
      (∀ d ∈ task.Dependencies, s.completedTasks.getBool d = true) ∧
      s.taskQueue.length < s.taskQueueCap ∧
      scanStep s task = { s with taskQueue := s.taskQueue ++ [task],
                                 completedTasks := s.completedTasks.set task.ID true }) := by
  unfold scanStep
  split
  · rename_i h
    refine Or.inr ⟨h.1, ?_, ?_, h.2.2.2, rfl⟩
    · intro e
      have := h.2.2.1
      rw [e] at this
      simp at this
    · intro d hd
      exact (List.all_eq_true.mp h.2.1) d hd
  · exact Or.inl rfl

/-- What a scan leaves: the queue grows by tasks it visited, which have dependencies and whose
ids it has marked; marks are kept; an id that is marked afterwards was marked before or is the
id of an enqueued task; the other fields are unchanged. -/
theorem checkDependentTasks_frame (visit : List Task) :
    ∀ s : Scheduler, ∃ pushed,
      (checkDependentTasks s visit).taskQueue = s.taskQueue ++ pushed ∧
      (∀ t ∈ pushed, t ∈ visit ∧ t.Dependencies ≠ [] ∧
        (∀ d ∈ t.Dependencies, (checkDependentTasks s visit).completedTasks.getBool d = true)) ∧
      (∀ k, s.completedTasks.getBool k = true →
        (checkDependentTasks s visit).completedTasks.getBool k = true) ∧
      (∀ k, (checkDependentTasks s visit).completedTasks.getBool k = true →
        s.completedTasks.getBool k = true ∨ ∃ t ∈ pushed, t.ID = k) ∧
      (checkDependentTasks s visit).tasks = s.tasks ∧
      (checkDependentTasks s visit).taskResults = s.taskResults ∧
      (checkDependentTasks s visit).taskResultQueue = s.taskResultQueue ∧
      (checkDependentTasks s visit).taskQueueCap = s.taskQueueCap ∧
      (checkDependentTasks s visit).taskResultQueueCap = s.taskResultQueueCap ∧
      (checkDependentTasks s visit).isRunning = s.isRunning ∧
      (checkDependentTasks s visit).maxWorkers = s.maxWorkers := by
  induction visit with
  | nil =>
    intro s
    exact ⟨[], by simp [checkDependentTasks], by simp, by simp [checkDependentTasks],
      by simp [checkDependentTasks], rfl, rfl, rfl, rfl, rfl, rfl, rfl⟩
  | cons task rest ih =>
    intro s
    rw [checkDependentTasks_cons]
    obtain ⟨pushed, hq, hp, hmono, hnew, h1, h2, h3, h4, h5, h6, h7⟩ := ih (scanStep s task)
    rcases scanStep_cases s task with hs | ⟨hun, hne, hall, hroom, hs⟩
    · rw [hs] at hq hp hmono hnew h1 h2 h3 h4 h5 h6 h7 ⊢
      refine ⟨pushed, hq, ?_, hmono, hnew, h1, h2, h3, h4, h5, h6, h7⟩
      intro t ht
      exact ⟨List.mem_cons_of_mem _ (hp t ht).1, (hp t ht).2⟩
    · rw [hs] at hq hp hmono hnew h1 h2 h3 h4 h5 h6 h7 ⊢
      refine ⟨task :: pushed, by simpa using hq, ?_, ?_, ?_, h1, h2, h3, h4, h5, h6, h7⟩
      · intro t ht
        rcases List.mem_cons.mp ht with e | ht
        · subst e
          refine ⟨by simp, hne, ?_⟩
          intro d hd
          exact hmono d (GoMap.getBool_set_of_true _ _ _ (hall d hd))
        · exact ⟨List.mem_cons_of_mem _ (hp t ht).1, (hp t ht).2⟩
      · intro k hk
        exact hmono k (GoMap.getBool_set_of_true _ _ _ hk)
      · intro k hk
        rcases hnew k hk with h | ⟨t, ht, e⟩
        · by_cases e : k = task.ID
          · exact Or.inr ⟨task, by simp, e.symm⟩
          · rw [GoMap.getBool_set_ne _ _ _ _ e] at h
            exact Or.inl h
        · exact Or.inr ⟨t, List.mem_cons_of_mem _ ht, e⟩

theorem ids_ne_of_nodup (pre post : List Task) (t : Task)
    (hnd : ((pre ++ t :: post).map Task.ID).Nodup) :
    (∀ u ∈ pre, u.ID ≠ t.ID) ∧ (∀ u ∈ post, u.ID ≠ t.ID) := by
  rw [List.map_append, List.map_cons, List.nodup_append] at hnd
  obtain ⟨_, h2, h3⟩ := hnd
  rw [List.nodup_cons] at h2
  constructor
  · intro u hu e
    exact h3 (List.mem_map_of_mem Task.ID hu) (by rw [e]; simp)
  · intro u hu e
    exact h2.1 (by rw [← e]; exact List.mem_map_of_mem Task.ID hu)

/-- What a scan does with a task `t` that is not marked and whose dependencies are all marked,
when the registry ids are distinct: `t` is enqueued and marked if the queue has room at the
moment the scan reaches it, and is neither enqueued nor marked if the queue is full then. -/
theorem checkDependentTasks_visit (pre post : List Task) (t : Task) (s : Scheduler)
    (hnd : ((pre ++ t :: post).map Task.ID).Nodup)
    (hun : s.completedTasks.getBool t.ID = false) (hne : t.Dependencies ≠ [])
    (hall : ∀ d ∈ t.Dependencies, s.completedTasks.getBool d = true) :
    ∃ pushed, (checkDependentTasks s (pre ++ t :: post)).taskQueue = s.taskQueue ++ pushed ∧
      ((checkDependentTasks s pre).taskQueue.length < s.taskQueueCap →
        t ∈ pushed ∧
        (checkDependentTasks s (pre ++ t :: post)).completedTasks.getBool t.ID = true) ∧
      (s.taskQueueCap ≤ (checkDependentTasks s pre).taskQueue.length →
        t ∉ pushed ∧
        (checkDependentTasks s (pre ++ t :: post)).completedTasks.getBool t.ID = false) := by
  obtain ⟨hpre, hpost⟩ := ids_ne_of_nodup pre post t hnd
  obtain ⟨p1, hq1, hp1, hmono1, hnew1, _, _, _, hcap1, _⟩ := checkDependentTasks_frame pre s
  have hun1 : (checkDependentTasks s pre).completedTasks.getBool t.ID = false := by
    by_contra hc
    have hc : (checkDependentTasks s pre).completedTasks.getBool t.ID = true := by simpa using hc
    rcases hnew1 _ hc with h | ⟨u, hu, e⟩
    · rw [hun] at h; exact absurd h (by simp)
    · exact hpre u (hp1 u hu).1 e
  have hall1 : ∀ d ∈ t.Dependencies, (checkDependentTasks s pre).completedTasks.getBool d = true :=
    fun d hd => hmono1 d (hall d hd)
  have hlen : t.Dependencies.length > 0 := List.length_pos.mpr hne
  rw [checkDependentTasks_append, checkDependentTasks_cons]
  by_cases hroom : (checkDependentTasks s pre).taskQueue.length < s.taskQueueCap
  · have hstep : scanStep (checkDependentTasks s pre) t =
        { checkDependentTasks s pre with
          taskQueue := (checkDependentTasks s pre).taskQueue ++ [t],
          completedTasks := (checkDependentTasks s pre).completedTasks.set t.ID true } := by
      unfold scanStep
      rw [if_pos ⟨hun1, List.all_eq_true.mpr (fun d hd => by simpa using hall1 d hd), hlen,
        by rw [hcap1]; exact hroom⟩]
    rw [hstep]
    obtain ⟨p3, hq3, _, hmono3, _⟩ := checkDependentTasks_frame post
      { checkDependentTasks s pre with
        taskQueue := (checkDependentTasks s pre).taskQueue ++ [t],
        completedTasks := (checkDependentTasks s pre).completedTasks.set t.ID true }
    refine ⟨p1 ++ t :: p3, ?_, ?_, ?_⟩
    · rw [hq3]; simp only [hq1]; simp
    · intro _
      exact ⟨by simp, hmono3 t.ID (GoMap.getBool_set_self _ _)⟩
    · intro h; omega
  · have hstep : scanStep (checkDependentTasks s pre) t = checkDependentTasks s pre := by
      unfold scanStep
      rw [if_neg]
      intro h
      exact hroom (by rw [← hcap1]; exact h.2.2.2)
    rw [hstep]
    obtain ⟨p3, hq3, hp3, _, hnew3, _⟩ := checkDependentTasks_frame post
      (checkDependentTasks s pre)
    refine ⟨p1 ++ p3, ?_, ?_, ?_⟩
    · rw [hq3, hq1]; simp
    · intro h; exact absurd h hroom
    · intro _
      constructor
      · intro hmem
        rcases List.mem_append.mp hmem with h | h
        · exact hpre t (hp1 t h).1 rfl
        · exact hpost t (hp3 t h).1 rfl
      · by_contra hc
        have hc : (checkDependentTasks (checkDependentTasks s pre) post).completedTasks.getBool
            t.ID = true := by simpa using hc
        rcases hnew3 _ hc with h | ⟨u, hu, e⟩
        · rw [hun1] at h; exact absurd h (by simp)
        · exact hpost u (hp3 u hu).1 e

/-! ## Registries built by `AddTask` -/

theorem GoMap.keys_set {α : Type} (m : GoMap α) (k : String) (v : α) :
    (m.set k v).keys = k :: m.keys.filter (fun k2 => k2 != k) := by
  unfold GoMap.set GoMap.keys
  simp only [List.map_cons, List.cons.injEq, true_and]
  induction m with
  | nil => rfl
  | cons e m ih =>
    by_cases h : (e.1 != k) = true
    · simp [List.filter, h, ih]
    · have h2 : (e.1 != k) = false := by simpa using h
      simp only [List.filter, h2, List.map_cons, ih]

theorem GoMap.nodup_keys_set {α : Type} (m : GoMap α) (k : String) (v : α)
    (h : m.keys.Nodup) : (m.set k v).keys.Nodup := by
  rw [GoMap.keys_set, List.nodup_cons]
  exact ⟨by simp [List.mem_filter], h.filter _⟩

theorem AddTask_WF (s : Scheduler) (t : Task) (h : s.WF) : (AddTask s t).1.WF := by
  unfold Scheduler.WF AddTask
  exact GoMap.nodup_keys_set _ _ _ h

theorem AddTask_KeyedByID (s : Scheduler) (t : Task) (h : s.KeyedByID) :
    (AddTask s t).1.KeyedByID := by
  unfold Scheduler.KeyedByID AddTask
  intro e he
  simp only [GoMap.set, List.mem_cons, List.mem_filter] at he
  rcases he with rfl | ⟨he, _⟩
  · rfl
  · exact h e he

theorem AddTask_Fresh (s : Scheduler) (t : Task) (h : s.Fresh) : (AddTask s t).1.Fresh := h

theorem AddTasks_invariants (ts : List Task) :
    ∀ s : Scheduler, s.WF → s.KeyedByID → s.Fresh →
      (AddTasks s ts).WF ∧ (AddTasks s ts).KeyedByID ∧ (AddTasks s ts).Fresh := by
  induction ts with
  | nil => intro s h1 h2 h3; exact ⟨h1, h2, h3⟩
  | cons t ts ih =>
    intro s h1 h2 h3
    exact ih _ (AddTask_WF s t h1) (AddTask_KeyedByID s t h2) (AddTask_Fresh s t h3)

/-- Every scheduler built from `NewScheduler` by `AddTasks` has one entry per id, filed under
the id of its task, and nothing queued, recorded or marked. -/
theorem NewScheduler_AddTasks_invariants (maxWorkers : Int) (ts : List Task) :
    (AddTasks (NewScheduler maxWorkers) ts).WF ∧
    (AddTasks (NewScheduler maxWorkers) ts).KeyedByID ∧
    (AddTasks (NewScheduler maxWorkers) ts).Fresh :=
  AddTasks_invariants ts (NewScheduler maxWorkers) (by simp [Scheduler.WF, NewScheduler, GoMap.keys])
    (by simp [Scheduler.KeyedByID, NewScheduler])
    (by simp [Scheduler.Fresh, NewScheduler])

theorem registry_values_ids (s : Scheduler) (hkey : s.KeyedByID) :
    s.tasks.values.map Task.ID = s.tasks.keys := by
  unfold GoMap.values GoMap.keys
  rw [List.map_map]
  apply List.map_congr_left
  intro e he
  exact (hkey e he).symm

theorem visit_ids_nodup (s : Scheduler) (visit : List Task) (hwf : s.WF) (hkey : s.KeyedByID)
    (hv : visit.Perm s.tasks.values) : (visit.map Task.ID).Nodup := by
  have hp : (visit.map Task.ID).Perm (s.tasks.values.map Task.ID) := hv.map _
  rw [hp.nodup_iff, registry_values_ids s hkey]
  exact hwf

/-! ## One iteration of the result processor -/

theorem resultProcessor_cons (s : Scheduler) (r : TaskResult) (rest : List TaskResult)
    (visit : List Task) (hq : s.taskResultQueue = r :: rest) :
    resultProcessor s visit =
      some (checkDependentTasks
        { s with taskResultQueue := rest,
                 taskResults := s.taskResults.set r.TaskID r,
                 completedTasks := s.completedTasks.set r.TaskID true } visit) := by
  unfold resultProcessor
  rw [hq]

/-- C11: one `resultProcessor` iteration that receives a result `r`, of any `Status`, in any
state and with any visiting order of its scan, records `r` under `r.TaskID`, leaves the other
recorded results as they are, marks `r.TaskID`, and only appends to the queue; and when the
scan visits the registry, a registered task `t` that is not marked, is not the task of `r`,
and has `r.TaskID` as its only dependency is among the tasks this iteration enqueues (and is
marked) when the queue has room at the moment the scan reaches `t`. -/
theorem resultProcessor_enqueues_dependent (s : Scheduler) (r : TaskResult)
    (rest : List TaskResult) (visit : List Task) (hq : s.taskResultQueue = r :: rest) :
    ∃ s2 pushed, resultProcessor s visit = some s2 ∧
      s2.taskResults.get? r.TaskID = some r ∧
      (∀ k, k ≠ r.TaskID → s2.taskResults.get? k = s.taskResults.get? k) ∧
      s2.completedTasks.getBool r.TaskID = true ∧
      s2.taskResultQueue = rest ∧
      s2.taskQueue = s.taskQueue ++ pushed ∧
      ∀ (pre post : List Task) (t : Task), visit = pre ++ t :: post →
        visit.Perm s.tasks.values → s.WF → s.KeyedByID → t.Dependencies = [r.TaskID] →
        s.completedTasks.getBool t.ID = false → t.ID ≠ r.TaskID →
        (∃ s1, resultProcessor s pre = some s1 ∧ s1.taskQueue.length < s1.taskQueueCap) →
        t ∈ pushed ∧ s2.completedTasks.getBool t.ID = true := by
  rw [resultProcessor_cons s r rest visit hq]
  obtain ⟨pushed, hpq, _, hmono, _, _, hres, hrq, _⟩ := checkDependentTasks_frame visit
    { s with taskResultQueue := rest,
             taskResults := s.taskResults.set r.TaskID r,
             completedTasks := s.completedTasks.set r.TaskID true }
  refine ⟨_, pushed, rfl, ?_, ?_, hmono _ (GoMap.getBool_set_self _ _), hrq, hpq, ?_⟩
  · rw [hres]; exact GoMap.get?_set_self _ _ _
  · intro k hk
    rw [hres]
    exact GoMap.get?_set_ne _ _ _ _ hk
  · intro pre post t hvis hv hwf hkey hdep hun hne hroom
    subst hvis
    have hnd := visit_ids_nodup s _ hwf hkey hv
    obtain ⟨s1, hs1, hlt⟩ := hroom
    rw [resultProcessor_cons s r rest pre hq] at hs1
    have hs1 := Option.some.inj hs1
    subst hs1
    obtain ⟨_, _, _, _, _, _, _, _, hcap1, _⟩ := checkDependentTasks_frame pre
      { s with taskResultQueue := rest,
               taskResults := s.taskResults.set r.TaskID r,
               completedTasks := s.completedTasks.set r.TaskID true }
    obtain ⟨pushed1, hpq1, hyes, _⟩ := checkDependentTasks_visit pre post t
      { s with taskResultQueue := rest,
               taskResults := s.taskResults.set r.TaskID r,
               completedTasks := s.completedTasks.set r.TaskID true } hnd
      (by simpa [GoMap.getBool_set_ne _ _ _ _ hne] using hun) (by rw [hdep]; simp)
      (by intro d hd
          rw [hdep] at hd
          rw [List.mem_singleton.mp hd]
          exact GoMap.getBool_set_self _ _)
    have hroom1 := hyes (by rw [hcap1] at hlt; exact hlt)
    have hsame : pushed1 = pushed := by
      rw [hpq] at hpq1
      exact (List.append_cancel_left hpq1).symm
    rw [← hsame]
    exact hroom1

theorem resultProcessor_enqueues_dependent_witness :
    ∃ s2 pushed, resultProcessor afterFailedA [chainC, scenarioA] = some s2 ∧
      s2.taskResults.get? failedA.TaskID = some failedA ∧
      s2.completedTasks.getBool failedA.TaskID = true ∧
      s2.taskResultQueue = [] ∧
      s2.taskQueue = afterFailedA.taskQueue ++ pushed ∧ chainC ∈ pushed ∧
      s2.completedTasks.getBool chainC.ID = true := by
  obtain ⟨s2, pushed, h1, h2, _, h4, h5, h6, h7⟩ :=
    resultProcessor_enqueues_dependent afterFailedA failedA [] [chainC, scenarioA] rfl
  have h8 := h7 [] [scenarioA] chainC rfl (by decide) (by unfold Scheduler.WF; decide)
    (by unfold Scheduler.KeyedByID; decide) rfl (by decide) (by decide) ⟨_, rfl, by decide⟩
  exact ⟨s2, pushed, h1, h2, h4, h5, h6, h8.1, h8.2⟩

set_option maxRecDepth 100000

/-- C13 (counterexample): task `A` and a fan of 101 tasks that depend on it, every scan in the
order of the registry.  The scan that follows the result of `A` fills the queue with 100 of
them and finds it full when it reaches `D0`, whose dependency is marked: `D0` is not enqueued
and not marked.  After a worker has taken one task, the scan of the next `resultProcessor`
iteration enqueues `D0`. -/
theorem full_queue_task_enqueued_by_later_scan :
    (exec fanRegistry
        [Action.dispatch fanRegistry.tasks.values fanRegistry.tasks.values,
         Action.work 0 alwaysExit0 0 1,
         Action.process fanRegistry.tasks.values]).map
      (fun s => (s.taskQueue.length, s.taskQueueCap, decide (fanTask 0 ∈ s.taskQueue),
        s.completedTasks.getBool (fanTask 0).ID,
        (fanTask 0).Dependencies.all fun d => s.completedTasks.getBool d))
      = some (100, 100, false, false, true) ∧
    (exec fanRegistry
        [Action.dispatch fanRegistry.tasks.values fanRegistry.tasks.values,
         Action.work 0 alwaysExit0 0 1,
         Action.process fanRegistry.tasks.values,
         Action.work 1 alwaysExit0 1 2,
         Action.process fanRegistry.tasks.values]).map
      (fun s => (decide (fanTask 0 ∈ s.taskQueue), s.completedTasks.getBool (fanTask 0).ID))
      = some (true, true) := by
  decide

/-- C13 (amended): when a scan reaches a task that is not marked and whose dependencies are
all marked while `taskQueue` is full, that scan does not enqueue the task and leaves it
unmarked, with its dependencies still marked; a later scan that reaches the task in that
condition while `taskQueue` has room enqueues it and marks it. -/
theorem checkDependentTasks_full_queue_then_retry (s : Scheduler) (pre post : List Task)
    (t : Task) (hv : (pre ++ t :: post).Perm s.tasks.values) (hwf : s.WF) (hkey : s.KeyedByID)
    (hun : s.completedTasks.getBool t.ID = false) (hne : t.Dependencies ≠ [])
    (hall : ∀ d ∈ t.Dependencies, s.completedTasks.getBool d = true)
    (hfull : s.taskQueueCap ≤ (checkDependentTasks s pre).taskQueue.length) :
    (∃ pushed, (checkDependentTasks s (pre ++ t :: post)).taskQueue = s.taskQueue ++ pushed ∧
      t ∉ pushed ∧
      (checkDependentTasks s (pre ++ t :: post)).completedTasks.getBool t.ID = false ∧
      ∀ d ∈ t.Dependencies,
        (checkDependentTasks s (pre ++ t :: post)).completedTasks.getBool d = true) ∧
    (∀ (s2 : Scheduler) (pre2 post2 : List Task), s2.tasks = s.tasks →
      (pre2 ++ t :: post2).Perm s2.tasks.values →
      s2.completedTasks.getBool t.ID = false →
      (∀ d ∈ t.Dependencies, s2.completedTasks.getBool d = true) →
      (checkDependentTasks s2 pre2).taskQueue.length < s2.taskQueueCap →
      ∃ pushed2, (checkDependentTasks s2 (pre2 ++ t :: post2)).taskQueue
          = s2.taskQueue ++ pushed2 ∧ t ∈ pushed2 ∧
        (checkDependentTasks s2 (pre2 ++ t :: post2)).completedTasks.getBool t.ID = true) := by
  constructor
  · obtain ⟨pushed, hq, _, hno⟩ := checkDependentTasks_visit pre post t s
      (visit_ids_nodup s _ hwf hkey hv) hun hne hall
    obtain ⟨_, _, _, hmono, _⟩ := checkDependentTasks_frame (pre ++ t :: post) s
    exact ⟨pushed, hq, (hno hfull).1, (hno hfull).2, fun d hd => hmono d (hall d hd)⟩
  · intro s2 pre2 post2 htasks hv2 hun2 hall2 hroom2
    have hwf2 : s2.WF := by unfold Scheduler.WF; rw [htasks]; exact hwf
    have hkey2 : s2.KeyedByID := by unfold Scheduler.KeyedByID; rw [htasks]; exact hkey
    obtain ⟨pushed2, hq2, hyes, _⟩ := checkDependentTasks_visit pre2 post2 t s2
      (visit_ids_nodup s2 _ hwf2 hkey2 hv2) hun2 hne hall2
    exact ⟨pushed2, hq2, (hyes hroom2).1, (hyes hroom2).2⟩

theorem checkDependentTasks_full_queue_then_retry_witness :
    (∃ pushed, (checkDependentTasks pairFullQueue ([] ++ chainC :: [scenarioA])).taskQueue
        = pairFullQueue.taskQueue ++ pushed ∧
      chainC ∉ pushed ∧
      (checkDependentTasks pairFullQueue ([] ++ chainC :: [scenarioA])).completedTasks.getBool
        chainC.ID = false ∧
      ∀ d ∈ chainC.Dependencies,
        (checkDependentTasks pairFullQueue ([] ++ chainC :: [scenarioA])).completedTasks.getBool d
          = true) ∧
    (∀ (s2 : Scheduler) (pre2 post2 : List Task), s2.tasks = pairFullQueue.tasks →
      (pre2 ++ chainC :: post2).Perm s2.tasks.values →
      s2.completedTasks.getBool chainC.ID = false →
      (∀ d ∈ chainC.Dependencies, s2.completedTasks.getBool d = true) →
      (checkDependentTasks s2 pre2).taskQueue.length < s2.taskQueueCap →
      ∃ pushed2, (checkDependentTasks s2 (pre2 ++ chainC :: post2)).taskQueue
          = s2.taskQueue ++ pushed2 ∧ chainC ∈ pushed2 ∧
        (checkDependentTasks s2 (pre2 ++ chainC :: post2)).completedTasks.getBool chainC.ID
          = true) :=
  checkDependentTasks_full_queue_then_retry pairFullQueue [] [scenarioA] chainC
    (by decide) (NewScheduler_AddTasks_invariants 3 _).1 (NewScheduler_AddTasks_invariants 3 _).2.1
    (by decide) (by decide) (by decide) (by decide)

/-! ## Executions after `Start` -/

theorem dispatchLoop_frame (visit : List Task) :
    ∀ s : Scheduler, ∃ visited, visit = visited ++ (dispatchLoop s visit).2 ∧
      (dispatchLoop s visit).1 =
        { s with taskQueue := s.taskQueue
            ++ visited.filter fun t => decide (t.Dependencies = []) } := by
  induction visit with
  | nil => intro s; exact ⟨[], by simp [dispatchLoop], by simp [dispatchLoop]⟩
  | cons task rest ih =>
    intro s
    rw [dispatchLoop]
    by_cases hd : task.Dependencies = []
    · simp only [hd, List.length_nil, if_true]
      by_cases hroom : s.taskQueue.length < s.taskQueueCap
      · rw [if_pos hroom]
        obtain ⟨visited, h1, h2⟩ := ih { s with taskQueue := s.taskQueue ++ [task] }
        refine ⟨task :: visited, by rw [List.cons_append, ← h1], ?_⟩
        rw [h2]
        simp [List.filter_cons, hd]
      · rw [if_neg hroom]
        exact ⟨[], by simp, by simp⟩
    · have hl : ¬ task.Dependencies.length = 0 := fun h => hd (List.length_eq_zero.mp h)
      rw [if_neg hl]
      obtain ⟨visited, h1, h2⟩ := ih s
      refine ⟨task :: visited, by rw [List.cons_append, ← h1], ?_⟩
      rw [h2]
      simp [List.filter_cons, hd]

theorem sysExec_invariant (P : Sys → Prop)
    (hstep : ∀ y a y2, P y → sysStep y a = some y2 → P y2) :
    ∀ (acts : List SysAction) (y y2 : Sys), P y → sysExec y acts = some y2 → P y2 := by
  intro acts
  induction acts with
  | nil =>
    intro y y2 hP h
    simp only [sysExec, Option.some.injEq] at h
    exact h ▸ hP
  | cons a acts ih =>
    intro y y2 hP h
    rw [sysExec] at h
    cases hs : sysStep y a with
    | none => rw [hs] at h; simp at h
    | some y1 =>
      rw [hs] at h
      exact ih y1 y2 (hstep y a y1 hP hs) h

theorem Start_sched_of_not_running (s : Scheduler) (h : s.isRunning = false) :
    (Start s).sched = { s with isRunning := true } ∧ (Start s).err = none := by
  simp [Start, h]

theorem DispatchInv_afterStart (s0 : Scheduler) (h : s0.Fresh) : DispatchInv s0 (afterStart s0) := by
  obtain ⟨h1, h2, _, _, h5⟩ := h
  have hs := (Start_sched_of_not_running s0 h5).1
  unfold DispatchInv afterStart
  rw [hs]
  exact ⟨rfl, rfl, h1, rfl, h2⟩

/-! ### What each step does -/

theorem sysStep_dispatch (y y2 : Sys) (vc vp : List Task)
    (h : sysStep y (SysAction.dispatch vc vp) = some y2) :
    y.dispatcher = DispatcherState.launched ∧ vc.Perm y.sched.tasks.values ∧
    vp.Perm y.sched.tasks.values ∧ y2.running = y.running ∧
    ((∃ err, checkDependencies y.sched vc = some err ∧ y2.sched = y.sched ∧
        y2.dispatcher = DispatcherState.returned (some err) ∧ y2.pushed = y.pushed) ∨
     (checkDependencies y.sched vc = none ∧ ∃ visited rest, vp = visited ++ rest ∧
        y2.sched =
          { y.sched with
            taskQueue := y.sched.taskQueue ++ visited.filter (fun t => decide (t.Dependencies = [])) } ∧
        y2.pushed = y.pushed ++ visited.filter (fun t => decide (t.Dependencies = [])) ∧
        ((rest = [] ∧ y2.dispatcher = DispatcherState.returned none) ∨
         (rest ≠ [] ∧ y2.dispatcher = DispatcherState.sending rest)))) := by
  simp only [sysStep] at h
  cases hd : y.dispatcher with
  | launched =>
    rw [hd] at h
    simp only at h
    split at h
    · rename_i hperm
      have h := (Option.some.inj h).symm
      refine ⟨rfl, hperm.1, hperm.2, by rw [h], ?_⟩
      unfold taskDispatcher at h
      cases hc : checkDependencies y.sched vc with
      | some err =>
        rw [hc] at h
        simp only at h
        exact Or.inl ⟨err, rfl, by rw [h], by rw [h], by rw [h]; simp⟩
      | none =>
        rw [hc] at h
        simp only at h
        obtain ⟨visited, hv, hs⟩ := dispatchLoop_frame vp y.sched
        refine Or.inr ⟨rfl, visited, (dispatchLoop y.sched vp).2, hv, by rw [h, hs], ?_, ?_⟩
        · rw [h]; simp only [hs]; simp
        · cases hb : (dispatchLoop y.sched vp).2 with
          | nil => left; rw [h]; simp [hb]
          | cons t rest => right; rw [h]; simp [hb]
    · simp at h
  | sending rest => rw [hd] at h; simp at h
  | returned e => rw [hd] at h; simp at h

theorem sysStep_resume (y y2 : Sys) (h : sysStep y SysAction.resume = some y2) :
    ∃ rest0 visited rest, y.dispatcher = DispatcherState.sending rest0 ∧
      rest0 = visited ++ rest ∧ y2.running = y.running ∧
      y2.sched =
        { y.sched with
          taskQueue := y.sched.taskQueue ++ visited.filter (fun t => decide (t.Dependencies = [])) } ∧
      y2.pushed = y.pushed ++ visited.filter (fun t => decide (t.Dependencies = [])) ∧
      ((rest = [] ∧ y2.dispatcher = DispatcherState.returned none) ∨
       (rest ≠ [] ∧ y2.dispatcher = DispatcherState.sending rest)) := by
  simp only [sysStep] at h
  cases hd : y.dispatcher with
  | launched => rw [hd] at h; simp at h
  | returned e => rw [hd] at h; simp at h
  | sending rest0 =>
    rw [hd] at h
    simp only at h
    have h := (Option.some.inj h).symm
    obtain ⟨visited, hv, hs⟩ := dispatchLoop_frame rest0 y.sched
    refine ⟨rest0, visited, (dispatchLoop y.sched rest0).2, rfl, hv, by rw [h], by rw [h, hs], ?_, ?_⟩
    · rw [h]; simp only [hs]; simp
    · cases hb : (dispatchLoop y.sched rest0).2 with
      | nil => left; rw [h]; simp [hb]
      | cons t rest => right; rw [h]; simp [hb]

theorem sysStep_take (y y2 : Sys) (h : sysStep y SysAction.take = some y2) :
    ∃ task rest, y.sched.taskQueue = task :: rest ∧
      y2.sched = { y.sched with taskQueue := rest } ∧ y2.running = y.running ++ [task] ∧
      y2.dispatcher = y.dispatcher ∧ y2.pushed = y.pushed := by
  simp only [sysStep] at h
  cases hq : y.sched.taskQueue with
  | nil => rw [hq] at h; simp at h
  | cons task rest =>
    rw [hq] at h
    simp only at h
    split at h
    · have h := (Option.some.inj h).symm
      exact ⟨task, rest, rfl, by rw [h], by rw [h], by rw [h], by rw [h]⟩
    · simp at h

theorem sysStep_finish (y y2 : Sys) (i : Nat) (os : Nat → ProcRun) (t0 t1 : Int)
    (h : sysStep y (SysAction.finish i os t0 t1) = some y2) :
    ∃ task result, task ∈ y.running ∧ result.TaskID = task.ID ∧
      y2.sched = { y.sched with taskResultQueue := y.sched.taskResultQueue ++ [result] } ∧
      y2.running = y.running.eraseIdx i ∧
      y2.dispatcher = y.dispatcher ∧ y2.pushed = y.pushed := by
  simp only [sysStep] at h
  cases hg : y.running.get? i with
  | none => rw [hg] at h; simp at h
  | some task =>
    rw [hg] at h
    simp only at h
    cases hr : (executeTask (i : Int) task os t0 t1).result with
    | none => rw [hr] at h; simp at h
    | some result =>
      rw [hr] at h
      simp only at h
      split at h
      · have h := (Option.some.inj h).symm
        have hid : result.TaskID = task.ID := by
          unfold executeTask at hr
          simp only [Option.map_eq_some'] at hr
          obtain ⟨out, _, rfl⟩ := hr
          rfl
        exact ⟨task, result, List.get?_mem hg, hid, by rw [h], by rw [h], by rw [h], by rw [h]⟩
      · simp at h

theorem sysStep_process (y y2 : Sys) (visit : List Task)
    (h : sysStep y (SysAction.process visit) = some y2) :
    (∀ rest, y.dispatcher ≠ DispatcherState.sending rest) ∧ visit.Perm y.sched.tasks.values ∧
    y2.dispatcher = y.dispatcher ∧ y2.running = y.running ∧
    ∃ r rest pushed, y.sched.taskResultQueue = r :: rest ∧
      y2.sched = checkDependentTasks
        { y.sched with taskResultQueue := rest,
                       taskResults := y.sched.taskResults.set r.TaskID r,
                       completedTasks := y.sched.completedTasks.set r.TaskID true } visit ∧
      y2.sched.taskQueue = y.sched.taskQueue ++ pushed ∧
      y2.pushed = y.pushed ++ pushed := by
  simp only [sysStep] at h
  have hkey : ∀ (d : DispatcherState)
      (h : (resultProcessor y.sched visit).map (fun s =>
        ({ sched := s, dispatcher := d, running := y.running,
           pushed := y.pushed ++ s.taskQueue.drop y.sched.taskQueue.length,
           produced := y.produced } : Sys))
        = some y2),
      y2.dispatcher = d ∧ y2.running = y.running ∧
      ∃ r rest pushed, y.sched.taskResultQueue = r :: rest ∧
        y2.sched = checkDependentTasks
          { y.sched with taskResultQueue := rest,
                         taskResults := y.sched.taskResults.set r.TaskID r,
                         completedTasks := y.sched.completedTasks.set r.TaskID true } visit ∧
        y2.sched.taskQueue = y.sched.taskQueue ++ pushed ∧
        y2.pushed = y.pushed ++ pushed := by
    intro d h
    cases hq : y.sched.taskResultQueue with
    | nil => simp [resultProcessor, hq] at h
    | cons r rest =>
      rw [resultProcessor_cons y.sched r rest visit hq] at h
      simp only [Option.map_some', Option.some.injEq] at h
      obtain ⟨pushed, hpq, _⟩ := checkDependentTasks_frame visit
        { y.sched with taskResultQueue := rest,
                       taskResults := y.sched.taskResults.set r.TaskID r,
                       completedTasks := y.sched.completedTasks.set r.TaskID true }
      refine ⟨by rw [← h], by rw [← h], r, rest, pushed, rfl, by rw [← h], by rw [← h]; exact hpq, ?_⟩
      rw [← h]
      simp only [hpq]
      simp
  cases hd : y.dispatcher with
  | sending rest => rw [hd] at h; simp at h
  | launched =>
    rw [hd] at h
    simp only at h
    split at h
    · rename_i hvis
      exact ⟨by intro rest; simp, hvis, hkey _ h⟩
    · simp at h
  | returned e =>
    rw [hd] at h
    simp only at h
    split at h
    · rename_i hvis
      exact ⟨by intro rest; simp, hvis, hkey _ h⟩
    · simp at h

theorem DispatchInv_launched (s0 : Scheduler) (y : Sys) (h : DispatchInv s0 y)
    (hd : y.dispatcher = DispatcherState.launched) :
    y.pushed = [] ∧ y.sched.taskQueue = [] ∧ y.running = [] ∧ y.sched.taskResultQueue = [] := by
  unfold DispatchInv at h
  rw [hd] at h
  exact h.2

theorem DispatchInv_failed (s0 : Scheduler) (y : Sys) (h : DispatchInv s0 y) (err : GoError)
    (hd : y.dispatcher = DispatcherState.returned (some err)) :
    y.pushed = [] ∧ y.sched.taskQueue = [] ∧ y.running = [] ∧ y.sched.taskResultQueue = [] := by
  unfold DispatchInv at h
  rw [hd] at h
  exact h.2

theorem DispatchInv_sending (s0 : Scheduler) (y : Sys) (h : DispatchInv s0 y) (rest : List Task)
    (hd : y.dispatcher = DispatcherState.sending rest) :
    ∃ visited, (visited ++ rest).Perm s0.tasks.values ∧
      y.pushed = visited.filter fun t => decide (t.Dependencies = []) := by
  unfold DispatchInv at h
  rw [hd] at h
  exact h.2

theorem DispatchInv_done (s0 : Scheduler) (y : Sys) (h : DispatchInv s0 y)
    (hd : y.dispatcher = DispatcherState.returned none) :
    ∃ first later, y.pushed = first ++ later ∧
      first.Perm (s0.tasks.values.filter fun t => decide (t.Dependencies = [])) := by
  unfold DispatchInv at h
  rw [hd] at h
  exact h.2

/-- A step that changes neither the registry, nor the dispatcher, nor the history keeps the
invariant, provided it is not taken from a state in which nothing is queued or running. -/
theorem DispatchInv_of_same (s0 : Scheduler) (y y2 : Sys) (h : DispatchInv s0 y)
    (ht : y2.sched.tasks = y.sched.tasks) (hd : y2.dispatcher = y.dispatcher)
    (hp : y2.pushed = y.pushed)
    (hbusy : y.sched.taskQueue ≠ [] ∨ y.running ≠ [] ∨ y.sched.taskResultQueue ≠ []) :
    DispatchInv s0 y2 := by
  have hbusy' : ¬ (y.pushed = [] ∧ y.sched.taskQueue = [] ∧ y.running = [] ∧
      y.sched.taskResultQueue = []) := by
    rintro ⟨_, h1, h2, h3⟩
    rcases hbusy with h | h | h
    · exact h h1
    · exact h h2
    · exact h h3
  unfold DispatchInv at h ⊢
  rw [ht, hd, hp]
  refine ⟨h.1, ?_⟩
  have h2 := h.2
  cases hdy : y.dispatcher with
  | launched => rw [hdy] at h2; exact absurd h2 hbusy'
  | sending rest => rw [hdy] at h2; exact h2
  | returned e =>
    cases e with
    | some err => rw [hdy] at h2; exact absurd h2 hbusy'
    | none => rw [hdy] at h2; exact h2

theorem DispatchInv_step (s0 : Scheduler) (y : Sys) (a : SysAction) (y2 : Sys)
    (hinv : DispatchInv s0 y) (hs : sysStep y a = some y2) : DispatchInv s0 y2 := by
  have htasks : y.sched.tasks = s0.tasks := hinv.1
  cases a with
  | dispatch vc vp =>
    obtain ⟨hd, _, hvp, hrun2, hcase⟩ := sysStep_dispatch y y2 vc vp hs
    obtain ⟨hp, hq, hr, hrq⟩ := DispatchInv_launched s0 y hinv hd
    rcases hcase with ⟨err, _, hsch, hd2, hp2⟩ | ⟨_, visited, rest, hv, hsch, hp2, hrest⟩
    · unfold DispatchInv
      rw [hd2, hsch, hp2]
      exact ⟨htasks, hp, hq, by rw [hrun2]; exact hr, hrq⟩
    · unfold DispatchInv
      rw [hsch, hp2, hp]
      refine ⟨htasks, ?_⟩
      rcases hrest with ⟨hnil, hd2⟩ | ⟨_, hd2⟩
      · rw [hd2]
        refine ⟨visited.filter fun t => decide (t.Dependencies = []), [], by simp, ?_⟩
        rw [hnil, List.append_nil] at hv
        rw [htasks, hv] at hvp
        exact hvp.filter _
      · rw [hd2]
        refine ⟨visited, ?_, by simp⟩
        rw [← hv, ← htasks]
        exact hvp
  | resume =>
    obtain ⟨rest0, visited, rest, hd, hv, _, hsch, hp2, hrest⟩ := sysStep_resume y y2 hs
    obtain ⟨visited0, hperm, hp⟩ := DispatchInv_sending s0 y hinv rest0 hd
    unfold DispatchInv
    rw [hsch, hp2, hp]
    refine ⟨htasks, ?_⟩
    rcases hrest with ⟨hnil, hd2⟩ | ⟨_, hd2⟩
    · rw [hd2]
      refine ⟨(visited0 ++ visited).filter fun t => decide (t.Dependencies = []), [], by simp, ?_⟩
      rw [hv, hnil, List.append_nil] at hperm
      exact hperm.filter _
    · rw [hd2]
      refine ⟨visited0 ++ visited, ?_, by simp⟩
      rw [hv] at hperm
      rw [List.append_assoc]
      exact hperm
  | take =>
    obtain ⟨task, rest, hq, hsch, _, hd2, hp2⟩ := sysStep_take y y2 hs
    exact DispatchInv_of_same s0 y y2 hinv (by rw [hsch]) hd2 hp2 (Or.inl (by rw [hq]; simp))
  | finish i os t0 t1 =>
    obtain ⟨task, result, hmem, _, hsch, _, hd2, hp2⟩ := sysStep_finish y y2 i os t0 t1 hs
    exact DispatchInv_of_same s0 y y2 hinv (by rw [hsch]) hd2 hp2
      (Or.inr (Or.inl (List.ne_nil_of_mem hmem)))
  | process visit =>
    obtain ⟨hns, _, hd2, _, r, rest, pushed, hq, hsch, _, hp2⟩ := sysStep_process y y2 visit hs
    obtain ⟨_, _, _, _, _, hfr, _⟩ := checkDependentTasks_frame visit
      { y.sched with taskResultQueue := rest,
                     taskResults := y.sched.taskResults.set r.TaskID r,
                     completedTasks := y.sched.completedTasks.set r.TaskID true }
    have ht2 : y2.sched.tasks = s0.tasks := by rw [hsch, hfr]; exact htasks
    cases hdy : y.dispatcher with
    | launched =>
      have := (DispatchInv_launched s0 y hinv hdy).2.2.2
      rw [hq] at this; simp at this
    | sending rest0 => exact absurd hdy (hns rest0)
    | returned e =>
      cases e with
      | some err =>
        have := (DispatchInv_failed s0 y hinv err hdy).2.2.2
        rw [hq] at this; simp at this
      | none =>
        obtain ⟨first, later, hp, hperm⟩ := DispatchInv_done s0 y hinv hdy
        unfold DispatchInv
        rw [hd2, hdy, hp2, hp]
        exact ⟨ht2, first, later ++ pushed, by simp, hperm⟩

/-- A scan enqueues and marks nothing with an id in `U`, when every registered task with an id
in `U` has a dependency in `U` and nothing in `U` is marked before the scan. -/
theorem checkDependentTasks_avoids (U : String → Prop) (registry : List Task)
    (hU : ∀ t ∈ registry, U t.ID → ∃ d ∈ t.Dependencies, U d) (visit : List Task) :
    ∀ s : Scheduler, (∀ t ∈ visit, t ∈ registry) →
      (∀ k, s.completedTasks.getBool k = true → ¬ U k) →
      (∀ k, (checkDependentTasks s visit).completedTasks.getBool k = true → ¬ U k) ∧
      ∃ pushed, (checkDependentTasks s visit).taskQueue = s.taskQueue ++ pushed ∧
        ∀ t ∈ pushed, t ∈ registry ∧ ¬ U t.ID := by
  induction visit with
  | nil => intro s _ hm; exact ⟨by simpa [checkDependentTasks] using hm, [], by simp [checkDependentTasks], by simp⟩
  | cons task rest ih =>
    intro s hreg hm
    rw [checkDependentTasks_cons]
    have hrest : ∀ t ∈ rest, t ∈ registry := fun t ht => hreg t (List.mem_cons_of_mem _ ht)
    rcases scanStep_cases s task with hs | ⟨_, _, hall, _, hs⟩
    · rw [hs]
      exact ih s hrest hm
    · have hnotU : ¬ U task.ID := by
        intro hu
        obtain ⟨d, hd, hud⟩ := hU task (hreg task (by simp)) hu
        exact hm d (hall d hd) hud
      rw [hs]
      obtain ⟨hm2, pushed, hq, hp⟩ := ih
        { s with taskQueue := s.taskQueue ++ [task],
                 completedTasks := s.completedTasks.set task.ID true } hrest
        (by
          intro k hk
          by_cases e : k = task.ID
          · rw [e]; exact hnotU
          · rw [GoMap.getBool_set_ne _ _ _ _ e] at hk
            exact hm k hk)
      refine ⟨hm2, task :: pushed, by rw [hq]; simp, ?_⟩
      intro t ht
      rcases List.mem_cons.mp ht with e | ht
      · rw [e]; exact ⟨hreg task (by simp), hnotU⟩
      · exact hp t ht

theorem StuckInv_afterStart (s0 : Scheduler) (U : String → Prop) (h : s0.Fresh) :
    StuckInv s0 U (afterStart s0) := by
  obtain ⟨h1, h2, _, h4, h5⟩ := h
  have hs := (Start_sched_of_not_running s0 h5).1
  unfold StuckInv afterStart
  rw [hs]
  refine ⟨rfl, by simp, ?_, by simp, ?_, ?_, by simp, by simp⟩
  · show ∀ t ∈ s0.taskQueue, _
    rw [h1]; simp
  · show ∀ r ∈ s0.taskResultQueue, _
    rw [h2]; simp
  · show ∀ k, s0.completedTasks.getBool k = true → _
    rw [h4]; simp [GoMap.getBool, GoMap.get?]

theorem StuckInv_step (s0 : Scheduler) (U : String → Prop)
    (hU : ∀ t ∈ s0.tasks.values, U t.ID → ∃ d ∈ t.Dependencies, U d)
    (hdeps : ∀ t ∈ s0.tasks.values, ∀ d ∈ t.Dependencies, d ∈ s0.tasks.keys)
    (y : Sys) (a : SysAction) (y2 : Sys)
    (hinv : StuckInv s0 U y) (hs : sysStep y a = some y2) : StuckInv s0 U y2 := by
  obtain ⟨htasks, hpu, hqu, hru, hrq, hmk, hsend, hnoerr⟩ := hinv
  have hfree : ∀ t ∈ s0.tasks.values, t.Dependencies = [] → ¬ U t.ID := by
    intro t ht hd hu
    obtain ⟨d, hdm, _⟩ := hU t ht hu
    rw [hd] at hdm
    simp at hdm
  have hfilter : ∀ visited : List Task, (∀ t ∈ visited, t ∈ s0.tasks.values) →
      ∀ t ∈ visited.filter (fun t => decide (t.Dependencies = [])),
        t ∈ s0.tasks.values ∧ ¬ U t.ID := by
    intro visited hvis t ht
    obtain ⟨h1, h2⟩ := List.mem_filter.mp ht
    exact ⟨hvis t h1, hfree t (hvis t h1) (by simpa using h2)⟩
  cases a with
  | dispatch vc vp =>
    obtain ⟨_, hvc, hvp, hrun2, hcase⟩ := sysStep_dispatch y y2 vc vp hs
    rcases hcase with ⟨err, hc, _⟩ | ⟨_, visited, rest, hv, hsch, hp2, hrest⟩
    · exfalso
      have hnone : checkDependencies y.sched vc = none := by
        rw [checkDependencies_eq_none_iff]
        intro task ht d hd
        rw [htasks]
        exact hdeps task (by rw [← htasks]; exact hvc.subset ht) d hd
      rw [hnone] at hc
      simp at hc
    · have hvis : ∀ t ∈ visited, t ∈ s0.tasks.values := by
        intro t ht
        rw [← htasks]
        exact hvp.subset (by rw [hv]; exact List.mem_append_left _ ht)
      have hrs : ∀ t ∈ rest, t ∈ s0.tasks.values := by
        intro t ht
        rw [← htasks]
        exact hvp.subset (by rw [hv]; exact List.mem_append_right _ ht)
      refine ⟨by rw [hsch]; exact htasks, ?_, ?_, by rw [hrun2]; exact hru,
        by rw [hsch]; exact hrq, by rw [hsch]; exact hmk, ?_, ?_⟩
      · intro t ht
        rw [hp2] at ht
        rcases List.mem_append.mp ht with h | h
        · exact hpu t h
        · exact hfilter visited hvis t h
      · intro t ht
        rw [hsch] at ht
        rcases List.mem_append.mp ht with h | h
        · exact hqu t h
        · exact hfilter visited hvis t h
      · intro rest2 hd2
        rcases hrest with ⟨_, hd3⟩ | ⟨_, hd3⟩
        · rw [hd3] at hd2; simp at hd2
        · rw [hd3] at hd2
          injection hd2 with e
          rw [← e]; exact hrs
      · intro err hd2
        rcases hrest with ⟨_, hd3⟩ | ⟨_, hd3⟩
        · rw [hd3] at hd2; simp at hd2
        · rw [hd3] at hd2; simp at hd2
  | resume =>
    obtain ⟨rest0, visited, rest, hd, hv, hrun2, hsch, hp2, hrest⟩ := sysStep_resume y y2 hs
    have h0 := hsend rest0 hd
    have hvis : ∀ t ∈ visited, t ∈ s0.tasks.values :=
      fun t ht => h0 t (by rw [hv]; exact List.mem_append_left _ ht)
    have hrs : ∀ t ∈ rest, t ∈ s0.tasks.values :=
      fun t ht => h0 t (by rw [hv]; exact List.mem_append_right _ ht)
    refine ⟨by rw [hsch]; exact htasks, ?_, ?_, by rw [hrun2]; exact hru,
      by rw [hsch]; exact hrq, by rw [hsch]; exact hmk, ?_, ?_⟩
    · intro t ht
      rw [hp2] at ht
      rcases List.mem_append.mp ht with h | h
      · exact hpu t h
      · exact hfilter visited hvis t h
    · intro t ht
      rw [hsch] at ht
      rcases List.mem_append.mp ht with h | h
      · exact hqu t h
      · exact hfilter visited hvis t h
    · intro rest2 hd2
      rcases hrest with ⟨_, hd3⟩ | ⟨_, hd3⟩
      · rw [hd3] at hd2; simp at hd2
      · rw [hd3] at hd2
        injection hd2 with e
        rw [← e]; exact hrs
    · intro err hd2
      rcases hrest with ⟨_, hd3⟩ | ⟨_, hd3⟩
      · rw [hd3] at hd2; simp at hd2
      · rw [hd3] at hd2; simp at hd2
  | take =>
    obtain ⟨task, rest, hq, hsch, hrun2, hd2, hp2⟩ := sysStep_take y y2 hs
    refine ⟨by rw [hsch]; exact htasks, by rw [hp2]; exact hpu, ?_, ?_,
      by rw [hsch]; exact hrq, by rw [hsch]; exact hmk, by rw [hd2]; exact hsend,
      by rw [hd2]; exact hnoerr⟩
    · intro t ht
      rw [hsch] at ht
      exact hqu t (by rw [hq]; exact List.mem_cons_of_mem _ ht)
    · intro t ht
      rw [hrun2] at ht
      rcases List.mem_append.mp ht with h | h
      · exact hru t h
      · rw [List.mem_singleton.mp h]
        exact (hqu task (by rw [hq]; simp)).2
  | finish i os t0 t1 =>
    obtain ⟨task, result, hmem, hid, hsch, hrun2, hd2, hp2⟩ := sysStep_finish y y2 i os t0 t1 hs
    refine ⟨by rw [hsch]; exact htasks, by rw [hp2]; exact hpu, by rw [hsch]; exact hqu, ?_, ?_,
      by rw [hsch]; exact hmk, by rw [hd2]; exact hsend, by rw [hd2]; exact hnoerr⟩
    · intro t ht
      rw [hrun2] at ht
      exact hru t (List.mem_of_mem_eraseIdx ht)
    · intro r hr
      rw [hsch] at hr
      rcases List.mem_append.mp hr with h | h
      · exact hrq r h
      · rw [List.mem_singleton.mp h, hid]
        exact hru task hmem
  | process visit =>
    obtain ⟨_, hvis, hd2, hrun2, r, rest, pushed, hq, hsch, hq2, hp2⟩ :=
      sysStep_process y y2 visit hs
    obtain ⟨_, _, _, _, _, hft, _, hfq, _⟩ := checkDependentTasks_frame visit
      { y.sched with taskResultQueue := rest,
                     taskResults := y.sched.taskResults.set r.TaskID r,
                     completedTasks := y.sched.completedTasks.set r.TaskID true }
    have hrU : ¬ U r.TaskID := hrq r (by rw [hq]; simp)
    obtain ⟨hm2, pushed2, hpq2, hp2U⟩ := checkDependentTasks_avoids U s0.tasks.values hU visit
      { y.sched with taskResultQueue := rest,
                     taskResults := y.sched.taskResults.set r.TaskID r,
                     completedTasks := y.sched.completedTasks.set r.TaskID true }
      (by intro t ht; rw [← htasks]; exact hvis.subset ht)
      (by
        intro k hk
        by_cases e : k = r.TaskID
        · rw [e]; exact hrU
        · rw [GoMap.getBool_set_ne _ _ _ _ e] at hk
          exact hmk k hk)
    have hpe : pushed = pushed2 := by
      rw [hsch, hpq2] at hq2
      exact (List.append_cancel_left hq2).symm
    refine ⟨by rw [hsch, hft]; exact htasks, ?_, ?_, by rw [hrun2]; exact hru, ?_,
      by rw [hsch]; exact hm2, by rw [hd2]; exact hsend, by rw [hd2]; exact hnoerr⟩
    · intro t ht
      rw [hp2] at ht
      rcases List.mem_append.mp ht with h | h
      · exact hpu t h
      · exact hp2U t (by rw [← hpe]; exact h)
    · intro t ht
      rw [hq2] at ht
      rcases List.mem_append.mp ht with h | h
      · exact hqu t h
      · exact hp2U t (by rw [← hpe]; exact h)
    · intro r2 hr2
      rw [hsch, hfq] at hr2
      exact hrq r2 (by rw [hq]; exact List.mem_cons_of_mem _ hr2)

/-! ## Tasks on or behind a dependency cycle -/

theorem BehindCycle_closed (s : Scheduler) (hnd : (s.tasks.values.map Task.ID).Nodup) :
    ∀ t ∈ s.tasks.values, BehindCycle s t.ID → ∃ d ∈ t.Dependencies, BehindCycle s d := by
  intro t ht hb
  have huniq : ∀ u ∈ s.tasks.values, u.ID = t.ID → u = t :=
    fun u hu e => List.inj_on_of_nodup_map hnd hu ht e
  obtain ⟨c, hreach, hcyc⟩ := hb
  rcases Relation.ReflTransGen.cases_head hreach with e | ⟨b, ⟨u, hu, hid, hb⟩, hbc⟩
  · obtain ⟨b, ⟨u, hu, hid, hb⟩, hbc⟩ := Relation.TransGen.head'_iff.mp hcyc
    rw [huniq u hu (by rw [hid, e])] at hb
    exact ⟨b, hb, c, hbc, hcyc⟩
  · rw [huniq u hu hid] at hb
    exact ⟨b, hb, c, hbc, hcyc⟩

/-- C12: in a registry built by `AddTask` whose dependency ids all exist, a task that lies on
a dependency cycle (a task that depends on itself included), or that depends directly or
through other tasks on one that does, is in no state reachable after `Start` pushed onto
`taskQueue`, queued, running or marked in `completedTasks`; `Start` returns nil and the
dispatcher logs no error. -/
theorem cyclic_tasks_never_scheduled (s0 : Scheduler) (acts : List SysAction) (y : Sys)
    (t : Task) (hfresh : s0.Fresh) (hwf : s0.WF) (hkey : s0.KeyedByID)
    (hdeps : ∀ u ∈ s0.tasks.values, ∀ d ∈ u.Dependencies, d ∈ s0.tasks.keys)
    (hexec : sysExec (afterStart s0) acts = some y) (hstuck : BehindCycle s0 t.ID) :
    t ∉ y.pushed ∧ t ∉ y.sched.taskQueue ∧ t ∉ y.running ∧
    y.sched.completedTasks.getBool t.ID = false ∧
    (Start s0).err = none ∧ (∀ err, y.dispatcher ≠ DispatcherState.returned (some err)) := by
  have hnd : (s0.tasks.values.map Task.ID).Nodup :=
    visit_ids_nodup s0 s0.tasks.values hwf hkey (List.Perm.refl _)
  have hU := BehindCycle_closed s0 hnd
  obtain ⟨_, hpu, hqu, hru, _, hmk, _, hnoerr⟩ :=
    sysExec_invariant (StuckInv s0 (BehindCycle s0))
      (fun y a y2 h hs => StuckInv_step s0 (BehindCycle s0) hU hdeps y a y2 h hs)
      acts (afterStart s0) y (StuckInv_afterStart s0 _ hfresh) hexec
  refine ⟨fun h => (hpu t h).2 hstuck, fun h => (hqu t h).2 hstuck, fun h => hru t h hstuck, ?_,
    (Start_sched_of_not_running s0 hfresh.2.2.2.2).2, hnoerr⟩
  by_contra hc
  exact hmk t.ID (by simpa using hc) hstuck

theorem cyclic_tasks_never_scheduled_witness :
    behindY ∉ cycleRun.pushed ∧ behindY ∉ cycleRun.sched.taskQueue ∧ behindY ∉ cycleRun.running ∧
    cycleRun.sched.completedTasks.getBool behindY.ID = false ∧
    (Start cycleRegistry).err = none ∧
    (∀ err, cycleRun.dispatcher ≠ DispatcherState.returned (some err)) :=
  cyclic_tasks_never_scheduled cycleRegistry
    [SysAction.dispatch cycleRegistry.tasks.values cycleRegistry.tasks.values,
     SysAction.take, SysAction.finish 0 alwaysExit0 0 1,
     SysAction.process cycleRegistry.tasks.values] cycleRun behindY
    (NewScheduler_AddTasks_invariants 3 _).2.2 (NewScheduler_AddTasks_invariants 3 _).1
    (NewScheduler_AddTasks_invariants 3 _).2.1 (by decide) (by decide)
    ⟨"X", Relation.ReflTransGen.single ⟨behindY, by decide, rfl, by decide⟩,
      Relation.TransGen.single ⟨selfX, by decide, rfl, by decide⟩⟩

/-! ## Order of the sends -/

/-- C14: in every execution after `Start` on a scheduler built by `NewScheduler` and
`AddTask`, whenever a task with dependencies has been sent to `taskQueue`, every registered
task without dependencies has been sent to it before. -/
theorem independent_tasks_pushed_first (s0 : Scheduler) (acts : List SysAction) (y : Sys)
    (pre post : List Task) (t u : Task) (hfresh : s0.Fresh)
    (hexec : sysExec (afterStart s0) acts = some y)
    (hp : y.pushed = pre ++ t :: post) (hdeps : t.Dependencies ≠ [])
    (hu : u ∈ s0.tasks.values) (hud : u.Dependencies = []) :
    u ∈ pre := by
  have hinv := sysExec_invariant (DispatchInv s0)
    (fun y a y2 h hs => DispatchInv_step s0 y a y2 h hs)
    acts (afterStart s0) y (DispatchInv_afterStart s0 hfresh) hexec
  have htmem : t ∈ y.pushed := by rw [hp]; simp
  cases hd : y.dispatcher with
  | launched =>
    rw [(DispatchInv_launched s0 y hinv hd).1] at htmem
    simp at htmem
  | sending rest =>
    obtain ⟨visited, _, hpv⟩ := DispatchInv_sending s0 y hinv rest hd
    rw [hpv] at htmem
    have := (List.mem_filter.mp htmem).2
    exact absurd (by simpa using this) hdeps
  | returned e =>
    cases e with
    | some err =>
      rw [(DispatchInv_failed s0 y hinv err hd).1] at htmem
      simp at htmem
    | none =>
      obtain ⟨first, later, hpf, hperm⟩ := DispatchInv_done s0 y hinv hd
      have hufirst : u ∈ first :=
        hperm.symm.subset (List.mem_filter.mpr ⟨hu, by simpa using hud⟩)
      have hfree : ∀ v ∈ first, v.Dependencies = [] := by
        intro v hv
        simpa using (List.mem_filter.mp (hperm.subset hv)).2
      rw [hp] at hpf
      rcases List.append_eq_append_iff.mp hpf with ⟨a, h1, _⟩ | ⟨c, h1, h2⟩
      · rw [h1] at hufirst
        rcases List.mem_append.mp hufirst with h | h
        · exact h
        · exfalso
          cases a with
          | nil => simp at h
          | cons v a =>
            rename_i h3
            simp only [List.cons_append, List.cons.injEq] at h3
            exact hdeps (hfree t (by rw [h1, ← h3.1]; simp))
      · rw [h1]
        exact List.mem_append_left _ hufirst

theorem independent_tasks_pushed_first_witness : scenarioA ∈ [scenarioA] :=
  independent_tasks_pushed_first pairRegistry
    [SysAction.dispatch pairRegistry.tasks.values pairRegistry.tasks.values,
     SysAction.take, SysAction.finish 0 alwaysExit0 0 1,
     SysAction.process pairRegistry.tasks.values] pairRun [scenarioA] [] chainC scenarioA
    (NewScheduler_AddTasks_invariants 3 _).2.2 (by decide) (by decide) (by decide) (by decide)
    rfl

/-! ## Generated ids -/

/-- C21 (failing input): a registry that holds one task, registered under the id `task-2`,
and a task registered with an empty id: `AddTask` generates `task-2` again, the registry
still has one entry, and the first task is gone. -/
theorem AddTask_generated_id_collides :
    (AddTask (NewScheduler 3) namedTask2).1.tasks.keys = ["task-2"] ∧
    (AddTask (AddTask (NewScheduler 3) namedTask2).1 unnamedTask).1.tasks.keys = ["task-2"] ∧
    ((AddTask (AddTask (NewScheduler 3) namedTask2).1 unnamedTask).1.tasks.get? "task-2").map
      Task.Cmd = some "echo second" := by
  decide

/-- Where the generated id is not in the registry, the call adds an entry and replaces
none. -/
theorem AddTask_new_id (s : Scheduler) (t : Task) (hid : t.ID = "")
    (hnew : "task-" ++ toString (s.tasks.length + 1) ∉ s.tasks.keys) :
    (AddTask s t).1.tasks.length = s.tasks.length + 1 ∧
    ∀ k ∈ s.tasks.keys, (AddTask s t).1.tasks.get? k = s.tasks.get? k := by
  have hfilter : s.tasks.filter (fun e => e.1 != "task-" ++ toString (s.tasks.length + 1))
      = s.tasks := by
    rw [List.filter_eq_self]
    intro e he
    have : e.1 ≠ "task-" ++ toString (s.tasks.length + 1) := by
      intro h
      exact hnew (by rw [← h]; exact List.mem_map_of_mem Prod.fst he)
    simpa using this
  have hkey : ∀ k ∈ s.tasks.keys, k ≠ "task-" ++ toString (s.tasks.length + 1) := by
    intro k hk e
    exact hnew (e ▸ hk)
  unfold AddTask
  by_cases h2 : t.Name = "" <;> by_cases h3 : t.Timeout = 0 <;> by_cases h4 : t.MaxOutput = 0 <;>
    simp only [hid, h2, h3, h4, if_true, if_false] <;>
    exact ⟨by simp [GoMap.set, hfilter], fun k hk => GoMap.get?_set_ne _ _ _ _ (hkey k hk)⟩

/-! ## Start -/

/-- C22: `Start` returns a non-nil error if and only if `isRunning` is already true; in that
case it launches nothing and leaves the scheduler unchanged; otherwise it sets `isRunning`,
changes nothing else, and returns nil. -/
theorem Start_error_iff_running (s : Scheduler) :
    ((Start s).err ≠ none ↔ s.isRunning = true) ∧
    (s.isRunning = true → (Start s).launched = [] ∧ (Start s).sched = s) ∧
    (s.isRunning = false →
      (Start s).err = none ∧ (Start s).sched = { s with isRunning := true } ∧
      (Start s).sched.isRunning = true) := by
  cases h : s.isRunning <;> simp [Start, h]

/-! ## Output truncation: the bounds -/

/-- C28 (failing input): three lines with `maxLines = 2`: the returned string has three
newline-separated lines. -/
theorem trimOutput_exceeds_maxLines :
    trimOutput "a\nb\nc" 2 = some "a\n... (忽略中间内容) ...\nc" ∧
    (splitLines "a\n... (忽略中间内容) ...\nc".data).length = 3 := by
  decide

/-- C29 (failing input): a task with `MaxOutput = -2` is stored by `AddTask` as it is, and
`trimOutput` with its `MaxOutput` panics on the slice expression `lines[:keep]`, here on the
output `hi`; `executeTask` then returns no result. -/
theorem trimOutput_negative_MaxOutput_panics :
    ((AddTask (NewScheduler 3) negativeMaxOutput).1.tasks.get? "N").map Task.MaxOutput
      = some (-2) ∧
    Int.tdiv (-2) 2 = -1 ∧
    trimOutput "hi\n" (-2) = none ∧
    (executeTask 0 negativeMaxOutput (fun _ => ProcRun.ran ["hi"] 0 none none) 0 1).result
      = none := by
  decide

/-- `trimOutput` returns a string exactly when its bound is at least `-1`. -/
theorem trimOutput_isSome_iff (output : String) (maxLines : Int) :
    (trimOutput output maxLines).isSome = true ↔ -1 ≤ maxLines := by
  constructor
  · intro h
    by_contra hc
    rw [trimOutput_panics output maxLines (by omega)] at h
    simp at h
  · intro h
    obtain ⟨t, ht⟩ := trimOutput_isSome output maxLines h
    simp [ht]

/-! ## Tasks with a negative `RetryCount` -/

/-- C30: for a task with a negative `RetryCount` and `MaxOutput ≥ 1`, `executeTask` launches
nothing and returns a result with `Status = StatusRunning`, no error, exit code 0,
`RetryCount = 0` and empty `Output`; `AddTask` stores the negative `RetryCount` as given, and
a `resultProcessor` iteration that receives this result records it under the id of the task
and marks the id. -/
theorem executeTask_negative_RetryCount (workerID : Int) (task : Task) (os : Nat → ProcRun)
    (startTime endTime : Int) (hneg : task.RetryCount < 0) (hmax : 1 ≤ task.MaxOutput) :
    ∃ r : TaskResult,
      executeTask workerID task os startTime endTime = { result := some r, effects := [] } ∧
      r.Status = StatusRunning ∧ r.Error = none ∧ r.ExitCode = 0 ∧ r.RetryCount = 0 ∧
      r.Output = "" ∧ r.TaskID = task.ID ∧
      (∀ s0 : Scheduler, ∃ stored, (AddTask s0 task).1.tasks.get? stored.ID = some stored ∧
        stored.RetryCount = task.RetryCount ∧ (AddTask s0 task).2 = none) ∧
      (∀ (s : Scheduler) (rest : List TaskResult) (visit : List Task),
        s.taskResultQueue = r :: rest →
        ∃ s2, resultProcessor s visit = some s2 ∧ s2.taskResults.get? task.ID = some r ∧
          s2.completedTasks.getBool task.ID = true) := by
  refine ⟨{ TaskID := task.ID, TaskName := task.Name, Status := StatusRunning,
            StartTime := startTime, EndTime := endTime, Duration := endTime - startTime,
            ExitCode := 0, Output := "", Error := none, RetryCount := 0 },
    ?_, rfl, rfl, rfl, rfl, rfl, rfl, ?_, ?_⟩
  · have hfuel : (task.RetryCount + 1).toNat = 0 := by omega
    have htrim : trimOutput "" task.MaxOutput = some "" := by
      have h1 : ((splitLines "".data).length : Int) = 1 := rfl
      unfold trimOutput
      simp only
      rw [if_pos (by rw [h1]; exact hmax)]
    unfold executeTask
    simp only [hfuel, attemptLoop, htrim, Option.map_some']
  · intro s0
    refine ⟨_, GoMap.get?_set_self _ _ _, ?_, rfl⟩
    by_cases h1 : task.ID = "" <;> by_cases h2 : task.Name = "" <;>
      by_cases h3 : task.Timeout = 0 <;> by_cases h4 : task.MaxOutput = 0 <;>
      simp [h1, h2, h3, h4]
  · intro s rest visit hq
    rw [resultProcessor_cons s _ rest visit hq]
    obtain ⟨_, _, _, hmono, _, _, hres, _⟩ := checkDependentTasks_frame visit
      { s with taskResultQueue := rest,
               taskResults := s.taskResults.set task.ID
                 { TaskID := task.ID, TaskName := task.Name, Status := StatusRunning,
                   StartTime := startTime, EndTime := endTime, Duration := endTime - startTime,
                   ExitCode := 0, Output := "", Error := none, RetryCount := 0 },
               completedTasks := s.completedTasks.set task.ID true }
    refine ⟨_, rfl, ?_, ?_⟩
    · rw [hres]; exact GoMap.get?_set_self _ _ _
    · exact hmono _ (GoMap.getBool_set_self _ _)

theorem executeTask_negative_RetryCount_witness :
    ∃ r : TaskResult,
      executeTask 0 negativeRetry alwaysExit0 0 1 = { result := some r, effects := [] } ∧
      r.Status = StatusRunning ∧ r.Error = none ∧ r.ExitCode = 0 ∧ r.RetryCount = 0 ∧
      r.Output = "" ∧ r.TaskID = negativeRetry.ID ∧
      (∀ s0 : Scheduler, ∃ stored,
        (AddTask s0 negativeRetry).1.tasks.get? stored.ID = some stored ∧
        stored.RetryCount = negativeRetry.RetryCount ∧ (AddTask s0 negativeRetry).2 = none) ∧
      (∀ (s : Scheduler) (rest : List TaskResult) (visit : List Task),
        s.taskResultQueue = r :: rest →
        ∃ s2, resultProcessor s visit = some s2 ∧
          s2.taskResults.get? negativeRetry.ID = some r ∧
          s2.completedTasks.getBool negativeRetry.ID = true) :=
  executeTask_negative_RetryCount 0 negativeRetry alwaysExit0 0 1 (by decide) (by decide)

/-! ## One scan with enough room -/

theorem checkDependentTasks_queue_length_le (visit : List Task) :
    ∀ s : Scheduler, (checkDependentTasks s visit).taskQueue.length ≤
      s.taskQueue.length + (visit.filter fun t => decide (t.Dependencies ≠ [])).length := by
  induction visit with
  | nil => intro s; simp [checkDependentTasks]
  | cons task rest ih =>
    intro s
    rw [checkDependentTasks_cons]
    rcases scanStep_cases s task with hs | ⟨_, hne, _, _, hs⟩
    · rw [hs]
      have := ih s
      have hle : (rest.filter fun t => decide (t.Dependencies ≠ [])).length ≤
          ((task :: rest).filter fun t => decide (t.Dependencies ≠ [])).length := by
        rw [List.filter_cons]
        split <;> simp
      omega
    · rw [hs]
      have := ih { s with taskQueue := s.taskQueue ++ [task],
                          completedTasks := s.completedTasks.set task.ID true }
      simp only [List.length_append, List.length_singleton] at this
      have hf : ((task :: rest).filter fun t => decide (t.Dependencies ≠ [])).length =
          (rest.filter fun t => decide (t.Dependencies ≠ [])).length + 1 := by
        rw [List.filter_cons, if_pos (by simpa using hne)]
        simp
      omega

/-- C26: when the free capacity of `taskQueue` is at least the number of registered tasks
that have dependencies, one scan, in whatever order it visits the registry, enqueues and
marks every registered task that at its start is not marked, has dependencies, and has all
of them marked. -/
theorem checkDependentTasks_enqueues_all_ready (s : Scheduler) (visit : List Task) (t : Task)
    (hv : visit.Perm s.tasks.values) (hwf : s.WF) (hkey : s.KeyedByID)
    (hcap : s.taskQueue.length
      + (s.tasks.values.filter fun u => decide (u.Dependencies ≠ [])).length ≤ s.taskQueueCap)
    (ht : t ∈ s.tasks.values) (hun : s.completedTasks.getBool t.ID = false)
    (hne : t.Dependencies ≠ [])
    (hall : ∀ d ∈ t.Dependencies, s.completedTasks.getBool d = true) :
    ∃ pushed, (checkDependentTasks s visit).taskQueue = s.taskQueue ++ pushed ∧ t ∈ pushed ∧
      (checkDependentTasks s visit).completedTasks.getBool t.ID = true := by
  obtain ⟨pre, post, hsplit⟩ := List.append_of_mem (hv.symm.subset ht)
  subst hsplit
  have hnd := visit_ids_nodup s _ hwf hkey hv
  obtain ⟨pushed, hq, hyes, _⟩ := checkDependentTasks_visit pre post t s hnd hun hne hall
  have hlen := checkDependentTasks_queue_length_le pre s
  have hcount : (pre.filter fun u => decide (u.Dependencies ≠ [])).length + 1 ≤
      (s.tasks.values.filter fun u => decide (u.Dependencies ≠ [])).length := by
    rw [← (hv.filter _).length_eq, List.filter_append, List.filter_cons,
      if_pos (by simpa using hne)]
    simp
  have hroom : (checkDependentTasks s pre).taskQueue.length < s.taskQueueCap := by omega
  exact ⟨pushed, hq, (hyes hroom).1, (hyes hroom).2⟩

theorem checkDependentTasks_enqueues_all_ready_witness :
    ∃ pushed, (checkDependentTasks afterFailedAMarked [scenarioA, chainC]).taskQueue
        = afterFailedAMarked.taskQueue ++ pushed ∧ chainC ∈ pushed ∧
      (checkDependentTasks afterFailedAMarked [scenarioA, chainC]).completedTasks.getBool
        chainC.ID = true :=
  checkDependentTasks_enqueues_all_ready afterFailedAMarked [scenarioA, chainC] chainC
    (by decide) (NewScheduler_AddTasks_invariants 3 _).1 (NewScheduler_AddTasks_invariants 3 _).2.1
    (by decide) (by decide) (by decide) (by decide) (by decide)

/-! ## The summary report -/

theorem wrap64_add (x d : Int) : wrap64 (wrap64 x + d) = wrap64 (x + d) := by
  unfold wrap64
  omega

theorem wrap64_of_range (x : Int) (h1 : -9223372036854775808 ≤ x)
    (h2 : x < 9223372036854775808) : wrap64 x = x := by
  unfold wrap64
  omega

theorem summaryLoop_total (results : List TaskResult) :
    ∀ acc : Int × Int × Int,
      wrap64 (summaryLoop results acc).1
        = wrap64 (acc.1 + (results.map TaskResult.Duration).sum) ∧
      (results ≠ [] → (summaryLoop results acc).1
        = wrap64 (acc.1 + (results.map TaskResult.Duration).sum)) := by
  induction results with
  | nil => intro acc; simp [summaryLoop]
  | cons r rest ih =>
    intro acc
    obtain ⟨a, b, c⟩ := acc
    have key : ∀ acc2 : Int × Int × Int, acc2.1 = wrap64 (a + r.Duration) →
        wrap64 (summaryLoop rest acc2).1
          = wrap64 (a + ((r :: rest).map TaskResult.Duration).sum) ∧
        (summaryLoop rest acc2).1
          = wrap64 (a + ((r :: rest).map TaskResult.Duration).sum) := by
      intro acc2 h2
      have e : wrap64 (acc2.1 + (rest.map TaskResult.Duration).sum)
          = wrap64 (a + ((r :: rest).map TaskResult.Duration).sum) := by
        rw [h2, wrap64_add, List.map_cons, List.sum_cons]
        congr 1
        omega
      obtain ⟨i1, i2⟩ := ih acc2
      refine ⟨by rw [i1, e], ?_⟩
      cases rest with
      | nil =>
        simp only [summaryLoop, List.map_cons, List.map_nil, List.sum_cons, List.sum_nil]
        rw [h2]
        congr 1
        omega
      | cons r2 rest2 => rw [i2 (by simp), e]
    rw [summaryLoop]
    split
    · exact ⟨(key _ rfl).1, fun _ => (key _ rfl).2⟩
    · exact ⟨(key _ rfl).1, fun _ => (key _ rfl).2⟩

/-- C24 (failing input): with an empty results map the division `totalTime / len(results)`
of line 484 has a zero divisor: `PrintSummary` panics. -/
theorem PrintSummary_empty_panics :
    summaryLoop [] (0, 0, 0) = (0, 0, 0) ∧ goDiv 0 ((([] : List TaskResult).length : Nat) : Int) = none ∧
    PrintSummary [] = none := by
  decide

/-- With at least one result `PrintSummary` completes: the total is the sum of the
durations as `int64` arithmetic gives it (the sum itself when that lies in the range of
`int64`), and the average is the truncated quotient of the total by the number of results. -/
theorem PrintSummary_nonempty (results : List TaskResult) (h : results ≠ []) :
    ∃ summary, PrintSummary results = some summary ∧
      summary.totalTime = wrap64 (results.map TaskResult.Duration).sum ∧
      (-9223372036854775808 ≤ (results.map TaskResult.Duration).sum →
        (results.map TaskResult.Duration).sum < 9223372036854775808 →
        summary.totalTime = (results.map TaskResult.Duration).sum) ∧
      summary.average = Int.tdiv summary.totalTime results.length := by
  have hlen : ((results.length : Nat) : Int) ≠ 0 := by
    have := List.length_pos.mpr h
    omega
  have ht := (summaryLoop_total results (0, 0, 0)).2 h
  simp only [Int.zero_add] at ht
  unfold PrintSummary goDiv
  simp only [if_neg hlen, Option.map_some', ht]
  exact ⟨_, rfl, rfl, fun h1 h2 => wrap64_of_range _ h1 h2, rfl⟩

/-! ## `GetResults` -/

theorem ResultsMem.read_assign_ne (m : ResultsMem) (a c : Nat) (k : String) (v : TaskResult)
    (h : c ≠ a) : (m.assign a k v).read c = m.read c := by
  simp [ResultsMem.assign, ResultsMem.read, List.getD_eq_getElem?_getD, List.getElem?_set_ne (Ne.symm h)]

theorem ResultsMem.read_assign_self (m : ResultsMem) (a : Nat) (k : String) (v : TaskResult)
    (h : a < m.cells.length) : (m.assign a k v).read a = (m.read a).set k v := by
  simp [ResultsMem.assign, ResultsMem.read, List.getD_eq_getElem?_getD, List.getElem?_set_self, h]

theorem ResultsMem.length_assign (m : ResultsMem) (a : Nat) (k : String) (v : TaskResult) :
    (m.assign a k v).cells.length = m.cells.length := by
  simp [ResultsMem.assign]

theorem ResultsMem.read_delete_ne (m : ResultsMem) (a c : Nat) (k : String) (h : c ≠ a) :
    (m.delete a k).read c = m.read c := by
  simp [ResultsMem.delete, ResultsMem.read, List.getD_eq_getElem?_getD, List.getElem?_set_ne (Ne.symm h)]

theorem ResultsMem.length_delete (m : ResultsMem) (a : Nat) (k : String) :
    (m.delete a k).cells.length = m.cells.length := by
  simp [ResultsMem.delete]

theorem applyOps_frame (a : Nat) (ops : List MapOp) :
    ∀ m : ResultsMem, (applyOps m a ops).cells.length = m.cells.length ∧
      ∀ c, c ≠ a → (applyOps m a ops).read c = m.read c := by
  induction ops with
  | nil => intro m; exact ⟨rfl, fun _ _ => rfl⟩
  | cons op ops ih =>
    intro m
    cases op with
    | assign k v =>
      obtain ⟨h1, h2⟩ := ih (m.assign a k v)
      rw [applyOps]
      exact ⟨by rw [h1, ResultsMem.length_assign],
        fun c hc => by rw [h2 c hc, ResultsMem.read_assign_ne m a c k v hc]⟩
    | delete k =>
      obtain ⟨h1, h2⟩ := ih (m.delete a k)
      rw [applyOps]
      exact ⟨by rw [h1, ResultsMem.length_delete],
        fun c hc => by rw [h2 c hc, ResultsMem.read_delete_ne m a c k hc]⟩

theorem copyLoop_frame (b : Nat) (visit : List (String × TaskResult)) :
    ∀ m : ResultsMem, b < m.cells.length →
      (visit.foldl (fun m e => m.assign b e.1 e.2) m).cells.length = m.cells.length ∧
      (∀ c, c ≠ b → (visit.foldl (fun m e => m.assign b e.1 e.2) m).read c = m.read c) ∧
      (visit.foldl (fun m e => m.assign b e.1 e.2) m).read b
        = visit.foldl (fun acc e => acc.set e.1 e.2) (m.read b) := by
  induction visit with
  | nil => intro m _; exact ⟨rfl, fun _ _ => rfl, rfl⟩
  | cons e visit ih =>
    intro m hb
    obtain ⟨h1, h2, h3⟩ := ih (m.assign b e.1 e.2) (by rw [ResultsMem.length_assign]; exact hb)
    simp only [List.foldl_cons]
    refine ⟨by rw [h1, ResultsMem.length_assign], ?_, ?_⟩
    · intro c hc
      rw [h2 c hc, ResultsMem.read_assign_ne m b c _ _ hc]
    · rw [h3, ResultsMem.read_assign_self m b _ _ hb]

/-- In a map (one entry per key) a key reads as `v` exactly when the pair is an entry. -/
theorem GoMap.get?_eq_some_iff_mem {α : Type} (m : GoMap α) (hnd : m.keys.Nodup) (k : String)
    (v : α) : m.get? k = some v ↔ (k, v) ∈ m := by
  unfold GoMap.get?
  induction m with
  | nil => simp
  | cons e m ih =>
    obtain ⟨k2, v2⟩ := e
    simp only [GoMap.keys, List.map_cons, List.nodup_cons] at hnd
    by_cases h : k = k2
    · subst h
      have hno : (k, v) ∉ m := fun hm => hnd.1 (List.mem_map_of_mem Prod.fst hm)
      simp [List.lookup, hno]
      exact eq_comm
    · have hb : (k == k2) = false := by simpa using h
      simp only [List.lookup, hb, List.mem_cons, Prod.mk.injEq, h, false_and, false_or]
      exact ih hnd.2

/-- The copy loop of `GetResults`: afterwards a key reads as `v` exactly when the pair was
visited, or the key was not visited and read as `v` before. -/
theorem copyLoop_get? (visit : List (String × TaskResult)) :
    ∀ (acc : GoMap TaskResult), (visit.map Prod.fst).Nodup → ∀ (k : String) (v : TaskResult),
      ((visit.foldl (fun acc e => acc.set e.1 e.2) acc).get? k = some v ↔
        (k, v) ∈ visit ∨ (k ∉ visit.map Prod.fst ∧ acc.get? k = some v)) := by
  induction visit with
  | nil => intro acc _ k v; simp
  | cons e visit ih =>
    intro acc hnd k v
    obtain ⟨k2, v2⟩ := e
    simp only [List.map_cons, List.nodup_cons] at hnd
    simp only [List.foldl_cons]
    rw [ih (acc.set k2 v2) hnd.2 k v]
    by_cases h : k = k2
    · subst h
      have hno : (k, v) ∉ visit := fun hm => hnd.1 (List.mem_map_of_mem Prod.fst hm)
      simp only [hno, false_or, GoMap.get?_set_self, Option.some.injEq, List.mem_cons,
        Prod.mk.injEq, true_and, List.map_cons, true_or, not_true_eq_false, false_and, or_false]
      constructor
      · rintro ⟨_, h2⟩; exact h2.symm
      · intro h2; exact ⟨hnd.1, h2.symm⟩
    · rw [GoMap.get?_set_ne acc k2 k v2 h]
      simp [h]

/-- C23: `GetResults` returns a map at an address that no existing map has; the returned map
holds exactly the key/value pairs of `taskResults`; every map that existed, `taskResults`
included, is unchanged; and whatever keys the caller then adds to or deletes from the returned
map, a later `GetResults` again returns the pairs of `taskResults`. -/
theorem GetResults_fresh_copy (m : ResultsMem) (taskResults : Nat)
    (visit : List (String × TaskResult)) (ha : taskResults < m.cells.length)
    (hnd : (m.read taskResults).keys.Nodup) (hv : visit.Perm (m.read taskResults)) :
    (GetResults m taskResults visit).2 = m.cells.length ∧
    (GetResults m taskResults visit).2 ≠ taskResults ∧
    (∀ c, c < m.cells.length → (GetResults m taskResults visit).1.read c = m.read c) ∧
    (∀ k, ((GetResults m taskResults visit).1.read (GetResults m taskResults visit).2).get? k
      = (m.read taskResults).get? k) ∧
    (∀ (ops : List MapOp) (visit2 : List (String × TaskResult)),
      visit2.Perm ((applyOps (GetResults m taskResults visit).1
        (GetResults m taskResults visit).2 ops).read taskResults) →
      (applyOps (GetResults m taskResults visit).1 (GetResults m taskResults visit).2 ops).read
          taskResults = m.read taskResults ∧
      ∀ k, ((GetResults
              (applyOps (GetResults m taskResults visit).1 (GetResults m taskResults visit).2 ops)
              taskResults visit2).1.read
            (GetResults
              (applyOps (GetResults m taskResults visit).1 (GetResults m taskResults visit).2 ops)
              taskResults visit2).2).get? k
        = (m.read taskResults).get? k) := by
  have hcopy : ∀ (m0 : ResultsMem) (vis : List (String × TaskResult)),
      vis.Perm (m.read taskResults) →
      (GetResults m0 taskResults vis).2 = m0.cells.length ∧
      (∀ c, c < m0.cells.length → (GetResults m0 taskResults vis).1.read c = m0.read c) ∧
      (∀ k, ((GetResults m0 taskResults vis).1.read (GetResults m0 taskResults vis).2).get? k
        = (m.read taskResults).get? k) := by
    intro m0 vis hvis
    have hvn : (vis.map Prod.fst).Nodup := (hvis.map Prod.fst).nodup_iff.mpr hnd
    obtain ⟨_, h2, h3⟩ := copyLoop_frame m0.cells.length vis { cells := m0.cells ++ [[]] }
      (by simp)
    refine ⟨rfl, ?_, ?_⟩
    · intro c hc
      simp only [GetResults, ResultsMem.make]
      rw [h2 c (by omega)]
      simp [ResultsMem.read, List.getD_eq_getElem?_getD, List.getElem?_append_left hc]
    · intro k
      simp only [GetResults, ResultsMem.make]
      rw [h3]
      have hempty : ({ cells := m0.cells ++ [[]] } : ResultsMem).read m0.cells.length = [] := by
        simp [ResultsMem.read, List.getD_eq_getElem?_getD]
      rw [hempty]
      apply Option.ext
      intro v
      simp only [Option.mem_def]
      rw [copyLoop_get? vis [] hvn k v, GoMap.get?_eq_some_iff_mem _ hnd k v]
      simp only [GoMap.get?, List.lookup, reduceCtorEq, and_false, or_false]
      exact ⟨fun h => hvis.subset h, fun h => hvis.symm.subset h⟩
  obtain ⟨h1, h2, h3⟩ := hcopy m visit hv
  refine ⟨h1, by omega, h2, h3, ?_⟩
  intro ops visit2 hv2
  obtain ⟨hl, hr⟩ := applyOps_frame (GetResults m taskResults visit).2 ops
    (GetResults m taskResults visit).1
  have hsame : (applyOps (GetResults m taskResults visit).1 (GetResults m taskResults visit).2
      ops).read taskResults = m.read taskResults := by
    rw [hr taskResults (by omega), h2 taskResults ha]
  refine ⟨hsame, ?_⟩
  intro k
  rw [hsame] at hv2
  exact (hcopy _ visit2 hv2).2.2 k

theorem GetResults_fresh_copy_witness :
    (GetResults resultsMemA 0 [("A", failedA)]).2 = resultsMemA.cells.length ∧
    (GetResults resultsMemA 0 [("A", failedA)]).2 ≠ 0 ∧
    (∀ c, c < resultsMemA.cells.length →
      (GetResults resultsMemA 0 [("A", failedA)]).1.read c = resultsMemA.read c) ∧
    (∀ k, ((GetResults resultsMemA 0 [("A", failedA)]).1.read
        (GetResults resultsMemA 0 [("A", failedA)]).2).get? k = (resultsMemA.read 0).get? k) ∧
    (∀ (ops : List MapOp) (visit2 : List (String × TaskResult)),
      visit2.Perm ((applyOps (GetResults resultsMemA 0 [("A", failedA)]).1
        (GetResults resultsMemA 0 [("A", failedA)]).2 ops).read 0) →
      (applyOps (GetResults resultsMemA 0 [("A", failedA)]).1
          (GetResults resultsMemA 0 [("A", failedA)]).2 ops).read 0 = resultsMemA.read 0 ∧
      ∀ k, ((GetResults
              (applyOps (GetResults resultsMemA 0 [("A", failedA)]).1
                (GetResults resultsMemA 0 [("A", failedA)]).2 ops)
              0 visit2).1.read
            (GetResults
              (applyOps (GetResults resultsMemA 0 [("A", failedA)]).1
                (GetResults resultsMemA 0 [("A", failedA)]).2 ops)
              0 visit2).2).get? k
        = (resultsMemA.read 0).get? k) :=
  GetResults_fresh_copy resultsMemA 0 [("A", failedA)] (by decide) (by decide) (by decide)

/-! ## The mutex and the accesses of the two maps -/

theorem guarded_map_const {α : Type} (xs : List α) (e : MemEvent) (rest : List MemEvent)
    (he : e ≠ MemEvent.lock ∧ e ≠ MemEvent.unlock) :
    guarded true (xs.map (fun _ => e) ++ rest) = guarded true rest := by
  induction xs with
  | nil => rfl
  | cons x xs ih =>
    rw [List.map_cons, List.cons_append]
    cases e <;> simp_all [guarded]

/-- C25 (failing path): `taskDispatcher` starts with `checkDependencies`, whose first event
is a read of the registry while `mu` is not held; this holds for every scheduler and every
visiting order, here shown on the registry `A <- C`. -/
theorem taskDispatcher_reads_tasks_unlocked :
    (taskDispatcherEvents pairRegistry [scenarioA, chainC] [scenarioA, chainC]).head?
      = some MemEvent.readTasks ∧
    guarded false (checkDependenciesEvents pairRegistry [scenarioA, chainC]) = false ∧
    guarded false (taskDispatcherEvents pairRegistry [scenarioA, chainC] [scenarioA, chainC])
      = false := by
  decide

/-- The same for every scheduler and every order: `checkDependencies`, and so
`taskDispatcher`, reads the registry without holding `mu`. -/
theorem taskDispatcherEvents_not_guarded (s : Scheduler) (visitCheck visitPush : List Task) :
    guarded false (checkDependenciesEvents s visitCheck) = false ∧
    guarded false (taskDispatcherEvents s visitCheck visitPush) = false := by
  simp [taskDispatcherEvents, checkDependenciesEvents, guarded]

/-- The other methods access the two maps only between `Lock` and `Unlock`. -/
theorem other_methods_guarded (task : Task) (visit : List Task)
    (entries : List (String × TaskResult)) :
    guarded false (AddTaskEvents task) = true ∧
    guarded false (checkDependentTasksEvents visit) = true ∧
    guarded false (resultProcessorEvents visit) = true ∧
    guarded false (GetResultsEvents entries) = true ∧
    guarded false StartEvents = true := by
  have hacc : ∀ (e : MemEvent) (es : List MemEvent), e ≠ MemEvent.lock ∧ e ≠ MemEvent.unlock →
      guarded true (e :: es) = guarded true es := by
    intro e es he
    cases e <;> simp_all [guarded]
  have hlock : ∀ es, guarded false (MemEvent.lock :: es) = guarded true es := fun _ => rfl
  have hunlock : ∀ es, guarded true (MemEvent.unlock :: es) = guarded false es := fun _ => rfl
  have h1 : guarded false (checkDependentTasksEvents visit) = true := by
    have e : checkDependentTasksEvents visit = MemEvent.lock :: MemEvent.readTasks ::
        (visit.map (fun _ => MemEvent.readTasks) ++ [MemEvent.unlock]) := by
      simp [checkDependentTasksEvents]
    rw [e, hlock, hacc _ _ (by decide), guarded_map_const visit MemEvent.readTasks _ (by decide)]
    rfl
  refine ⟨?_, h1, ?_, ?_, rfl⟩
  · unfold AddTaskEvents
    split <;> rfl
  · have e : resultProcessorEvents visit = MemEvent.lock :: MemEvent.writeResults ::
        MemEvent.unlock :: checkDependentTasksEvents visit := by
      simp [resultProcessorEvents]
    rw [e, hlock, hacc _ _ (by decide), hunlock]
    exact h1
  · have e : GetResultsEvents entries = MemEvent.lock :: MemEvent.readResults ::
        (entries.map (fun _ => MemEvent.readResults) ++ [MemEvent.unlock]) := by
      simp [GetResultsEvents]
    rw [e, hlock, hacc _ _ (by decide),
      guarded_map_const entries MemEvent.readResults _ (by decide)]
    rfl

/-! ## Each task is sent once -/

theorem sysStep_produced_same (y y2 : Sys) (a : SysAction) (h : sysStep y a = some y2)
    (ha : ∀ i os t0 t1, a ≠ SysAction.finish i os t0 t1) : y2.produced = y.produced := by
  cases a with
  | finish i os t0 t1 => exact absurd rfl (ha i os t0 t1)
  | dispatch vc vp =>
    simp only [sysStep] at h
    cases hd : y.dispatcher with
    | launched =>
      rw [hd] at h
      simp only at h
      split at h
      · rw [← Option.some.inj h]
      · simp at h
    | sending rest => rw [hd] at h; simp at h
    | returned e => rw [hd] at h; simp at h
  | resume =>
    simp only [sysStep] at h
    cases hd : y.dispatcher with
    | launched => rw [hd] at h; simp at h
    | returned e => rw [hd] at h; simp at h
    | sending rest0 =>
      rw [hd] at h
      simp only at h
      rw [← Option.some.inj h]
  | take =>
    simp only [sysStep] at h
    cases hq : y.sched.taskQueue with
    | nil => rw [hq] at h; simp at h
    | cons task rest =>
      rw [hq] at h
      simp only at h
      split at h
      · rw [← Option.some.inj h]
      · simp at h
  | process visit =>
    simp only [sysStep] at h
    cases hr : resultProcessor y.sched visit with
    | none =>
      rw [hr] at h
      cases hd : y.dispatcher <;> rw [hd] at h <;> simp at h
    | some s2 =>
      rw [hr] at h
      cases hd : y.dispatcher with
      | sending rest => rw [hd] at h; simp at h
      | launched =>
        rw [hd] at h
        simp only at h
        split at h
        · simp only [Option.map_some', Option.some.injEq] at h
          rw [← h]
        · simp at h
      | returned e =>
        rw [hd] at h
        simp only at h
        split at h
        · simp only [Option.map_some', Option.some.injEq] at h
          rw [← h]
        · simp at h

theorem sysStep_finish_produced (y y2 : Sys) (i : Nat) (os : Nat → ProcRun) (t0 t1 : Int)
    (h : sysStep y (SysAction.finish i os t0 t1) = some y2) :
    ∃ task result, y.running.get? i = some task ∧ result.TaskID = task.ID ∧
      y2.produced = y.produced ++ [result] := by
  simp only [sysStep] at h
  cases hg : y.running.get? i with
  | none => rw [hg] at h; simp at h
  | some task =>
    rw [hg] at h
    simp only at h
    cases hr : (executeTask (i : Int) task os t0 t1).result with
    | none => rw [hr] at h; simp at h
    | some result =>
      rw [hr] at h
      simp only at h
      split at h
      · have h := (Option.some.inj h).symm
        have hid : result.TaskID = task.ID := by
          unfold executeTask at hr
          simp only [Option.map_eq_some'] at hr
          obtain ⟨out, _, rfl⟩ := hr
          rfl
        exact ⟨task, result, rfl, hid, by rw [h]⟩
      · simp at h

theorem perm_cons_eraseIdx {α : Type} (l : List α) :
    ∀ (i : Nat) (a : α), l.get? i = some a → l.Perm (a :: l.eraseIdx i) := by
  induction l with
  | nil => intro i a h; simp at h
  | cons x l ih =>
    intro i a h
    cases i with
    | zero =>
      simp only [List.get?_cons_zero, Option.some.injEq] at h
      rw [h]
      simp
    | succ i =>
      simp only [List.get?_cons_succ] at h
      simp only [List.eraseIdx_cons_succ]
      exact ((ih i a h).cons x).trans (List.Perm.swap a x _)

/-- The tasks a scan enqueues have pairwise different ids, were not marked when the scan
started, have dependencies, and are marked when it ends. -/
theorem checkDependentTasks_pushed_fresh (visit : List Task) :
    ∀ s : Scheduler, ∃ pushed,
      (checkDependentTasks s visit).taskQueue = s.taskQueue ++ pushed ∧
      (pushed.map Task.ID).Nodup ∧
      ∀ t ∈ pushed, t ∈ visit ∧ t.Dependencies ≠ [] ∧ s.completedTasks.getBool t.ID = false ∧
        (checkDependentTasks s visit).completedTasks.getBool t.ID = true := by
  induction visit with
  | nil => intro s; exact ⟨[], by simp [checkDependentTasks], by simp, by simp⟩
  | cons task rest ih =>
    intro s
    rw [checkDependentTasks_cons]
    rcases scanStep_cases s task with hs | ⟨hun, hne, _, _, hs⟩
    · rw [hs]
      obtain ⟨pushed, hq, hnd, hp⟩ := ih s
      exact ⟨pushed, hq, hnd, fun t ht =>
        ⟨List.mem_cons_of_mem _ (hp t ht).1, (hp t ht).2⟩⟩
    · rw [hs]
      obtain ⟨pushed, hq, hnd, hp⟩ := ih
        { s with taskQueue := s.taskQueue ++ [task],
                 completedTasks := s.completedTasks.set task.ID true }
      obtain ⟨_, _, _, hmono, _⟩ := checkDependentTasks_frame rest
        { s with taskQueue := s.taskQueue ++ [task],
                 completedTasks := s.completedTasks.set task.ID true }
      have hother : ∀ t ∈ pushed, t.ID ≠ task.ID := by
        intro t ht e
        have := (hp t ht).2.2.1
        rw [e, GoMap.getBool_set_self] at this
        simp at this
      refine ⟨task :: pushed, by rw [hq]; simp, ?_, ?_⟩
      · rw [List.map_cons, List.nodup_cons]
        refine ⟨?_, hnd⟩
        intro hmem
        obtain ⟨t, ht, e⟩ := List.mem_map.mp hmem
        exact hother t ht e
      · intro t ht
        rcases List.mem_cons.mp ht with e | ht
        · rw [e]
          exact ⟨by simp, hne, hun, hmono _ (GoMap.getBool_set_self _ _)⟩
        · obtain ⟨h1, h2, h3, h4⟩ := hp t ht
          refine ⟨List.mem_cons_of_mem _ h1, h2, ?_, h4⟩
          rw [GoMap.getBool_set_ne _ _ _ _ (hother t ht)] at h3
          exact h3

theorem registry_id_inj (s : Scheduler) (hwf : s.WF) (hkey : s.KeyedByID) (t u : Task)
    (ht : t ∈ s.tasks.values) (hu : u ∈ s.tasks.values) (h : t.ID = u.ID) : t = u :=
  List.inj_on_of_nodup_map (visit_ids_nodup s _ hwf hkey (List.Perm.refl _)) ht hu h

theorem PushInv_afterStart (s0 : Scheduler) (h : s0.Fresh) : PushInv s0 (afterStart s0) := by
  obtain ⟨h1, _, _, _, h5⟩ := h
  have hs := (Start_sched_of_not_running s0 h5).1
  unfold PushInv afterStart
  simp only [hs, h1]
  simp

/-- A step that appends `X` to the queue and to the history keeps the invariant, when the ids
stay different, `X` is registered, marks are kept, and the tasks of `X` with dependencies are
marked. -/
theorem PushInv_push (s0 : Scheduler) (y y2 : Sys) (X : List Task) (hp : PushInv s0 y)
    (hq : y2.sched.taskQueue = y.sched.taskQueue ++ X) (hpu : y2.pushed = y.pushed ++ X)
    (hrun : y2.running = y.running) (hprod : y2.produced = y.produced)
    (hnd : ((y.pushed ++ X).map Task.ID).Nodup)
    (hreg : ∀ t ∈ X, t ∈ s0.tasks.values)
    (hmono : ∀ k, y.sched.completedTasks.getBool k = true →
      y2.sched.completedTasks.getBool k = true)
    (hnew : ∀ t ∈ X, t.Dependencies ≠ [] → y2.sched.completedTasks.getBool t.ID = true) :
    PushInv s0 y2 := by
  obtain ⟨_, h2, h3, h4⟩ := hp
  unfold PushInv
  rw [hq, hpu, hrun, hprod]
  refine ⟨hnd, ?_, ?_, ?_⟩
  · intro t ht
    rcases List.mem_append.mp ht with h | h
    · exact h2 t h
    · exact hreg t h
  · intro t ht hd
    rcases List.mem_append.mp ht with h | h
    · exact hmono _ (h3 t h hd)
    · exact hnew t h hd
  · rw [List.map_append, List.map_append, ← List.append_assoc]
    exact h4.append_right _

theorem PushInv_step (s0 : Scheduler) (hwf : s0.WF) (hkey : s0.KeyedByID) (y : Sys)
    (a : SysAction) (y2 : Sys) (hinv : DispatchInv s0 y) (hp : PushInv s0 y)
    (hs : sysStep y a = some y2) : PushInv s0 y2 := by
  have htasks : y.sched.tasks = s0.tasks := hinv.1
  cases a with
  | dispatch vc vp =>
    have hprod := sysStep_produced_same y y2 _ hs (by intro i os t0 t1 h; cases h)
    obtain ⟨hd, _, hvp, hrun2, hcase⟩ := sysStep_dispatch y y2 vc vp hs
    obtain ⟨hpe, _, _, _⟩ := DispatchInv_launched s0 y hinv hd
    rw [htasks] at hvp
    rcases hcase with ⟨err, _, hsch, hd2, hp2⟩ | ⟨_, visited, rest, hv, hsch, hp2, _⟩
    · unfold PushInv at hp ⊢
      rw [hsch, hp2, hrun2, hprod]
      exact hp
    · have hsub : (visited.filter fun t => decide (t.Dependencies = [])).Sublist vp := by
        rw [hv]
        exact (List.filter_sublist _).trans (List.sublist_append_left _ _)
      refine PushInv_push s0 y y2 _ hp (by rw [hsch]) hp2 hrun2 hprod ?_ ?_ ?_ ?_
      · rw [hpe, List.nil_append]
        exact (visit_ids_nodup s0 vp hwf hkey hvp).sublist (hsub.map _)
      · intro t ht
        exact hvp.subset (hsub.subset ht)
      · intro k hk
        rw [hsch]
        exact hk
      · intro t ht hdeps
        exact absurd (by simpa using (List.mem_filter.mp ht).2) hdeps
  | resume =>
    have hprod := sysStep_produced_same y y2 _ hs (by intro i os t0 t1 h; cases h)
    obtain ⟨rest0, visited, rest, hd, hv, hrun2, hsch, hp2, _⟩ := sysStep_resume y y2 hs
    obtain ⟨visited0, hperm, hpv⟩ := DispatchInv_sending s0 y hinv rest0 hd
    have hsub : ((visited0 ++ visited).filter fun t => decide (t.Dependencies = [])).Sublist
        (visited0 ++ rest0) := by
      rw [hv, ← List.append_assoc]
      exact (List.filter_sublist _).trans (List.sublist_append_left _ _)
    have hall : y.pushed ++ visited.filter (fun t => decide (t.Dependencies = []))
        = (visited0 ++ visited).filter fun t => decide (t.Dependencies = []) := by
      rw [hpv, List.filter_append]
    refine PushInv_push s0 y y2 _ hp (by rw [hsch]) hp2 hrun2 hprod ?_ ?_ ?_ ?_
    · rw [hall]
      exact (visit_ids_nodup s0 _ hwf hkey hperm).sublist (hsub.map _)
    · intro t ht
      refine hperm.subset (hsub.subset ?_)
      rw [← hall]
      exact List.mem_append_right _ ht
    · intro k hk
      rw [hsch]
      exact hk
    · intro t ht hdeps
      exact absurd (by simpa using (List.mem_filter.mp ht).2) hdeps
  | take =>
    have hprod := sysStep_produced_same y y2 _ hs (by intro i os t0 t1 h; cases h)
    obtain ⟨task, rest, hq, hsch, hrun2, _, hp2⟩ := sysStep_take y y2 hs
    obtain ⟨h1, h2, h3, h4⟩ := hp
    unfold PushInv
    rw [hsch, hp2, hrun2, hprod]
    refine ⟨h1, h2, h3, ?_⟩
    rw [hq] at h4
    simpa only [List.map_append, List.map_cons, List.map_nil, List.append_assoc,
      List.singleton_append] using h4
  | finish i os t0 t1 =>
    obtain ⟨_, _, _, _, hsch, hrun2, _, hp2⟩ := sysStep_finish y y2 i os t0 t1 hs
    obtain ⟨task, result, hget, hid, hprod⟩ := sysStep_finish_produced y y2 i os t0 t1 hs
    obtain ⟨h1, h2, h3, h4⟩ := hp
    unfold PushInv
    rw [hsch, hp2, hrun2, hprod]
    refine ⟨h1, h2, h3, ?_⟩
    have hR : (y.running.map Task.ID).Perm (task.ID :: (y.running.eraseIdx i).map Task.ID) :=
      (perm_cons_eraseIdx y.running i task hget).map Task.ID
    have h5 : (y.produced.map TaskResult.TaskID ++
        (task.ID :: (y.running.eraseIdx i).map Task.ID) ++ y.sched.taskQueue.map Task.ID).Perm
        (y.pushed.map Task.ID) :=
      ((hR.symm.append_left _).append_right _).trans h4
    simpa only [List.map_append, List.map_cons, List.map_nil, List.append_assoc,
      List.singleton_append, hid] using h5
  | process visit =>
    have hprod := sysStep_produced_same y y2 _ hs (by intro i os t0 t1 h; cases h)
    obtain ⟨_, hvis, _, hrun2, r, rest, pushed, _, hsch, hq2, hp2⟩ :=
      sysStep_process y y2 visit hs
    rw [htasks] at hvis
    obtain ⟨pushed1, hq1, hnd1, hfresh1⟩ := checkDependentTasks_pushed_fresh visit
      { y.sched with taskResultQueue := rest,
                     taskResults := y.sched.taskResults.set r.TaskID r,
                     completedTasks := y.sched.completedTasks.set r.TaskID true }
    obtain ⟨_, _, _, hmono, _⟩ := checkDependentTasks_frame visit
      { y.sched with taskResultQueue := rest,
                     taskResults := y.sched.taskResults.set r.TaskID r,
                     completedTasks := y.sched.completedTasks.set r.TaskID true }
    rw [← hsch] at hq1 hfresh1 hmono
    have hsame : pushed = pushed1 := by
      rw [hq2] at hq1
      exact List.append_cancel_left hq1
    rw [← hsame] at hnd1 hfresh1
    refine PushInv_push s0 y y2 pushed hp hq2 hp2 hrun2 hprod ?_ ?_ ?_ ?_
    · rw [List.map_append, List.nodup_append]
      refine ⟨hp.1, hnd1, ?_⟩
      intro k hk1 hk2
      obtain ⟨u, hu, rfl⟩ := List.mem_map.mp hk1
      obtain ⟨t, ht, hid⟩ := List.mem_map.mp hk2
      obtain ⟨htv, htd, htf, _⟩ := hfresh1 t ht
      have hut : t = u :=
        registry_id_inj s0 hwf hkey t u (hvis.subset htv) (hp.2.1 u hu) hid
      have hmarked := hp.2.2.1 u hu (hut ▸ htd)
      have := GoMap.getBool_set_of_true y.sched.completedTasks r.TaskID u.ID hmarked
      rw [hut] at htf
      simp only at htf
      rw [this] at htf
      simp at htf
    · intro t ht
      exact hvis.subset (hfresh1 t ht).1
    · intro k hk
      exact hmono k (GoMap.getBool_set_of_true _ _ _ hk)
    · intro t ht _
      exact (hfresh1 t ht).2.2.2

/-- C27: in every execution that follows one `Start` on a registry built by `AddTask`, no task
is sent on `taskQueue` twice, not even two tasks with the same id; so the results that workers
produce have pairwise different task ids, each of them the id of a task that was sent. -/
theorem each_task_pushed_once (s0 : Scheduler) (acts : List SysAction) (y : Sys)
    (hfresh : s0.Fresh) (hwf : s0.WF) (hkey : s0.KeyedByID)
    (hexec : sysExec (afterStart s0) acts = some y) :
    y.pushed.Nodup ∧ (y.pushed.map Task.ID).Nodup ∧
    (y.produced.map TaskResult.TaskID).Nodup ∧
    ∀ r ∈ y.produced, ∃ t ∈ y.pushed, t.ID = r.TaskID := by
  have hinv := sysExec_invariant (fun y => DispatchInv s0 y ∧ PushInv s0 y)
    (fun y a y2 h hs =>
      ⟨DispatchInv_step s0 y a y2 h.1 hs, PushInv_step s0 hwf hkey y a y2 h.1 h.2 hs⟩)
    acts (afterStart s0) y ⟨DispatchInv_afterStart s0 hfresh, PushInv_afterStart s0 hfresh⟩ hexec
  obtain ⟨h1, _, _, h4⟩ := hinv.2
  have hall := h4.nodup_iff.mpr h1
  refine ⟨List.Nodup.of_map _ h1, h1, (List.Nodup.of_append_left hall).of_append_left, ?_⟩
  intro r hr
  have : r.TaskID ∈ y.pushed.map Task.ID :=
    h4.subset (List.mem_append_left _ (List.mem_append_left _ (List.mem_map_of_mem _ hr)))
  obtain ⟨t, ht, e⟩ := List.mem_map.mp this
  exact ⟨t, ht, e⟩

theorem each_task_pushed_once_witness :
    pairRun.pushed.Nodup ∧ (pairRun.pushed.map Task.ID).Nodup ∧
    (pairRun.produced.map TaskResult.TaskID).Nodup ∧
    ∀ r ∈ pairRun.produced, ∃ t ∈ pairRun.pushed, t.ID = r.TaskID :=
  each_task_pushed_once pairRegistry
    [SysAction.dispatch pairRegistry.tasks.values pairRegistry.tasks.values,
     SysAction.take, SysAction.finish 0 alwaysExit0 0 1,
     SysAction.process pairRegistry.tasks.values] pairRun
    (NewScheduler_AddTasks_invariants 3 _).2.2 (NewScheduler_AddTasks_invariants 3 _).1
    (NewScheduler_AddTasks_invariants 3 _).2.1 (by decide)

end Shell
